import Mathlib

/-!
# libTAS audio mixing engine: a shallow embedding of `AudioSource`

The definitions below follow `src/libTAS/audio/AudioSource.cpp`.

Conventions of the embedding

* C++ `int`, `int64_t` and `uint64_t` values are Lean integers; the places where the
  source relies on modular arithmetic (`uint64_t` products, the cast of a `uint64_t`
  to `int`, the `unsigned int` casts of the clamp macro, stores into `uint8_t` and
  `int16_t` slots) carry an explicit reduction. Signed arithmetic is exact: signed
  overflow, which C++ leaves undefined, is not modelled.
* `AudioSource.h` and `AudioBuffer.h` are not among the sources; the fields they declare
  are taken with the types their uses in `AudioSource.cpp` call for, and `samples_frac`
  as a signed integer.
* `float` values are rationals, and the result of a `float` multiplication is rounded
  to the nearest `float` (`roundFloat32`, IEEE 754 binary32). The member `volume`,
  which `init` sets to `1.0f`, is taken to be a `float` as the parameter `outVolume` is.
* Sample buffers are viewed at sample granularity (one list entry per sample slot),
  not as raw bytes.
* Behaviour the C++ standard leaves undefined (indexing a vector out of range,
  dividing by zero, reading a local that was never assigned) and loops that do not
  terminate are reported as a `Fault`.
* The resampler (libswresample), the deterministic timer and the refill callback
  are outside the file: calls to them are recorded in a trace of `Event`s, and what
  they hand back is a parameter of `mixWith`.
-/

namespace LibTAS

/-! ## Machine integers -/

/-- Conversion to `uint64_t`: reduction modulo `2^64`. -/
def toUInt64 (x : Int) : Int := x % 18446744073709551616

/-- Conversion to `unsigned int`: reduction modulo `2^32`. -/
def toUInt32 (x : Int) : Int := x % 4294967296

/-- Conversion to `int` (two's complement, 32 bits). -/
def toInt32 (x : Int) : Int := (x + 2147483648) % 4294967296 - 2147483648

/-- Conversion to `int16_t` (two's complement). -/
def toInt16 (x : Int) : Int := (x + 32768) % 65536 - 32768

/-- Conversion to `uint8_t`. -/
def toUInt8 (x : Int) : Int := x % 256

/-- The C `struct timespec`. -/
structure timespec where
  tv_sec : Int
  tv_nsec : Int
deriving DecidableEq, Repr

/-- Nanoseconds denoted by a `timespec`, as a mathematical integer. -/
def timespec.nanos (t : timespec) : Int := t.tv_sec * 1000000000 + t.tv_nsec

/-! ## Data model -/

/-- Playback state of a source (`SourceState` of `AudioSource.h`). -/
inductive SourceState where
  | SOURCE_INITIAL
  | SOURCE_PLAYING
  | SOURCE_STOPPED
  | SOURCE_PAUSED
deriving DecidableEq, Repr

/-- Modelled from the spec: `AudioSource.h` is not among the sources. The kind of a
source is one of Undetermined, CallbackFed and QueueFed; `AudioSource.cpp` names
`SOURCE_UNDETERMINED` and `SOURCE_CALLBACK`, the queue-fed kind is called
`SOURCE_QUEUE` here. -/
inductive SourceType where
  | SOURCE_UNDETERMINED
  | SOURCE_QUEUE
  | SOURCE_CALLBACK
deriving DecidableEq, Repr

/-- Sample formats named by the `switch` of `mixWith`; `SAMPLE_FMT_OTHER` stands for
any value that reaches the `default` branch. -/
inductive SampleFormat where
  | SAMPLE_FMT_U8
  | SAMPLE_FMT_S16
  | SAMPLE_FMT_S32
  | SAMPLE_FMT_FLT
  | SAMPLE_FMT_DBL
  | SAMPLE_FMT_MSADPCM
  | SAMPLE_FMT_OTHER
deriving DecidableEq, Repr

/-- Modelled from the spec: `AudioBuffer.h` is not among the sources. An audio buffer
has a format, a frequency, a channel count and a total number of samples
(`sampleSize`); `samples` is its payload. -/
structure AudioBuffer where
  id : Int
  format : SampleFormat
  frequency : Int
  nbChannels : Int
  sampleSize : Int
  samples : List Int
deriving DecidableEq, Repr

/-- Modelled from the spec: `AudioBuffer::getSamples` (`AudioBuffer.cpp`) is not among
the sources. The read accessor returns how many samples are actually available from
`position` on, which may be less than the `nbSamples` requested at the end of the
buffer: `min(nbSamples, sampleSize - position)`. -/
def AudioBuffer.getSamples (self : AudioBuffer) (nbSamples position : Int) : Int :=
  min nbSamples (self.sampleSize - position)

/-- The fields of `AudioSource` that `AudioSource.cpp` reads or writes.
`swr_initialized` is what `swr_is_initialized(swr)` reports and `mixedSamples` is the
scratch vector of converted samples. -/
structure AudioSource where
  id : Int
  position : Int
  samples_frac : Int
  volume : ℚ
  source : SourceType
  looping : Bool
  state : SourceState
  queue_index : Int
  buffer_queue : List AudioBuffer
  swr_initialized : Bool
  mixedSamples : List Int
deriving DecidableEq

namespace AudioSource

/-- The constructor `AudioSource::AudioSource`. -/
def new : AudioSource :=
  { id := 0
    position := 0
    samples_frac := 0
    volume := 1
    source := SourceType.SOURCE_UNDETERMINED
    looping := false
    state := SourceState.SOURCE_INITIAL
    queue_index := 0
    buffer_queue := []
    swr_initialized := false
    mixedSamples := [] }

/-- The method `AudioSource::ticksToSamples`: returns the number of samples and the
source with its `samples_frac` updated. -/
def ticksToSamples (self : AudioSource) (ticks : timespec) (frequency : Int) :
    Int × AudioSource :=
  let nsecs := toUInt64 (toUInt64 ticks.tv_sec * 1000000000 + ticks.tv_nsec)
  let samples := toUInt64 (nsecs * frequency) / 1000000000
  let frac := self.samples_frac + toUInt64 (nsecs * frequency) % 1000000000
  if 500000000 ≤ frac then
    (toInt32 (toUInt64 (samples + 1)), { self with samples_frac := frac - 1000000000 })
  else
    (toInt32 samples, { self with samples_frac := frac })

/-- The method `AudioSource::init`. -/
def init (self : AudioSource) : AudioSource :=
  { self with position := 0, samples_frac := 0, queue_index := 0, swr_initialized := false }

/-- The method `AudioSource::nbQueue`. -/
def nbQueue (self : AudioSource) : Int := self.buffer_queue.length

/-- The method `AudioSource::nbQueueProcessed`. -/
def nbQueueProcessed (self : AudioSource) : Int := self.queue_index

/-- The method `AudioSource::queueSize`: total of the buffers' sample counts. -/
def queueSize (self : AudioSource) : Int :=
  self.buffer_queue.foldl (fun totalSize buffer => totalSize + buffer.sampleSize) 0

/-- The method `AudioSource::getPosition`: the sizes of the buffers before
`queue_index`, plus `position`. -/
def getPosition (self : AudioSource) : Int :=
  (self.buffer_queue.take self.queue_index.toNat).foldl
    (fun totalPos buffer => totalPos + buffer.sampleSize) 0 + self.position

/-- Successive `ticksToSamples` calls at one frequency: the sum of the returned
sample counts and the source after the last call. -/
def ticksToSamplesSeq (frequency : Int) : AudioSource → List timespec → Int × AudioSource
  | self, [] => (0, self)
  | self, t :: ts =>
    let r := self.ticksToSamples t frequency
    let rest := ticksToSamplesSeq frequency r.2 ts
    (r.1 + rest.1, rest.2)

end AudioSource

/-! ## The environment of `mixWith` -/

/-- Ways in which an execution leaves defined behaviour or does not finish. -/
inductive Fault where
  /-- A vector is indexed outside its bounds. -/
  | indexOutOfRange
  /-- An integer division by zero. -/
  | divisionByZero
  /-- The locals `finalIndex` / `finalPos` are read without having been assigned. -/
  | unassignedRead
  /-- A loop has not finished within the allotted number of iterations. -/
  | outOfFuel
deriving DecidableEq, Repr

/-- The calls out of `AudioSource.cpp` that the statements speak about, in the order in
which `mixWith` makes them. -/
inductive Event where
  /-- The error log of the `default` branch of the format switch. -/
  | logUnknownFormat
  /-- A call `swr_init(swr)`, made when the context is not initialised yet, after the
  input and output sample rates have been set. -/
  | swr_init (in_sample_rate out_sample_rate : Int)
  /-- The error log after a failed `swr_init`. -/
  | logSwrInitError
  /-- A call `detTimer.fakeAdvanceTimer(extraTicks)`. -/
  | fakeAdvanceTimer (extraTicks : timespec)
  /-- A call `callback(curBuf)`. -/
  | callback
  /-- A call `swr_convert(swr, out, out_count, in, in_count)`; `out_count` is `0` when
  the call only feeds input. -/
  | swr_convert (out_count in_count : Int)
deriving DecidableEq, Repr

/-- What libswresample answers during one `mixWith` call. -/
structure Resampler where
  /-- Whether `swr_init(swr)` succeeds, should it be called. -/
  init_ok : Bool
  /-- The value returned by the `swr_convert` call that asks for output. -/
  convOutSamples : Int
  /-- The samples which that call writes, from the start of `mixedSamples` on. -/
  converted : List Int
deriving DecidableEq, Repr

/-- What a `mixWith` call leaves behind: the returned value, the source, the output
buffer, the state of the refill callback and the trace of outside calls. -/
structure MixResult (σ : Type) where
  ret : Int
  self : AudioSource
  outSamples : List Int
  env : σ
  trace : List Event

/-! ## Gain and saturating addition -/

/-- The C cast `(int)` of a floating-point value: truncation toward zero. -/
def truncToInt (q : ℚ) : Int := if 0 ≤ q then ⌊q⌋ else ⌈q⌉

/-- Rounding of a rational to the nearest integer, a tie going to the even one. -/
def roundHalfEven (q : ℚ) : Int :=
  if q - ⌊q⌋ < 1 / 2 then ⌊q⌋
  else if 1 / 2 < q - ⌊q⌋ then ⌊q⌋ + 1
  else if ⌊q⌋ % 2 = 0 then ⌊q⌋ else ⌊q⌋ + 1

/-- The spacing of the `float` numbers (IEEE 754 binary32, 24 significant bits) around
`q`: `2^(e - 23)` when `2^e ≤ |q| < 2^(e + 1)`, and `2^(-149)` for the subnormal numbers
below `2^(-126)`. -/
def float32Spacing (q : ℚ) : ℚ := (2 : ℚ) ^ (max (Int.log 2 |q|) (-126) - 23)

/-- The value of a `float` operation whose exact result is `q`: the nearest `float`
number, a tie going to the one with an even significand (the default rounding mode, the
operation being evaluated in `float` as on x86-64). Overflow is left out: past the
largest `float` the code gets an infinity, which compares with `1.0` as this value
does. -/
def roundFloat32 (q : ℚ) : ℚ := (roundHalfEven (q / float32Spacing q) : ℚ) * float32Spacing q

/-- The local `resultVolume` of `mixWith`: `volume` and `outVolume` are `float`s, their
product is a `float`, and the comparison with `1.0` and the conversion of the result
back to `float` are exact. -/
def resultVolume (volume outVolume : ℚ) : ℚ :=
  if roundFloat32 (volume * outVolume) > 1 then 1 else roundFloat32 (volume * outVolume)

/-- The locals `lvas` and `rvas` of `mixWith` (both have the same initialiser),
`(int)(resultVolume * 65536.0f)`: a `float` product, then the cast. The cast is defined
when the product lies within the range of `int`. -/
def gainFactor (volume outVolume : ℚ) : Int :=
  truncToInt (roundFloat32 (resultVolume volume outVolume * 65536))

/-- The macro `clamptofullsignedrange(x,lo,hi)`. -/
def clamptofullsignedrange (x lo hi : Int) : Int :=
  if toUInt32 (x - lo) ≤ toUInt32 (hi - lo) then x else (if x < 0 then lo else hi)

/-- The value stored in the left slot of an 8-bit frame:
`clamptofullsignedrange(otherL + ((myL * lvas) >> 16) - 256, 0, UINT8_MAX)`. -/
def mixLeft8 (otherL myL lvas : Int) : Int :=
  toUInt8 (clamptofullsignedrange (otherL + ((myL * lvas) >>> (16 : Nat)) - 256) 0 255)

/-- The value stored in the right slot of an 8-bit frame:
`clamptofullsignedrange(otherR + ((myR * rvas) >> 16), 0, UINT8_MAX)`. -/
def mixRight8 (otherR myR rvas : Int) : Int :=
  toUInt8 (clamptofullsignedrange (otherR + ((myR * rvas) >>> (16 : Nat))) 0 255)

/-- The value stored in either slot of a 16-bit frame:
`clamptofullsignedrange(other + ((my * vas) >> 16), INT16_MIN, INT16_MAX)`. -/
def mixSample16 (other my vas : Int) : Int :=
  toInt16 (clamptofullsignedrange (other + ((my * vas) >>> (16 : Nat))) (-32768) 32767)

/-- Reading slot `i` of a vector. -/
def sampleAt (v : List Int) (i : Int) : Option Int :=
  if 0 ≤ i then v[i.toNat]? else none

/-- One iteration of the 8-bit loop of `mixWith`, at index `s`. -/
def mixFrame8 (mixedSamples : List Int) (lvas rvas outNbChannels : Int) (s : Int)
    (outSamples : List Int) : Except Fault (List Int) :=
  match sampleAt mixedSamples s, sampleAt outSamples s with
  | some myL, some otherL =>
    let out1 := outSamples.set s.toNat (mixLeft8 otherL myL lvas)
    if outNbChannels = 2 then
      match sampleAt mixedSamples (s + 1), sampleAt out1 (s + 1) with
      | some myR, some otherR => .ok (out1.set (s + 1).toNat (mixRight8 otherR myR rvas))
      | _, _ => .error .indexOutOfRange
    else .ok out1
  | _, _ => .error .indexOutOfRange

/-- One iteration of the 16-bit loop of `mixWith`, at index `s`. -/
def mixFrame16 (mixedSamples : List Int) (lvas rvas outNbChannels : Int) (s : Int)
    (outSamples : List Int) : Except Fault (List Int) :=
  match sampleAt mixedSamples s, sampleAt outSamples s with
  | some myL, some otherL =>
    let out1 := outSamples.set s.toNat (mixSample16 otherL myL lvas)
    if outNbChannels = 2 then
      match sampleAt mixedSamples (s + 1), sampleAt out1 (s + 1) with
      | some myR, some otherR => .ok (out1.set (s + 1).toNat (mixSample16 otherR myR rvas))
      | _, _ => .error .indexOutOfRange
    else .ok out1
  | _, _ => .error .indexOutOfRange

/-- The loop `for (int s=0; s<convOutSamples*outNbChannels; s+=outNbChannels)` around
a frame body; `limit` is `convOutSamples*outNbChannels`. -/
def mixLoop (body : Int → List Int → Except Fault (List Int)) (outNbChannels limit : Int) :
    Nat → Int → List Int → Except Fault (List Int)
  | 0, s, outSamples => if s < limit then .error .outOfFuel else .ok outSamples
  | fuel + 1, s, outSamples =>
    if s < limit then
      match body s outSamples with
      | .ok out1 => mixLoop body outNbChannels limit fuel (s + outNbChannels) out1
      | .error e => .error e
    else .ok outSamples

/-- The part of `mixWith` that adds the converted samples to the output buffer. -/
def mixOutput (mixedSamples : List Int) (convOutSamples lvas rvas outBitDepth outNbChannels : Int)
    (outSamples : List Int) : Except Fault (List Int) :=
  let limit := convOutSamples * outNbChannels
  match
    (if outBitDepth = 8 then
      mixLoop (mixFrame8 mixedSamples lvas rvas outNbChannels) outNbChannels limit
        limit.toNat 0 outSamples
    else .ok outSamples) with
  | .error e => .error e
  | .ok out1 =>
    if outBitDepth = 16 then
      mixLoop (mixFrame16 mixedSamples lvas rvas outNbChannels) outNbChannels limit
        limit.toNat 0 out1
    else .ok out1

/-! ## Queue traversal -/

/-- The refill loop of `mixWith` for a callback-fed source (`while (remainingSamples > 0)`).
`callback` acts on its own state and on the buffer it is handed. Returns the state of
the callback, the refilled buffer and `position`. -/
def refillLoop {σ : Type} (callback : σ → AudioBuffer → σ × AudioBuffer) :
    Nat → σ → AudioBuffer → Int → Int → List Event →
      Except Fault (σ × AudioBuffer × Int × List Event)
  | 0, env, curBuf, remainingSamples, position, trace =>
    if 0 < remainingSamples then .error .outOfFuel else .ok (env, curBuf, position, trace)
  | fuel + 1, env, curBuf, remainingSamples, position, trace =>
    if 0 < remainingSamples then
      if curBuf.frequency = 0 then .error .divisionByZero
      else
        let extraTicks := (1000000000 * (-remainingSamples)).tdiv curBuf.frequency
        let refilled := callback env curBuf
        let availableSamples := refilled.2.getSamples remainingSamples 0
        refillLoop callback fuel refilled.1 refilled.2 (remainingSamples - availableSamples)
          (if remainingSamples = availableSamples then availableSamples else position)
          (trace ++ [Event.fakeAdvanceTimer
                        ⟨extraTicks.tdiv 1000000000, extraTicks.tmod 1000000000⟩,
                     Event.callback,
                     Event.fakeAdvanceTimer ⟨0, 0⟩,
                     Event.swr_convert 0 availableSamples])
    else .ok (env, curBuf, position, trace)

/-- The traversal loop of `mixWith` for a looping queue-fed source
(`for (int i=(queue_index+1)%queue_size; remainingSamples>0; i=(i+1)%queue_size)`).
`final` holds `finalIndex` and `finalPos`, `none` as long as they are unassigned.
Returns `remainingSamples` and `final`. -/
def loopQueue (buffer_queue : List AudioBuffer) :
    Nat → Nat → Int → Option (Int × Int) → List Event →
      Except Fault (Int × Option (Int × Int) × List Event)
  | 0, _, remainingSamples, final, trace =>
    if 0 < remainingSamples then .error .outOfFuel else .ok (remainingSamples, final, trace)
  | fuel + 1, i, remainingSamples, final, trace =>
    if 0 < remainingSamples then
      match buffer_queue[i]? with
      | none => .error .indexOutOfRange
      | some loopbuf =>
        let availableSamples := loopbuf.getSamples remainingSamples 0
        loopQueue buffer_queue fuel ((i + 1) % buffer_queue.length)
          (remainingSamples - availableSamples)
          (if remainingSamples = availableSamples then some ((i : Int), availableSamples)
           else final)
          (trace ++ [Event.swr_convert 0 availableSamples])
    else .ok (remainingSamples, final, trace)

/-- The traversal loop of `mixWith` for a non-looping queue-fed source
(`for (int i=queue_index+1; (remainingSamples>0) && (i<queue_size); i++)`).
The first argument bounds the number of iterations; `queue_size - i` is enough. -/
def walkQueue (buffer_queue : List AudioBuffer) :
    Nat → Nat → Int → Option (Int × Int) → List Event →
      Except Fault (Int × Option (Int × Int) × List Event)
  | 0, i, remainingSamples, final, trace =>
    if 0 < remainingSamples ∧ i < buffer_queue.length then .error .outOfFuel
    else .ok (remainingSamples, final, trace)
  | fuel + 1, i, remainingSamples, final, trace =>
    if 0 < remainingSamples ∧ i < buffer_queue.length then
      match buffer_queue[i]? with
      | none => .error .indexOutOfRange
      | some loopbuf =>
        let availableSamples := loopbuf.getSamples remainingSamples 0
        walkQueue buffer_queue fuel (i + 1)
          (remainingSamples - availableSamples)
          (if remainingSamples = availableSamples then some ((i : Int), availableSamples)
           else final)
          (trace ++ [Event.swr_convert 0 availableSamples])
    else .ok (remainingSamples, final, trace)

/-- The part of `mixWith` that advances the cursor of the source by `inNbSamples`
samples, from the call of `getSamples` on the current buffer to the end of the
`if (availableSamples == inNbSamples) ... else ...` statement. `curBuf` is
`buffer_queue[queue_index]` and `outNbSamples` the capacity handed to `swr_convert`. -/
def advance {σ : Type} (fuel : Nat) (callback : σ → AudioBuffer → σ × AudioBuffer)
    (self : AudioSource) (env : σ) (curBuf : AudioBuffer) (inNbSamples outNbSamples : Int)
    (trace : List Event) : Except Fault (AudioSource × σ × List Event) :=
  let oldPosition := self.position
  let newPosition := self.position + inNbSamples
  let availableSamples := curBuf.getSamples inNbSamples oldPosition
  if availableSamples = inNbSamples then
    .ok ({ self with position := newPosition }, env,
      trace ++ [Event.swr_convert outNbSamples inNbSamples])
  else
    let trace1 :=
      if 0 < availableSamples then trace ++ [Event.swr_convert 0 availableSamples] else trace
    let remainingSamples := inNbSamples - availableSamples
    if self.source = SourceType.SOURCE_CALLBACK then
      match refillLoop callback fuel env curBuf remainingSamples self.position trace1 with
      | .error e => .error e
      | .ok (env1, curBuf1, position1, trace2) =>
        .ok ({ self with
                position := position1
                buffer_queue := self.buffer_queue.set self.queue_index.toNat curBuf1 },
             env1, trace2 ++ [Event.swr_convert outNbSamples 0])
    else
      let queue_size := self.buffer_queue.length
      match
        (if self.looping then
          loopQueue self.buffer_queue fuel ((self.queue_index.toNat + 1) % queue_size)
            remainingSamples none trace1
         else
          walkQueue self.buffer_queue (queue_size - (self.queue_index.toNat + 1))
            (self.queue_index.toNat + 1) remainingSamples none trace1) with
      | .error e => .error e
      | .ok (remaining1, final, trace2) =>
        if 0 < remaining1 then
          .ok ({ self.init with state := SourceState.SOURCE_STOPPED }, env,
            trace2 ++ [Event.swr_convert outNbSamples 0])
        else
          match final with
          | none => .error .unassignedRead
          | some (finalIndex, finalPos) =>
            .ok ({ self with queue_index := finalIndex, position := finalPos }, env,
              trace2 ++ [Event.swr_convert outNbSamples 0])

/-- The outside calls of the conversion setup of `mixWith`: the error log of an unknown
sample format, then `swr_init` when the context is not initialised yet. -/
def setupTrace (self : AudioSource) (curBuf : AudioBuffer) (outFrequency : Int) : List Event :=
  (if curBuf.format = SampleFormat.SAMPLE_FMT_OTHER then [Event.logUnknownFormat] else [])
    ++ (if self.swr_initialized then [] else [Event.swr_init curBuf.frequency outFrequency])

/-- Element `i` of the buffer queue, for a C `int` index. -/
def bufferAt (buffer_queue : List AudioBuffer) (i : Int) : Option AudioBuffer :=
  if 0 ≤ i then buffer_queue[i.toNat]? else none

/-- The scratch vector after `mixedSamples.resize(outBytes)`, counted in samples of
`outBitDepth` bits: the samples already there are kept up to the new size, and new ones
are zero. -/
def resizeMixed (mixedSamples : List Int) (outBytes outBitDepth : Int) : List Int :=
  mixedSamples.take (outBytes.tdiv (outBitDepth.tdiv 8)).toNat
    ++ List.replicate ((outBytes.tdiv (outBitDepth.tdiv 8)).toNat - mixedSamples.length) 0

/-- The scratch vector when `mixWith` is through with the resampler: resized to
`outBytes`, then written from its start by the `swr_convert` call that asks for output,
with the `convOutSamples` frames of `outNbChannels` samples that the call produces; the
call does not write past the end of the vector. -/
def mixedAfter (swr : Resampler) (mixedSamples : List Int)
    (outBytes outBitDepth outNbChannels : Int) : List Int :=
  swr.converted.take
      (min (swr.convOutSamples * outNbChannels).toNat
        (resizeMixed mixedSamples outBytes outBitDepth).length)
    ++ (resizeMixed mixedSamples outBytes outBitDepth).drop
        (swr.converted.take
          (min (swr.convOutSamples * outNbChannels).toNat
            (resizeMixed mixedSamples outBytes outBitDepth).length)).length

/-- The method `AudioSource::mixWith`, compiled with the resampler enabled.
`fuel` bounds the iterations of the refill loop and of the looping traversal;
`callback` and `swr` stand for the refill callback and for libswresample. -/
def AudioSource.mixWith {σ : Type} (fuel : Nat) (callback : σ → AudioBuffer → σ × AudioBuffer)
    (swr : Resampler) (self : AudioSource) (env : σ) (ticks : timespec)
    (outSamples : List Int) (outBytes outBitDepth outNbChannels outFrequency : Int)
    (outVolume : ℚ) : Except Fault (MixResult σ) :=
  if self.state ≠ SourceState.SOURCE_PLAYING then
    .ok ⟨-1, self, outSamples, env, []⟩
  else if self.buffer_queue.isEmpty then
    .ok ⟨-1, self, outSamples, env, []⟩
  else
    match bufferAt self.buffer_queue self.queue_index with
    | none => .error .indexOutOfRange
    | some curBuf =>
      let trace0 := setupTrace self curBuf outFrequency
      if ¬ self.swr_initialized ∧ ¬ swr.init_ok then
        .ok ⟨0, self, outSamples, env, trace0 ++ [Event.logSwrInitError]⟩
      else
        let self1 := { self with swr_initialized := true }
        let lvas := gainFactor self1.volume outVolume
        let rvas := gainFactor self1.volume outVolume
        let counted := self1.ticksToSamples ticks curBuf.frequency
        let inNbSamples := counted.1
        if (outNbChannels * outBitDepth).tdiv 8 = 0 then .error .divisionByZero
        else
          let outNbSamples := outBytes.tdiv ((outNbChannels * outBitDepth).tdiv 8)
          let self2 :=
            { counted.2 with
              mixedSamples :=
                mixedAfter swr self.mixedSamples outBytes outBitDepth outNbChannels }
          match advance fuel callback self2 env curBuf inNbSamples outNbSamples trace0 with
          | .error e => .error e
          | .ok (self3, env1, trace1) =>
            match mixOutput swr.converted swr.convOutSamples lvas rvas outBitDepth
                outNbChannels outSamples with
            | .error e => .error e
            | .ok out1 => .ok ⟨swr.convOutSamples, self3, out1, env1, trace1⟩

/-! ## Vocabulary of the statements -/

/-- Total number of samples in the first `i` buffers of a queue. -/
def sizeBefore (buffer_queue : List AudioBuffer) (i : Nat) : Int :=
  ((buffer_queue.take i).map AudioBuffer.sampleSize).sum

/-- The input sample counts handed to `swr_convert`, in call order. -/
def fedSamples : List Event → List Int
  | [] => []
  | Event.swr_convert _ in_count :: trace => in_count :: fedSamples trace
  | _ :: trace => fedSamples trace

/-- The number of `callback` invocations in a trace. -/
def callbackCount (trace : List Event) : Nat := trace.count Event.callback

/-- The output request stays within the vectors it indexes: at least one channel, a
non-zero frame size in bytes, and `convOutSamples` frames present both in the converted
samples and in the output buffer. -/
@[reducible] def OutputFits (swr : Resampler) (outSamples : List Int)
    (outBitDepth outNbChannels : Int) : Prop :=
  1 ≤ outNbChannels ∧ (outNbChannels * outBitDepth).tdiv 8 ≠ 0
    ∧ swr.convOutSamples * outNbChannels ≤ swr.converted.length
    ∧ swr.convOutSamples * outNbChannels ≤ outSamples.length

/-- The resampler is usable in this call: already initialised, or `swr_init` succeeds. -/
@[reducible] def ResamplerReady (swr : Resampler) (self : AudioSource) : Prop :=
  self.swr_initialized = true ∨ swr.init_ok = true

/-- The source as `mixWith` hands it to the traversal: the resampler is initialised,
`samples_frac` has been updated by `ticksToSamples` and `mixedSamples` is `mixed`, the
scratch vector as the call leaves it. -/
def beforeAdvance (mixed : List Int) (self : AudioSource) (ticks : timespec)
    (curBuf : AudioBuffer) : AudioSource :=
  { ({ self with swr_initialized := true }.ticksToSamples ticks curBuf.frequency).2 with
    mixedSamples := mixed }

/-- The outside calls of one pass through the refill loop: the override handed to
`fakeAdvanceTimer`, the callback, the reset of the override, and the `swr_convert` call
that consumes `refill.2` samples of the refilled buffer. -/
def refillEvents (refill : timespec × Int) : List Event :=
  [Event.fakeAdvanceTimer refill.1, Event.callback, Event.fakeAdvanceTimer ⟨0, 0⟩,
   Event.swr_convert 0 refill.2]

/-! ## Sample inputs -/

/-- A buffer of `sampleSize` 16-bit mono samples at 1000 Hz. -/
def bufferOfSize (sampleSize : Int) : AudioBuffer :=
  ⟨0, SampleFormat.SAMPLE_FMT_S16, 1000, 1, sampleSize, []⟩

/-- A playing queue-fed source over buffers of 1000 and 500 samples, with the cursor at
sample 900 of the first buffer. -/
def twoBufferSource (looping : Bool) : AudioSource :=
  { AudioSource.new with
    state := SourceState.SOURCE_PLAYING
    source := SourceType.SOURCE_QUEUE
    looping := looping
    position := 900
    buffer_queue := [bufferOfSize 1000, bufferOfSize 500] }

/-- A refill callback that leaves the buffer as it finds it. -/
def idleCallback : Unit → AudioBuffer → Unit × AudioBuffer := fun env buffer => (env, buffer)

/-- A refill callback that leaves 20 samples in the buffer. -/
def refill20 : Unit → AudioBuffer → Unit × AudioBuffer :=
  fun env buffer => (env, { buffer with sampleSize := 20 })

/-- A resampler that initialises and produces no output. -/
def idleResampler : Resampler := ⟨true, 0, []⟩

/-- A playing source whose resampler is already initialised and whose current buffer has
a sample format outside the ones the format switch of `mixWith` names. -/
def unknownFormatSource : AudioSource :=
  { twoBufferSource false with
    swr_initialized := true
    buffer_queue :=
      [{ bufferOfSize 1000 with format := SampleFormat.SAMPLE_FMT_OTHER }, bufferOfSize 500] }

/-! ## Vocabulary of the clock override -/

/-- The offsets handed to `fakeAdvanceTimer`, in call order. -/
def overrides : List Event → List timespec
  | [] => []
  | Event.fakeAdvanceTimer extraTicks :: trace => extraTicks :: overrides trace
  | _ :: trace => overrides trace

/-- Every `callback` of the trace has a `fakeAdvanceTimer` call right before it and the
call `fakeAdvanceTimer({0, 0})` right after it, and the trace has no `fakeAdvanceTimer`
call besides these. -/
def bracketed : List Event → Bool
  | [] => true
  | Event.fakeAdvanceTimer _ :: Event.callback :: Event.fakeAdvanceTimer reset :: trace =>
    decide (reset = ⟨0, 0⟩) && bracketed trace
  | Event.fakeAdvanceTimer _ :: _ => false
  | Event.callback :: _ => false
  | _ :: trace => bracketed trace

/-! ## The deterministic timer

`DeterministicTimer.h` declares the class; `DeterministicTimer.cpp` and `TimeHolder.h` are
not among the sources, so the operations follow the description of the virtual clock. -/

/-- The enumerators of `TimeCallType` that name a kind of query
(`TIMETYPE_NUMTRACKEDTYPES` is their count, not a kind). -/
inductive TimeCallType where
  | TIMETYPE_UNTRACKED
  | TIMETYPE_TIME
  | TIMETYPE_GETTIMEOFDAY
  | TIMETYPE_CLOCK
  | TIMETYPE_CLOCKGETTIME
  | TIMETYPE_SDLGETTICKS
  | TIMETYPE_SDLGETPERFORMANCECOUNTER
deriving DecidableEq, Repr

/-- The slot of a tracked kind in `altGetTimes` and `altGetTimeLimits` (the value of the
enumerator); the untracked kind, of value `-1`, has none. -/
def TimeCallType.slot : TimeCallType → Option Nat
  | TIMETYPE_UNTRACKED => none
  | TIMETYPE_TIME => some 0
  | TIMETYPE_GETTIMEOFDAY => some 1
  | TIMETYPE_CLOCK => some 2
  | TIMETYPE_CLOCKGETTIME => some 3
  | TIMETYPE_SDLGETTICKS => some 4
  | TIMETYPE_SDLGETPERFORMANCECOUNTER => some 5

/-- The enumerator `TIMETYPE_NUMTRACKEDTYPES`. -/
def TIMETYPE_NUMTRACKEDTYPES : Nat := 6

/-- Modelled from the spec: `TimeHolder.h` is not among the sources. A time value has
seconds and nanoseconds; this is the value that denotes `n` nanoseconds with
`0 ≤ tv_nsec < 10^9`. -/
def timespec.ofNanos (n : Int) : timespec := ⟨n / 1000000000, n % 1000000000⟩

/-- Modelled from the spec: `TimeHolder.h` is not among the sources. The sum of two time
values (`operator+`, `operator+=`), formed on the nanosecond counts. -/
def timespec.add (a b : timespec) : timespec := timespec.ofNanos (a.nanos + b.nanos)

/-- Modelled from the spec: `TimeHolder.h` is not among the sources. The difference of
two time values (`operator-`, `operator-=`), formed on the nanosecond counts. -/
def timespec.sub (a b : timespec) : timespec := timespec.ofNanos (a.nanos - b.nanos)

/-- The data members of the class `DeterministicTimer` (`DeterministicTimer.h`), the
mutex apart. The arrays `altGetTimes` and `altGetTimeLimits` have one slot per tracked
kind of query. -/
structure DeterministicTimer where
  getTimes : Nat
  timeIncrement : timespec
  fractional_part : Nat
  ticks : timespec
  lastEnterTicks : timespec
  fakeExtraTicks : timespec
  lastEnterTime : timespec
  lastEnterValid : Bool
  addedDelay : timespec
  forceAdvancedTicks : timespec
  drawFB : Bool
  altGetTimes : List Nat
  altGetTimeLimits : List Nat
deriving DecidableEq, Repr

namespace DeterministicTimer

/-- Modelled from the spec: the member function that sets the timer up
(`DeterministicTimer.cpp`) is not among the sources; its name is a reserved word here,
hence the spelling. It resets all counters to zero, marks the last frame entry as not
valid and configures the limit of every tracked kind of query; the limits are a
parameter. -/
def initialise (limits : List Nat) : DeterministicTimer :=
  { getTimes := 0
    timeIncrement := ⟨0, 0⟩
    fractional_part := 0
    ticks := ⟨0, 0⟩
    lastEnterTicks := ⟨0, 0⟩
    fakeExtraTicks := ⟨0, 0⟩
    lastEnterTime := ⟨0, 0⟩
    lastEnterValid := false
    addedDelay := ⟨0, 0⟩
    forceAdvancedTicks := ⟨0, 0⟩
    drawFB := true
    altGetTimes := List.replicate TIMETYPE_NUMTRACKEDTYPES 0
    altGetTimeLimits := limits }

/-- Modelled from the spec: `DeterministicTimer::getTicks` (`DeterministicTimer.cpp`) is
not among the sources. The query returns `ticks + forcedAdvance + scopedOverride`, as
they are at query time. For a tracked kind it increments the consecutive-call counter of
the kind; if the counter exceeds its limit, a fixed increment (`forcedIncrement`) is
injected into the forced advance and the counter is reset. The untracked kind changes
nothing. -/
def getTicks (forcedIncrement : timespec) (self : DeterministicTimer) (type : TimeCallType) :
    timespec × DeterministicTimer :=
  let now := (self.ticks.add self.forceAdvancedTicks).add self.fakeExtraTicks
  match type.slot with
  | none => (now, self)
  | some k =>
    let count := self.altGetTimes.getD k 0 + 1
    if self.altGetTimeLimits.getD k 0 < count then
      (now, { self with
                altGetTimes := self.altGetTimes.set k 0
                forceAdvancedTicks := self.forceAdvancedTicks.add forcedIncrement })
    else
      (now, { self with altGetTimes := self.altGetTimes.set k count })

/-- Modelled from the spec: the nominal increment of the next frame, in nanoseconds.
The division `10^9 / framerate` is carried out in fixed point: the quotient, plus one
when the remainder carried in `fractional_part` reaches `framerate`. -/
def nominalIncrement (framerate : Nat) (self : DeterministicTimer) : Nat :=
  if framerate ≤ self.fractional_part + 1000000000 % framerate then
    1000000000 / framerate + 1
  else 1000000000 / framerate

/-- Modelled from the spec: `DeterministicTimer::enterFrameBoundary`
(`DeterministicTimer.cpp`) is not among the sources. It computes the nominal increment
of the frame, carrying the fractional remainder; adds the accumulated delay and the
forced advance to it and zeroes both; advances `ticks` by the total; resets the
consecutive-call counters; and records `ticks` as the time of the last frame entry. The
frame rate is a parameter. -/
def enterFrameBoundary (framerate : Nat) (self : DeterministicTimer) : DeterministicTimer :=
  let carried := self.fractional_part + 1000000000 % framerate
  let timeIncrement : timespec := ⟨0, (nominalIncrement framerate self : Nat)⟩
  let total := (timeIncrement.add self.addedDelay).add self.forceAdvancedTicks
  let ticks := self.ticks.add total
  { self with
    timeIncrement := timeIncrement
    fractional_part := if framerate ≤ carried then carried - framerate else carried
    ticks := ticks
    lastEnterTicks := ticks
    addedDelay := ⟨0, 0⟩
    forceAdvancedTicks := ⟨0, 0⟩
    altGetTimes := List.replicate self.altGetTimes.length 0 }

/-- Modelled from the spec: `DeterministicTimer::addDelay` (`DeterministicTimer.cpp`) is
not among the sources. It adds the duration to the accumulated delay, to be consumed by
the next frame entry; the real sleep it may perform leaves the timer as it is. -/
def addDelay (self : DeterministicTimer) (delayTicks : timespec) : DeterministicTimer :=
  { self with addedDelay := self.addedDelay.add delayTicks }

/-- Modelled from the spec: `DeterministicTimer::fakeAdvanceTimer`
(`DeterministicTimer.cpp`) is not among the sources. It sets the scoped override to the
offset it is given; `{0, 0}` clears it. -/
def fakeAdvanceTimer (self : DeterministicTimer) (extraTicks : timespec) : DeterministicTimer :=
  { self with fakeExtraTicks := extraTicks }

/-- Successive `enterFrameBoundary` calls, with nothing in between. -/
def frames (framerate : Nat) : Nat → DeterministicTimer → DeterministicTimer
  | 0, self => self
  | n + 1, self => (frames framerate n self).enterFrameBoundary framerate

end DeterministicTimer

/-! ## Diverted waits (`sleep.cpp`) -/

/-- The calls that leave `sleep.cpp`, in the order in which an override makes them. -/
inductive SleepCall where
  /-- A call `detTimer.addDelay(delayTicks)`. -/
  | addDelay (delayTicks : timespec)
  /-- A call `detTimer.getTicks(type)`. -/
  | getTicks (type : TimeCallType)
  /-- A call `orig::nanosleep(requested_time, ...)`, the real wait. -/
  | nanosleep (requested_time : timespec)
deriving DecidableEq, Repr

/-- The override `SDL_Delay(unsigned int sleep)`. `mainT` is `isMainThread()` and `native`
is `threadState.isNative()`. -/
def SDL_Delay (mainT native : Bool) (sleep : Nat) : List SleepCall :=
  let ts : timespec := ⟨(sleep / 1000 : Nat), ((sleep % 1000) * 1000000 : Nat)⟩
  if sleep ≠ 0 ∧ mainT = true ∧ ¬ native = true then
    [SleepCall.addDelay ts, SleepCall.nanosleep ⟨0, 0⟩]
  else [SleepCall.nanosleep ts]

/-- The override `usleep(useconds_t usec)`: the value it returns and the calls it makes. -/
def usleep (mainT native : Bool) (usec : Nat) : Int × List SleepCall :=
  let ts : timespec := ⟨(usec / 1000000 : Nat), ((usec % 1000000) * 1000 : Nat)⟩
  if usec ≠ 0 ∧ mainT = true ∧ ¬ native = true then
    (0, [SleepCall.addDelay ts, SleepCall.nanosleep ⟨0, 0⟩])
  else (0, [SleepCall.nanosleep ts])

/-- The override `nanosleep(requested_time, remaining)`: the value it returns and the
calls it makes. `orig_nanosleep` gives what the real `nanosleep` returns. -/
def nanosleep (orig_nanosleep : timespec → Int) (mainT native : Bool)
    (requested_time : timespec) : Int × List SleepCall :=
  if mainT = true ∧ ¬ native = true then
    (orig_nanosleep ⟨0, 0⟩, [SleepCall.addDelay requested_time, SleepCall.nanosleep ⟨0, 0⟩])
  else (orig_nanosleep requested_time, [SleepCall.nanosleep requested_time])

/-- The time `clock_nanosleep` waits for: the requested time when `flags == 0`, else the
requested time minus the current time of the deterministic timer. -/
def sleeptime (flags : Int) (req curtime : timespec) : timespec :=
  if flags = 0 then req else req.sub curtime

/-- The override `clock_nanosleep(clock_id, flags, req, rem)`: the value it returns and
the calls it makes. `curtime` is what `detTimer.getTicks` answers, should it be asked. -/
def clock_nanosleep (orig_nanosleep : timespec → Int) (mainT native : Bool)
    (_clock_id flags : Int) (req curtime : timespec) : Int × List SleepCall :=
  let query :=
    if flags = 0 then [] else [SleepCall.getTicks TimeCallType.TIMETYPE_UNTRACKED]
  if mainT = true ∧ ¬ native = true then
    (orig_nanosleep ⟨0, 0⟩,
      query ++ [SleepCall.addDelay (sleeptime flags req curtime), SleepCall.nanosleep ⟨0, 0⟩])
  else
    (orig_nanosleep (sleeptime flags req curtime),
      query ++ [SleepCall.nanosleep (sleeptime flags req curtime)])

/-- The durations handed to `detTimer.addDelay`, in call order. -/
def delaysHanded : List SleepCall → List timespec
  | [] => []
  | SleepCall.addDelay delayTicks :: calls => delayTicks :: delaysHanded calls
  | _ :: calls => delaysHanded calls

/-- The durations of the real waits, in call order. -/
def realWaits : List SleepCall → List timespec
  | [] => []
  | SleepCall.nanosleep requested_time :: calls => requested_time :: realWaits calls
  | _ :: calls => realWaits calls

/-- The kinds of the clock queries, in call order. -/
def clockQueries : List SleepCall → List TimeCallType
  | [] => []
  | SleepCall.getTicks type :: calls => type :: clockQueries calls
  | _ :: calls => clockQueries calls

/-- The effect of the calls of an override on the deterministic timer. -/
def applyCalls (forcedIncrement : timespec) : DeterministicTimer → List SleepCall →
    DeterministicTimer
  | timer, [] => timer
  | timer, SleepCall.addDelay delayTicks :: calls =>
    applyCalls forcedIncrement (timer.addDelay delayTicks) calls
  | timer, SleepCall.getTicks type :: calls =>
    applyCalls forcedIncrement (timer.getTicks forcedIncrement type).2 calls
  | timer, SleepCall.nanosleep _ :: calls => applyCalls forcedIncrement timer calls

/-- The scenario of the scoped override on a timer: a query of kind `k`; then
`fakeAdvanceTimer(X)` and a query of kind `k`; then `fakeAdvanceTimer({0, 0})` and a
query of kind `k`. The result is the three values, in order, and the timer in the end. -/
def overrideScenario (forcedIncrement X : timespec) (timer : DeterministicTimer)
    (k : TimeCallType) : timespec × timespec × timespec × DeterministicTimer :=
  let before := timer.getTicks forcedIncrement k
  let during := (before.2.fakeAdvanceTimer X).getTicks forcedIncrement k
  let after := (during.2.fakeAdvanceTimer ⟨0, 0⟩).getTicks forcedIncrement k
  (before.1, during.1, after.1, after.2)

/-! ## Seeking (`AudioSource::setPosition`) -/

namespace AudioSource

/-- The loop of `AudioSource::setPosition` (`for (int i=0; i<buffer_queue.size(); i++)`)
from index `i` on, `pos` being what is left of the requested position there. The first
argument bounds the number of iterations; `buffer_queue.size() - i` is enough. -/
def setPositionLoop (self : AudioSource) : Nat → Nat → Int → Except Fault AudioSource
  | 0, i, _ => if i < self.buffer_queue.length then .error .outOfFuel else .ok self
  | fuel + 1, i, pos =>
    if i < self.buffer_queue.length then
      match self.buffer_queue[i]? with
      | none => .error .indexOutOfRange
      | some ab =>
        if pos < ab.sampleSize then .ok { self with position := pos, samples_frac := 0 }
        else setPositionLoop self fuel (i + 1) (pos - ab.sampleSize)
    else .ok self

/-- The method `AudioSource::setPosition`. For a looping source `pos %= queueSize()` is
the remainder of C, which is undefined for a divisor of 0. -/
def setPosition (self : AudioSource) (pos : Int) : Except Fault AudioSource :=
  if self.looping then
    if self.queueSize = 0 then .error .divisionByZero
    else self.setPositionLoop self.buffer_queue.length 0 (pos.tmod self.queueSize)
  else self.setPositionLoop self.buffer_queue.length 0 pos

end AudioSource

/-! ## Vocabulary of the override value -/

/-- The offset `T = -(r * 10^9 div f)` in nanoseconds, the division truncating toward
zero, for `r` samples still to be read at frequency `f`. It follows the wording of the
statement, to be compared with what the refill loop hands to `fakeAdvanceTimer`. -/
def overrideOffset (r f : Int) : Int := -((r * 1000000000).tdiv f)

/-- The offset `T` split as `tv_sec = T div 10^9` and `tv_nsec = T rem 10^9`, quotient
and remainder truncating toward zero. -/
def overrideValue (r f : Int) : timespec :=
  ⟨(overrideOffset r f).tdiv 1000000000, (overrideOffset r f).tmod 1000000000⟩

/-- The values of `remainingSamples` and of `curBuf->frequency` at the start of the
successive passes of the refill loop of `mixWith`, for at most `fuel` passes. -/
def refillPasses {σ : Type} (callback : σ → AudioBuffer → σ × AudioBuffer) :
    Nat → σ → AudioBuffer → Int → List (Int × Int)
  | 0, _, _, _ => []
  | fuel + 1, env, curBuf, remainingSamples =>
    if 0 < remainingSamples then
      (remainingSamples, curBuf.frequency) ::
        refillPasses callback fuel (callback env curBuf).1 (callback env curBuf).2
          (remainingSamples - (callback env curBuf).2.getSamples remainingSamples 0)
    else []

/-! ## Symbol resolution (`hook.cpp`) -/

/-- The calls that `link_function` makes, in order. Pointers and handles are numbers,
`0` being the null pointer. -/
inductive LinkCall where
  /-- A call `dlhook_init()`. -/
  | dlhook_init
  /-- A call `dlenter()`. -/
  | dlenter
  /-- A call `dlleave()`. -/
  | dlleave
  /-- The lookup `dlsym(RTLD_NEXT, source)` in the global namespace. -/
  | dlsym_next (source : String)
  /-- A call `find_lib(library)`. -/
  | find_lib (library : String)
  /-- A call `dlopen(libpath, RTLD_LAZY)`. -/
  | dlopen (libpath : String)
  /-- The lookup `dlsym(handle, source)` in an opened library. -/
  | dlsym (handle : Nat) (source : String)
  /-- The error log "Could not import symbol". -/
  | logError (source : String)
deriving DecidableEq, Repr

/-- What the dynamic loader answers. Pointers and handles are numbers, `0` being the
null pointer; `find_lib` answers the empty string when no loaded library matches. -/
structure Loader where
  dlsym_next : String → Nat
  find_lib : String → String
  dlopen : String → Nat
  dlsym : Nat → String → Nat

/-- The function `link_function(void** function, const char* source, const char*
library)`: the value returned, `*function` on return, and the calls made. `function` is
`*function` on entry and `library` is `none` for a null pointer. -/
def link_function (loader : Loader) (function : Nat) (source : String)
    (library : Option String) : Bool × Nat × List LinkCall :=
  if function ≠ 0 then (true, function, [])
  else
    let calls0 := [LinkCall.dlhook_init, LinkCall.dlenter, LinkCall.dlsym_next source]
    let function1 := loader.dlsym_next source
    if function1 ≠ 0 then (true, function1, calls0 ++ [LinkCall.dlleave])
    else
      let failure (calls : List LinkCall) : Bool × Nat × List LinkCall :=
        (false, 0, calls ++ [LinkCall.logError source, LinkCall.dlleave])
      match library with
      | none => failure calls0
      | some library =>
        let libpath := loader.find_lib library
        let calls1 := calls0 ++ [LinkCall.find_lib library]
        if libpath ≠ "" then
          let handle := loader.dlopen libpath
          let calls2 := calls1 ++ [LinkCall.dlopen libpath]
          if handle ≠ 0 then
            let function2 := loader.dlsym handle source
            let calls3 := calls2 ++ [LinkCall.dlsym handle source]
            if function2 ≠ 0 then (true, function2, calls3 ++ [LinkCall.dlleave])
            else failure calls3
          else failure calls2
        else failure calls1

/-- The symbol lookups among the calls: `dlsym` in the global namespace or in a library. -/
def lookups : List LinkCall → List LinkCall
  | [] => []
  | LinkCall.dlsym_next source :: calls => LinkCall.dlsym_next source :: lookups calls
  | LinkCall.dlsym handle source :: calls => LinkCall.dlsym handle source :: lookups calls
  | _ :: calls => lookups calls

/-- The libraries asked of `find_lib`, in call order. -/
def librariesTried : List LinkCall → List String
  | [] => []
  | LinkCall.find_lib library :: calls => library :: librariesTried calls
  | _ :: calls => librariesTried calls

/-- A loader that resolves nothing. -/
def emptyLoader : Loader := ⟨fun _ => 0, fun _ => "", fun _ => 0, fun _ _ => 0⟩

/-- A loader without the symbol in the global namespace, with the library `libGL` at
the path `/usr/lib/libGL.so`, opened as handle 7, where every symbol is at address 42. -/
def libraryLoader : Loader :=
  ⟨fun _ => 0, fun library => if library = "libGL" then "/usr/lib/libGL.so" else "",
    fun libpath => if libpath = "/usr/lib/libGL.so" then 7 else 0,
    fun handle _ => if handle = 7 then 42 else 0⟩

/-! ## The game window (`sdlwindows.cpp`) -/

/-- The message tag that `sdlwindows.cpp` sends (`../shared/messages.h`). -/
inductive MessageTag where
  | MSGB_WINDOW_ID
deriving DecidableEq, Repr

/-- The value of `sizeof(Window)`: an X11 `Window` is an `unsigned long`, 8 bytes on the
64-bit targets of the library. -/
def sizeofWindow : Nat := 8

/-- What `SDL_GetWindowWMInfo(gameWindow, &info)` answers in `sendXid`. -/
inductive WMInfo where
  /-- The call returned `SDL_FALSE`. -/
  | failed
  /-- The call succeeded with `info.subsystem != SDL_SYSWM_X11`. -/
  | notX11
  /-- The call succeeded on X11; `window` is `info.info.x11.window`. -/
  | x11 (window : Nat)
deriving DecidableEq, Repr

/-- The globals `gameWindow` (a pointer, `0` being `nullptr`) and `gw_sent`. -/
structure WindowState where
  gameWindow : Nat
  gw_sent : Bool
deriving DecidableEq, Repr

/-- The globals as they are initialised: `gameWindow = nullptr`, `gw_sent = 0`. -/
def WindowState.initial : WindowState := ⟨0, false⟩

/-- The calls out of `sdlwindows.cpp` that the statements speak about. -/
inductive WindowEvent where
  /-- A call `sendMessage(message)`. -/
  | sendMessage (message : MessageTag)
  /-- A call `sendData(&data, size)`. -/
  | sendData (data size : Nat)
  /-- A call `frameBoundary(true, draw)`, which presents the frame. -/
  | frameBoundary
  /-- An error log. -/
  | logError
deriving DecidableEq, Repr

/-- The function `sendXid`: the value returned, the globals and the calls made. `info`
is the answer of `SDL_GetWindowWMInfo`, should it be asked. -/
def sendXid (s : WindowState) (info : WMInfo) : Int × WindowState × List WindowEvent :=
  if s.gameWindow ≠ 0 then
    if ¬ s.gw_sent = true then
      match info with
      | WMInfo.failed => (-1, s, [WindowEvent.logError])
      | WMInfo.notX11 => (-1, s, [WindowEvent.logError])
      | WMInfo.x11 xgw =>
        (0, { s with gw_sent := true },
          [WindowEvent.sendMessage MessageTag.MSGB_WINDOW_ID,
           WindowEvent.sendData xgw sizeofWindow])
    else (0, s, [])
  else (-1, s, [WindowEvent.logError])

/-- The override `SDL_GL_SwapBuffers` (SDL 1.2), which sends a dummy window id `0`. -/
def SDL_GL_SwapBuffers (s : WindowState) : WindowState × List WindowEvent :=
  if ¬ s.gw_sent = true then
    ({ s with gw_sent := true },
      [WindowEvent.sendMessage MessageTag.MSGB_WINDOW_ID, WindowEvent.sendData 0 sizeofWindow,
       WindowEvent.frameBoundary])
  else (s, [WindowEvent.frameBoundary])

/-- The override `SDL_GL_SwapWindow(window)`. -/
def SDL_GL_SwapWindow (s : WindowState) (_window : Nat) (info : WMInfo) :
    WindowState × List WindowEvent :=
  if (sendXid s info).1 ≠ 0 then ((sendXid s info).2.1, (sendXid s info).2.2)
  else ((sendXid s info).2.1, (sendXid s info).2.2 ++ [WindowEvent.frameBoundary])

/-- The override `SDL_CreateWindow`; `created` is what `orig::SDL_CreateWindow` returns.
The video dump, compiled in with `LIBTAS_ENABLE_AVDUMPING`, touches neither global. -/
def SDL_CreateWindow (_s : WindowState) (created : Nat) : WindowState × List WindowEvent :=
  (⟨created, false⟩, [])

/-- The override `SDL_DestroyWindow(window)`. -/
def SDL_DestroyWindow (s : WindowState) (window : Nat) : WindowState × List WindowEvent :=
  (if s.gameWindow = window then { s with gameWindow := 0 } else s, [])

/-- The override `SDL_CreateWindowAndRenderer`; `created` is `*window` after the call of
`orig::SDL_CreateWindowAndRenderer`. -/
def SDL_CreateWindowAndRenderer (_s : WindowState) (created : Nat) :
    WindowState × List WindowEvent :=
  (⟨created, false⟩, [])

/-- The override `SDL_RenderPresent(renderer)`. -/
def SDL_RenderPresent (s : WindowState) (info : WMInfo) : WindowState × List WindowEvent :=
  if (sendXid s info).1 ≠ 0 then ((sendXid s info).2.1, (sendXid s info).2.2)
  else ((sendXid s info).2.1, (sendXid s info).2.2 ++ [WindowEvent.frameBoundary])

/-- The override `SDL_Flip` (SDL 1.2), which sends a dummy window id `0`. -/
def SDL_Flip (s : WindowState) : WindowState × List WindowEvent :=
  if ¬ s.gw_sent = true then
    ({ s with gw_sent := true },
      [WindowEvent.sendMessage MessageTag.MSGB_WINDOW_ID, WindowEvent.sendData 0 sizeofWindow,
       WindowEvent.frameBoundary])
  else (s, [WindowEvent.frameBoundary])

/-- The override `glXSwapBuffers(dpy, drawable)`. -/
def glXSwapBuffers (s : WindowState) (drawable : Nat) : WindowState × List WindowEvent :=
  if ¬ s.gw_sent = true then
    ({ s with gw_sent := true },
      [WindowEvent.sendMessage MessageTag.MSGB_WINDOW_ID,
       WindowEvent.sendData drawable sizeofWindow, WindowEvent.frameBoundary])
  else (s, [WindowEvent.frameBoundary])

/-- A call of the game to one of the overridden window-creation, window-destruction and
present functions, with what the original functions answer during the call. -/
inductive WindowCall where
  | SDL_CreateWindow (created : Nat)
  | SDL_CreateWindowAndRenderer (created : Nat)
  | SDL_DestroyWindow (window : Nat)
  | SDL_GL_SwapWindow (window : Nat) (info : WMInfo)
  | SDL_RenderPresent (info : WMInfo)
  | SDL_GL_SwapBuffers
  | SDL_Flip
  | glXSwapBuffers (drawable : Nat)
deriving DecidableEq, Repr

/-- The effect of one call on the globals, and the calls it makes. -/
def WindowCall.apply (s : WindowState) : WindowCall → WindowState × List WindowEvent
  | WindowCall.SDL_CreateWindow created => LibTAS.SDL_CreateWindow s created
  | WindowCall.SDL_CreateWindowAndRenderer created => LibTAS.SDL_CreateWindowAndRenderer s created
  | WindowCall.SDL_DestroyWindow window => LibTAS.SDL_DestroyWindow s window
  | WindowCall.SDL_GL_SwapWindow window info => LibTAS.SDL_GL_SwapWindow s window info
  | WindowCall.SDL_RenderPresent info => LibTAS.SDL_RenderPresent s info
  | WindowCall.SDL_GL_SwapBuffers => LibTAS.SDL_GL_SwapBuffers s
  | WindowCall.SDL_Flip => LibTAS.SDL_Flip s
  | WindowCall.glXSwapBuffers drawable => LibTAS.glXSwapBuffers s drawable

/-- A sequence of calls from given globals: the globals in the end, and every call with
the calls it made. -/
def runCalls : WindowState → List WindowCall →
    WindowState × List (WindowCall × List WindowEvent)
  | s, [] => (s, [])
  | s, c :: calls =>
    ((runCalls (c.apply s).1 calls).1, (c, (c.apply s).2) :: (runCalls (c.apply s).1 calls).2)

/-- Whether a call creates a window. -/
def isCreation : WindowCall → Bool
  | WindowCall.SDL_CreateWindow _ => true
  | WindowCall.SDL_CreateWindowAndRenderer _ => true
  | _ => false

/-- The number of window-id messages among the calls made. -/
def idMessages (events : List WindowEvent) : Nat :=
  events.count (WindowEvent.sendMessage MessageTag.MSGB_WINDOW_ID)

/-- The payloads of the `sendData` calls, in order. -/
def payloads : List WindowEvent → List Nat
  | [] => []
  | WindowEvent.sendData data _ :: events => data :: payloads events
  | _ :: events => payloads events

/-- The number of window-id messages sent since the last window-creation call of a run;
`sent` is the number at the start of the run. -/
def sentSinceCreation : Nat → List (WindowCall × List WindowEvent) → Nat
  | sent, [] => sent
  | sent, (c, events) :: log =>
    sentSinceCreation ((if isCreation c = true then 0 else sent) + idMessages events) log

/-- Whether every `sendMessage` in the list is the tag `MSGB_WINDOW_ID` followed at once
by a `sendData` of `sizeof(Window)` bytes, and no `sendData` stands alone. -/
def wellFormedMessages : List WindowEvent → Bool
  | [] => true
  | WindowEvent.sendMessage MessageTag.MSGB_WINDOW_ID :: WindowEvent.sendData _ size :: events =>
    decide (size = sizeofWindow) && wellFormedMessages events
  | WindowEvent.sendMessage _ :: _ => false
  | WindowEvent.sendData _ _ :: _ => false
  | _ :: events => wellFormedMessages events

/-- The window handle that the window-id message of a call carries, should the call send
one: the X11 id that `SDL_GetWindowWMInfo` gives for `gameWindow` in `SDL_GL_SwapWindow`
and `SDL_RenderPresent`, the drawable in `glXSwapBuffers`, and the dummy `0` in the
SDL 1.2 functions `SDL_GL_SwapBuffers` and `SDL_Flip`. The other calls send nothing. -/
def handleOf : WindowCall → Option Nat
  | WindowCall.SDL_GL_SwapWindow _ (WMInfo.x11 window) => some window
  | WindowCall.SDL_RenderPresent (WMInfo.x11 window) => some window
  | WindowCall.glXSwapBuffers drawable => some drawable
  | WindowCall.SDL_GL_SwapBuffers => some 0
  | WindowCall.SDL_Flip => some 0
  | _ => none

/-! ## Theorems -/

/-! ### Guards of `mixWith` -/

/-- Claim C1: when the source is not playing, or its buffer queue is empty, `mixWith`
returns the sentinel `-1` and hands back the source (every field of it), the output
buffer and the callback state exactly as it received them, without any outside call. -/
theorem mixWith_not_applicable {σ : Type} (fuel : Nat)
    (callback : σ → AudioBuffer → σ × AudioBuffer) (swr : Resampler) (self : AudioSource)
    (env : σ) (ticks : timespec) (outSamples : List Int)
    (outBytes outBitDepth outNbChannels outFrequency : Int) (outVolume : ℚ)
    (h : self.state ≠ SourceState.SOURCE_PLAYING ∨ self.buffer_queue = []) :
    self.mixWith fuel callback swr env ticks outSamples outBytes outBitDepth outNbChannels
        outFrequency outVolume
      = .ok ⟨-1, self, outSamples, env, []⟩ := by
  unfold AudioSource.mixWith
  rcases h with h | h
  · rw [if_pos h]
  · by_cases hst : self.state ≠ SourceState.SOURCE_PLAYING
    · rw [if_pos hst]
    · rw [if_neg hst, if_pos (by simp [h])]

theorem mixWith_not_applicable_witness :
    ({ twoBufferSource false with state := SourceState.SOURCE_STOPPED }).mixWith 0
        idleCallback idleResampler () ⟨0, 100000000⟩ [7, 8] 4 16 2 44100 1
      = .ok ⟨-1, { twoBufferSource false with state := SourceState.SOURCE_STOPPED }, [7, 8],
          (), []⟩ :=
  mixWith_not_applicable 0 idleCallback idleResampler
    { twoBufferSource false with state := SourceState.SOURCE_STOPPED } () ⟨0, 100000000⟩
    [7, 8] 4 16 2 44100 1 (Or.inl (by decide))

/-! ### Tick to sample conversion -/

/-- The two `uint64_t` reductions of `ticksToSamples` are the identity when the product
`nanos * frequency` is non-negative and its quotient by `10^9` fits 31 bits. -/
theorem nanos_product (t : timespec) (f : Int) (hd : 0 ≤ t.nanos) (hf : 0 ≤ f)
    (hx : t.nanos * f / 1000000000 < 2147483648) :
    toUInt64 (toUInt64 (toUInt64 t.tv_sec * 1000000000 + t.tv_nsec) * f) = t.nanos * f := by
  rcases eq_or_lt_of_le hf with h0 | hpos
  · subst h0; simp [toUInt64]
  · have h1 : t.nanos ≤ t.nanos * f := le_mul_of_one_le_right hd (by omega)
    have h2 : 0 ≤ t.nanos * f := mul_nonneg hd hf
    have hn : toUInt64 (toUInt64 t.tv_sec * 1000000000 + t.tv_nsec) = t.nanos := by
      unfold toUInt64 timespec.nanos at *
      omega
    rw [hn]
    unfold toUInt64
    omega

/-- One call of `ticksToSamples` away from overflow: the count times `10^9` plus the new
`samples_frac` is the old `samples_frac` plus `nanos * frequency`, and `samples_frac`
stays in `[-5*10^8, 5*10^8)`. -/
theorem ticksToSamples_step (s : AudioSource) (t : timespec) (f : Int)
    (hd : 0 ≤ t.nanos) (hf : 0 ≤ f) (hx : t.nanos * f / 1000000000 < 2147483647)
    (hlo : -500000000 ≤ s.samples_frac) (hhi : s.samples_frac < 500000000) :
    (s.ticksToSamples t f).1 * 1000000000 + (s.ticksToSamples t f).2.samples_frac
        = s.samples_frac + t.nanos * f
      ∧ -500000000 ≤ (s.ticksToSamples t f).2.samples_frac
      ∧ (s.ticksToSamples t f).2.samples_frac < 500000000 := by
  have hprod := nanos_product t f hd hf (by omega)
  have h2 : 0 ≤ t.nanos * f := mul_nonneg hd hf
  unfold AudioSource.ticksToSamples
  simp only [hprod]
  generalize t.nanos * f = x at *
  split
  · simp only [toInt32, toUInt64]
    omega
  · simp only [toInt32]
    omega

/-- The carry of `ticksToSamples_step` along a sequence of calls. -/
theorem ticksToSamplesSeq_carry (f : Int) (hf : 0 ≤ f) (ts : List timespec) :
    ∀ s : AudioSource, -500000000 ≤ s.samples_frac → s.samples_frac < 500000000 →
      (∀ t ∈ ts, 0 ≤ t.nanos ∧ t.nanos * f / 1000000000 < 2147483647) →
      (AudioSource.ticksToSamplesSeq f s ts).1 * 1000000000
          + (AudioSource.ticksToSamplesSeq f s ts).2.samples_frac
          = s.samples_frac + (ts.map (fun t => t.nanos * f)).sum
        ∧ -500000000 ≤ (AudioSource.ticksToSamplesSeq f s ts).2.samples_frac
        ∧ (AudioSource.ticksToSamplesSeq f s ts).2.samples_frac < 500000000 := by
  induction ts with
  | nil => intro s hlo hhi _; simp [AudioSource.ticksToSamplesSeq, hlo, hhi]
  | cons t ts ih =>
    intro s hlo hhi hts
    have ht := hts t (List.mem_cons_self t ts)
    obtain ⟨e1, l1, u1⟩ := ticksToSamples_step s t f ht.1 hf ht.2 hlo hhi
    obtain ⟨e2, l2, u2⟩ := ih (s.ticksToSamples t f).2 l1 u1
      (fun u hu => hts u (List.mem_cons_of_mem t hu))
    simp only [AudioSource.ticksToSamplesSeq, List.map_cons, List.sum_cons]
    refine ⟨?_, l2, u2⟩
    linarith

/-- Claim C2, amended: `ticksToSamples` carries its rounding remainder without loss.
For a frequency `f > 0` and tick deltas `d_i ≥ 0` (in nanoseconds) such that every
quotient `d_i * f / 10^9` is below `2^31 - 1` (so that neither the 64-bit product nor
the `int` that is returned overflows), starting from `samples_frac = 0`: the sum of the
returned counts times `10^9` plus the final `samples_frac` equals the sum of the
`d_i * f`; `-5*10^8 ≤ samples_frac < 5*10^8` after every call; and after every call
the cumulative count is the cumulative value `(sum d_i * f) / 10^9` rounded half up. -/
theorem ticksToSamples_lossless (s : AudioSource) (f : Int) (ts : List timespec)
    (hs : s.samples_frac = 0) (hf : 0 < f)
    (hts : ∀ t ∈ ts, 0 ≤ t.nanos ∧ t.nanos * f / 1000000000 < 2147483647) :
    (AudioSource.ticksToSamplesSeq f s ts).1 * 1000000000
        + (AudioSource.ticksToSamplesSeq f s ts).2.samples_frac
        = (ts.map (fun t => t.nanos * f)).sum
      ∧ (∀ k : Nat,
          -500000000 ≤ (AudioSource.ticksToSamplesSeq f s (ts.take k)).2.samples_frac
            ∧ (AudioSource.ticksToSamplesSeq f s (ts.take k)).2.samples_frac < 500000000
            ∧ (AudioSource.ticksToSamplesSeq f s (ts.take k)).1
                = (((ts.take k).map (fun t => t.nanos * f)).sum + 500000000) / 1000000000)
      ∧ (AudioSource.ticksToSamplesSeq f s ts).1
          = ((ts.map (fun t => t.nanos * f)).sum + 500000000) / 1000000000 := by
  obtain ⟨e, l, u⟩ := ticksToSamplesSeq_carry f hf.le ts s (by omega) (by omega) hts
  refine ⟨by omega, ?_, by omega⟩
  intro k
  obtain ⟨e2, l2, u2⟩ := ticksToSamplesSeq_carry f hf.le (ts.take k) s (by omega) (by omega)
    (fun t ht => hts t (List.mem_of_mem_take ht))
  exact ⟨l2, u2, by omega⟩

theorem ticksToSamples_lossless_witness :
    (AudioSource.ticksToSamplesSeq 44100 AudioSource.new
        [⟨0, 16666667⟩, ⟨0, 16666666⟩, ⟨0, 16666667⟩]).1 * 1000000000
      + (AudioSource.ticksToSamplesSeq 44100 AudioSource.new
        [⟨0, 16666667⟩, ⟨0, 16666666⟩, ⟨0, 16666667⟩]).2.samples_frac
      = ([⟨0, 16666667⟩, ⟨0, 16666666⟩, ⟨0, 16666667⟩].map
          (fun t : timespec => t.nanos * 44100)).sum :=
  (ticksToSamples_lossless AudioSource.new 44100
    [⟨0, 16666667⟩, ⟨0, 16666666⟩, ⟨0, 16666667⟩] rfl (by decide) (by decide)).1

theorem ticksToSamples_lossless_counterexample :
    (0 : Int) < 48000
      ∧ (AudioSource.new).samples_frac = 0
      ∧ (0 ≤ (⟨100000, 0⟩ : timespec).nanos
          ∧ (⟨100000, 0⟩ : timespec).nanos * 48000 < 18446744073709551616)
      ∧ (AudioSource.ticksToSamplesSeq 48000 AudioSource.new [⟨100000, 0⟩]).1 = 505032704
      ∧ (AudioSource.ticksToSamplesSeq 48000 AudioSource.new [⟨100000, 0⟩]).1 * 1000000000
          + (AudioSource.ticksToSamplesSeq 48000 AudioSource.new [⟨100000, 0⟩]).2.samples_frac
        ≠ ([⟨100000, 0⟩].map (fun t : timespec => t.nanos * 48000)).sum := by
  decide

/-- Claim C3, amended: when `d * f` is a multiple of `10^9`, with `d ≥ 0`, `f ≥ 0` and
`d * f / 10^9 < 2^31` (the count fits the `int` that is returned), and
`-5*10^8 ≤ samples_frac < 5*10^8`, `ticksToSamples` returns exactly `d * f / 10^9` and
leaves the source, `samples_frac` included, unchanged. At 44100 Hz a delta of
500,000,000 ns from `samples_frac = 0` returns 22,050 with `samples_frac` still 0. -/
theorem ticksToSamples_exact (s : AudioSource) (t : timespec) (f : Int)
    (hd : 0 ≤ t.nanos) (hf : 0 ≤ f) (hmul : t.nanos * f % 1000000000 = 0)
    (hx : t.nanos * f / 1000000000 < 2147483648)
    (hlo : -500000000 ≤ s.samples_frac) (hhi : s.samples_frac < 500000000) :
    s.ticksToSamples t f = (t.nanos * f / 1000000000, s)
      ∧ (AudioSource.new.ticksToSamples ⟨0, 500000000⟩ 44100).1 = 22050
      ∧ (AudioSource.new.ticksToSamples ⟨0, 500000000⟩ 44100).2.samples_frac = 0 := by
  refine ⟨?_, by decide, by decide⟩
  have hprod := nanos_product t f hd hf hx
  have h2 : 0 ≤ t.nanos * f := mul_nonneg hd hf
  unfold AudioSource.ticksToSamples
  simp only [hprod]
  generalize t.nanos * f = x at *
  have hfrac : ¬ (500000000 ≤ s.samples_frac + x % 1000000000) := by omega
  rw [if_neg hfrac]
  have e1 : toInt32 (x / 1000000000) = x / 1000000000 := by
    unfold toInt32; omega
  have e2 : s.samples_frac + x % 1000000000 = s.samples_frac := by omega
  rw [e1, e2]

theorem ticksToSamples_exact_witness :
    AudioSource.new.ticksToSamples ⟨0, 500000000⟩ 44100
      = ((⟨0, 500000000⟩ : timespec).nanos * 44100 / 1000000000, AudioSource.new) :=
  (ticksToSamples_exact AudioSource.new ⟨0, 500000000⟩ 44100 (by decide) (by decide)
    (by decide) (by decide) (by decide) (by decide)).1

theorem ticksToSamples_exact_counterexample :
    (⟨100000, 0⟩ : timespec).nanos * 48000 % 1000000000 = 0
      ∧ -500000000 ≤ (AudioSource.new).samples_frac
      ∧ (AudioSource.new).samples_frac < 500000000
      ∧ (AudioSource.new.ticksToSamples ⟨100000, 0⟩ 48000).1 = 505032704
      ∧ (AudioSource.new.ticksToSamples ⟨100000, 0⟩ 48000).1
          ≠ (⟨100000, 0⟩ : timespec).nanos * 48000 / 1000000000 := by
  decide

/-! ### Queue sizes and the non-looping traversal -/

/-- The accumulation loop of `queueSize` and `getPosition` is a sum. -/
theorem foldl_sampleSize (l : List AudioBuffer) (a : Int) :
    l.foldl (fun acc buffer => acc + buffer.sampleSize) a
      = a + (l.map AudioBuffer.sampleSize).sum := by
  induction l generalizing a with
  | nil => simp
  | cons b l ih => simp [ih, add_assoc]

/-- The method `queueSize` is the size before the end of the queue. -/
theorem queueSize_eq (s : AudioSource) :
    s.queueSize = sizeBefore s.buffer_queue s.buffer_queue.length := by
  simp [AudioSource.queueSize, sizeBefore, foldl_sampleSize]

/-- The method `getPosition` is the size before `queue_index` plus `position`. -/
theorem getPosition_eq (s : AudioSource) :
    s.getPosition = sizeBefore s.buffer_queue s.queue_index.toNat + s.position := by
  simp [AudioSource.getPosition, sizeBefore, foldl_sampleSize]

theorem sizeBefore_succ (q : List AudioBuffer) (i : Nat) (b : AudioBuffer)
    (h : q[i]? = some b) : sizeBefore q (i + 1) = sizeBefore q i + b.sampleSize := by
  simp [sizeBefore, List.take_succ, h]

theorem sizeBefore_zero (q : List AudioBuffer) : sizeBefore q 0 = 0 := by
  simp [sizeBefore]

/-- With buffers of non-negative size, no prefix of the queue exceeds the whole queue. -/
theorem sizeBefore_le_total (q : List AudioBuffer) (hq : ∀ b ∈ q, 0 ≤ b.sampleSize) (i : Nat) :
    sizeBefore q i ≤ sizeBefore q q.length := by
  have hsplit : sizeBefore q q.length
      = sizeBefore q i + ((q.drop i).map AudioBuffer.sampleSize).sum := by
    unfold sizeBefore
    rw [List.take_length, ← List.sum_append, ← List.map_append, List.take_append_drop]
  have hnn : 0 ≤ ((q.drop i).map AudioBuffer.sampleSize).sum := by
    apply List.sum_nonneg
    intro x hx
    obtain ⟨b, hb, rfl⟩ := List.mem_map.mp hx
    exact hq b (List.mem_of_mem_drop hb)
  omega

/-- The non-looping traversal stops at once when nothing remains to be read. -/
theorem walkQueue_done (q : List AudioBuffer) (fuel i : Nat) (rem : Int)
    (final : Option (Int × Int)) (trace : List Event) (h : rem ≤ 0) :
    walkQueue q fuel i rem final trace = .ok (rem, final, trace) := by
  have hn : ¬ (0 < rem ∧ i < q.length) := by omega
  cases fuel <;> simp [walkQueue, hn]

/-- The non-looping traversal from buffer `i` with `rem > 0` samples to read: if the rest
of the queue holds them, it ends with nothing left and the cursor `rem` samples further;
otherwise it ends with samples left over. -/
theorem walkQueue_spec (q : List AudioBuffer) (hq : ∀ b ∈ q, 0 ≤ b.sampleSize) :
    ∀ (fuel i : Nat) (rem : Int) (final : Option (Int × Int)) (trace : List Event),
      i + fuel = q.length → 0 < rem →
      (rem ≤ sizeBefore q q.length - sizeBefore q i →
        ∃ (fi : Nat) (fp : Int) (tr : List Event),
          walkQueue q fuel i rem final trace = .ok (0, some ((fi : Int), fp), tr)
            ∧ fi < q.length ∧ 0 < fp
            ∧ (∃ b, q[fi]? = some b ∧ fp ≤ b.sampleSize)
            ∧ sizeBefore q fi + fp = sizeBefore q i + rem)
      ∧ (sizeBefore q q.length - sizeBefore q i < rem →
        ∃ (rem1 : Int) (fin : Option (Int × Int)) (tr : List Event),
          walkQueue q fuel i rem final trace = .ok (rem1, fin, tr) ∧ 0 < rem1) := by
  intro fuel
  induction fuel with
  | zero =>
    intro i rem final trace hi hrem
    have hiL : i = q.length := by omega
    subst hiL
    refine ⟨fun h => by omega, fun _ => ⟨rem, final, trace, ?_, hrem⟩⟩
    simp [walkQueue]
  | succ fuel ih =>
    intro i rem final trace hi hrem
    have hiL : i < q.length := by omega
    obtain ⟨b, hb⟩ : ∃ b, q[i]? = some b := ⟨q[i], List.getElem?_eq_getElem hiL⟩
    have hbmem : b ∈ q := List.getElem?_mem hb
    have hb0 : 0 ≤ b.sampleSize := hq b hbmem
    have hsucc := sizeBefore_succ q i b hb
    have hmono := sizeBefore_le_total q hq (i + 1)
    have hcond : 0 < rem ∧ i < q.length := ⟨hrem, hiL⟩
    by_cases hle : rem ≤ b.sampleSize
    · have havail : b.getSamples rem 0 = rem := by
        simp [AudioBuffer.getSamples, hle]
      refine ⟨fun _ => ⟨i, rem, trace ++ [Event.swr_convert 0 rem], ?_, hiL, hrem,
        ⟨b, hb, hle⟩, rfl⟩, fun h => by omega⟩
      simp only [walkQueue, hcond, and_self, if_true, hb, havail, sub_self]
      exact walkQueue_done q fuel (i + 1) 0 _ _ (le_refl 0)
    · have hlt : b.sampleSize < rem := by omega
      have havail : b.getSamples rem 0 = b.sampleSize := by
        simp [AudioBuffer.getSamples, hlt.le]
      have hne : ¬ rem = b.sampleSize := by omega
      have hstep : walkQueue q (fuel + 1) i rem final trace
          = walkQueue q fuel (i + 1) (rem - b.sampleSize) final
              (trace ++ [Event.swr_convert 0 b.sampleSize]) := by
        simp only [walkQueue, hcond, and_self, if_true, hb, havail, hne, if_false]
      obtain ⟨ih1, ih2⟩ := ih (i + 1) (rem - b.sampleSize) final
        (trace ++ [Event.swr_convert 0 b.sampleSize]) (by omega) (by omega)
      rw [hstep]
      constructor
      · intro h
        obtain ⟨fi, fp, tr, e, h1, h2, h3, h4⟩ := ih1 (by omega)
        exact ⟨fi, fp, tr, e, h1, h2, h3, by omega⟩
      · intro h
        exact ih2 (by omega)

/-! ### The mixing loops stay within their vectors -/

theorem sampleAt_some (v : List Int) (i : Int) (h0 : 0 ≤ i) (h1 : i < v.length) :
    ∃ x, sampleAt v i = some x := by
  have hlt : i.toNat < v.length := by omega
  exact ⟨v[i.toNat], by simp [sampleAt, h0, List.getElem?_eq_getElem hlt]⟩

theorem mixLoop_skip (body : Int → List Int → Except Fault (List Int)) (ch limit : Int)
    (fuel : Nat) (s : Int) (out : List Int) (h : limit ≤ s) :
    mixLoop body ch limit fuel s out = .ok out := by
  have hn : ¬ s < limit := by omega
  cases fuel <;> simp [mixLoop, hn]

/-- A mixing loop whose body succeeds on every frame below `limit` runs to its end and
keeps the length of the output buffer. -/
theorem mixLoop_ok (body : Int → List Int → Except Fault (List Int)) (ch limit : Int)
    (len : Nat) (hch : 1 ≤ ch)
    (hbody : ∀ s out, 0 ≤ s → s + ch ≤ limit → out.length = len →
      ∃ out1, body s out = .ok out1 ∧ out1.length = len) :
    ∀ (fuel j : Nat) (s : Int) (out : List Int), 0 ≤ s → s + (j : Int) * ch = limit →
      j ≤ fuel → out.length = len →
      ∃ out1, mixLoop body ch limit fuel s out = .ok out1 ∧ out1.length = len := by
  intro fuel
  induction fuel with
  | zero =>
    intro j s out _ hj hle hlen
    have hj0 : j = 0 := by omega
    subst hj0
    exact ⟨out, mixLoop_skip body ch limit 0 s out (by simp at hj; omega), hlen⟩
  | succ fuel ih =>
    intro j s out hs hj hle hlen
    cases j with
    | zero => exact ⟨out, mixLoop_skip body ch limit _ s out (by simp at hj; omega), hlen⟩
    | succ j =>
      have hexp : ((j + 1 : Nat) : Int) * ch = (j : Int) * ch + ch := by push_cast; ring
      have hnn : 0 ≤ (j : Int) * ch := mul_nonneg (by omega) (by omega)
      rw [hexp] at hj
      have hlt : s < limit := by omega
      obtain ⟨out1, hb, hlen1⟩ := hbody s out hs (by omega) hlen
      obtain ⟨out2, h2, hlen2⟩ := ih j (s + ch) out1 (by omega) (by omega) (by omega) hlen1
      exact ⟨out2, by simp only [mixLoop, hlt, if_true, hb, h2], hlen2⟩

theorem mixFrame16_ok (mixed : List Int) (lvas rvas ch limit : Int) (s : Int) (out : List Int)
    (hch : 1 ≤ ch) (hm : limit ≤ mixed.length) (ho : limit ≤ out.length)
    (hs : 0 ≤ s) (hlim : s + ch ≤ limit) :
    ∃ out1, mixFrame16 mixed lvas rvas ch s out = .ok out1 ∧ out1.length = out.length := by
  obtain ⟨myL, hmyL⟩ := sampleAt_some mixed s hs (by omega)
  obtain ⟨otherL, hotherL⟩ := sampleAt_some out s hs (by omega)
  by_cases h2 : ch = 2
  · obtain ⟨myR, hmyR⟩ := sampleAt_some mixed (s + 1) (by omega) (by omega)
    obtain ⟨otherR, hotherR⟩ := sampleAt_some (out.set s.toNat (mixSample16 otherL myL lvas))
      (s + 1) (by omega) (by simp; omega)
    exact ⟨_, by simp only [mixFrame16, hmyL, hotherL, h2, if_true, hmyR, hotherR]; rfl,
      by simp⟩
  · exact ⟨_, by simp only [mixFrame16, hmyL, hotherL, h2, if_false]; rfl, by simp⟩

theorem mixFrame8_ok (mixed : List Int) (lvas rvas ch limit : Int) (s : Int) (out : List Int)
    (hch : 1 ≤ ch) (hm : limit ≤ mixed.length) (ho : limit ≤ out.length)
    (hs : 0 ≤ s) (hlim : s + ch ≤ limit) :
    ∃ out1, mixFrame8 mixed lvas rvas ch s out = .ok out1 ∧ out1.length = out.length := by
  obtain ⟨myL, hmyL⟩ := sampleAt_some mixed s hs (by omega)
  obtain ⟨otherL, hotherL⟩ := sampleAt_some out s hs (by omega)
  by_cases h2 : ch = 2
  · obtain ⟨myR, hmyR⟩ := sampleAt_some mixed (s + 1) (by omega) (by omega)
    obtain ⟨otherR, hotherR⟩ := sampleAt_some (out.set s.toNat (mixLeft8 otherL myL lvas))
      (s + 1) (by omega) (by simp; omega)
    exact ⟨_, by simp only [mixFrame8, hmyL, hotherL, h2, if_true, hmyR, hotherR]; rfl,
      by simp⟩
  · exact ⟨_, by simp only [mixFrame8, hmyL, hotherL, h2, if_false]; rfl, by simp⟩

theorem mixLoop_frames_ok (body : Int → List Int → Except Fault (List Int))
    (conv ch : Int) (out : List Int) (hch : 1 ≤ ch)
    (hbody : ∀ s o, 0 ≤ s → s + ch ≤ conv * ch → o.length = out.length →
      ∃ out1, body s o = .ok out1 ∧ out1.length = out.length) :
    ∃ out1, mixLoop body ch (conv * ch) (conv * ch).toNat 0 out = .ok out1
      ∧ out1.length = out.length := by
  by_cases hc : 0 ≤ conv
  · have hle : conv ≤ conv * ch := le_mul_of_one_le_right hc hch
    exact mixLoop_ok body ch (conv * ch) out.length hch hbody (conv * ch).toNat conv.toNat 0 out
      (le_refl 0) (by rw [Int.toNat_of_nonneg hc]; ring) (by omega) rfl
  · have hneg : conv * ch ≤ 0 := by
      have : conv * ch ≤ 0 * ch := mul_le_mul_of_nonneg_right (by omega) (by omega)
      simpa using this
    exact ⟨out, mixLoop_skip body ch _ _ 0 out hneg, rfl⟩

/-- The mixing part of `mixWith` runs to its end on an output request that fits. -/
theorem mixOutput_ok (swr : Resampler) (lvas rvas outBitDepth outNbChannels : Int)
    (outSamples : List Int) (h : OutputFits swr outSamples outBitDepth outNbChannels) :
    ∃ out1, mixOutput swr.converted swr.convOutSamples lvas rvas outBitDepth outNbChannels
        outSamples = .ok out1 ∧ out1.length = outSamples.length := by
  obtain ⟨hch, _, hm, ho⟩ := h
  have h8 : ∃ out1,
      (if outBitDepth = 8 then
        mixLoop (mixFrame8 swr.converted lvas rvas outNbChannels) outNbChannels
          (swr.convOutSamples * outNbChannels) (swr.convOutSamples * outNbChannels).toNat 0
          outSamples
       else .ok outSamples) = .ok out1 ∧ out1.length = outSamples.length := by
    split
    · exact mixLoop_frames_ok _ _ _ _ hch (fun s o hs hl hlen =>
        hlen ▸ mixFrame8_ok swr.converted lvas rvas outNbChannels _ s o hch hm
          (by omega) hs hl)
    · exact ⟨outSamples, rfl, rfl⟩
  obtain ⟨out1, e1, l1⟩ := h8
  have h16 : ∃ out2,
      (if outBitDepth = 16 then
        mixLoop (mixFrame16 swr.converted lvas rvas outNbChannels) outNbChannels
          (swr.convOutSamples * outNbChannels) (swr.convOutSamples * outNbChannels).toNat 0
          out1
       else .ok out1) = .ok out2 ∧ out2.length = outSamples.length := by
    split
    · obtain ⟨o2, e2, l2⟩ := mixLoop_frames_ok
        (mixFrame16 swr.converted lvas rvas outNbChannels) swr.convOutSamples outNbChannels
        out1 hch (fun s o hs hl hlen =>
          hlen ▸ mixFrame16_ok swr.converted lvas rvas outNbChannels _ s o hch hm
            (by omega) hs hl)
      exact ⟨o2, e2, by omega⟩
    · exact ⟨out1, rfl, l1⟩
  obtain ⟨out2, e2, l2⟩ := h16
  refine ⟨out2, ?_, l2⟩
  unfold mixOutput
  simp only [e1, e2]

/-! ### From the traversal to `mixWith` -/

/-- The method `ticksToSamples` changes no field but `samples_frac`. -/
theorem ticksToSamples_snd (s : AudioSource) (t : timespec) (f : Int) :
    (s.ticksToSamples t f).2
      = { s with samples_frac := (s.ticksToSamples t f).2.samples_frac } := by
  unfold AudioSource.ticksToSamples
  simp only
  split <;> rfl

theorem ticksToSamples_fst_swr (s : AudioSource) (t : timespec) (f : Int) :
    ({ s with swr_initialized := true }.ticksToSamples t f).1 = (s.ticksToSamples t f).1 := by
  unfold AudioSource.ticksToSamples
  simp only
  split <;> rfl

/-- The traversal starts from the cursor, queue, state and kind of the source itself. -/
theorem beforeAdvance_fields (swr : List Int) (s : AudioSource) (t : timespec)
    (b : AudioBuffer) :
    (beforeAdvance swr s t b).position = s.position
      ∧ (beforeAdvance swr s t b).queue_index = s.queue_index
      ∧ (beforeAdvance swr s t b).buffer_queue = s.buffer_queue
      ∧ (beforeAdvance swr s t b).state = s.state
      ∧ (beforeAdvance swr s t b).looping = s.looping
      ∧ (beforeAdvance swr s t b).source = s.source := by
  unfold beforeAdvance
  rw [ticksToSamples_snd]
  exact ⟨rfl, rfl, rfl, rfl, rfl, rfl⟩

/-- A call on a playing source with a valid `queue_index`, a ready resampler and a fitting
output request returns what the traversal leaves, with the mixed output. -/
theorem mixWith_of_advance {σ : Type} (fuel : Nat)
    (callback : σ → AudioBuffer → σ × AudioBuffer) (swr : Resampler) (self : AudioSource)
    (env : σ) (ticks : timespec) (outSamples : List Int)
    (outBytes outBitDepth outNbChannels outFrequency : Int) (outVolume : ℚ)
    (curBuf : AudioBuffer) (self3 : AudioSource) (env1 : σ) (trace1 : List Event)
    (hst : self.state = SourceState.SOURCE_PLAYING)
    (hbuf : bufferAt self.buffer_queue self.queue_index = some curBuf)
    (hready : ResamplerReady swr self)
    (hfit : OutputFits swr outSamples outBitDepth outNbChannels)
    (hadv : advance fuel callback (beforeAdvance
        (mixedAfter swr self.mixedSamples outBytes outBitDepth outNbChannels) self ticks curBuf) env curBuf
        (self.ticksToSamples ticks curBuf.frequency).1
        (outBytes.tdiv ((outNbChannels * outBitDepth).tdiv 8))
        (setupTrace self curBuf outFrequency)
      = .ok (self3, env1, trace1)) :
    ∃ out1, self.mixWith fuel callback swr env ticks outSamples outBytes outBitDepth
        outNbChannels outFrequency outVolume
      = .ok ⟨swr.convOutSamples, self3, out1, env1, trace1⟩
      ∧ out1.length = outSamples.length := by
  obtain ⟨out1, hmix, hlen⟩ := mixOutput_ok swr (gainFactor self.volume outVolume)
    (gainFactor self.volume outVolume) outBitDepth outNbChannels outSamples hfit
  refine ⟨out1, ?_, hlen⟩
  have hne : self.buffer_queue.isEmpty = false := by
    cases hq : self.buffer_queue with
    | nil => simp [bufferAt, hq] at hbuf
    | cons a l => rfl
  have hsetup : ¬ (¬ self.swr_initialized = true ∧ ¬ swr.init_ok = true) := by
    rcases hready with h | h <;> simp [h]
  rw [← ticksToSamples_fst_swr] at hadv
  simp only [beforeAdvance] at hadv
  unfold AudioSource.mixWith
  rw [if_neg (not_not.mpr hst)]
  simp only [hne, Bool.false_eq_true, if_false, hbuf, hsetup, hfit.2.1, hadv, hmix]

/-- A call that returns either gives the source back untouched (a guard or a failed
`swr_init`) or went through the traversal. -/
theorem mixWith_inv {σ : Type} (fuel : Nat)
    (callback : σ → AudioBuffer → σ × AudioBuffer) (swr : Resampler) (self : AudioSource)
    (env : σ) (ticks : timespec) (outSamples : List Int)
    (outBytes outBitDepth outNbChannels outFrequency : Int) (outVolume : ℚ)
    (r : MixResult σ)
    (h : self.mixWith fuel callback swr env ticks outSamples outBytes outBitDepth
        outNbChannels outFrequency outVolume = .ok r) :
    r.self = self
      ∨ (self.state = SourceState.SOURCE_PLAYING
          ∧ ∃ (curBuf : AudioBuffer) (env1 : σ) (trace0 trace1 : List Event),
              bufferAt self.buffer_queue self.queue_index = some curBuf
                ∧ advance fuel callback (beforeAdvance
                    (mixedAfter swr self.mixedSamples outBytes outBitDepth outNbChannels) self ticks curBuf) env curBuf
                    (self.ticksToSamples ticks curBuf.frequency).1
                    (outBytes.tdiv ((outNbChannels * outBitDepth).tdiv 8)) trace0
                  = .ok (r.self, env1, trace1)) := by
  unfold AudioSource.mixWith at h
  by_cases hst : self.state = SourceState.SOURCE_PLAYING
  · rw [if_neg (not_not.mpr hst)] at h
    by_cases hemp : self.buffer_queue.isEmpty = true
    · rw [if_pos hemp] at h
      injection h with h
      left
      rw [← h]
    · rw [if_neg hemp] at h
      cases hbuf : bufferAt self.buffer_queue self.queue_index with
      | none => simp [hbuf] at h
      | some curBuf =>
        simp only [hbuf] at h
        by_cases hsetup : ¬ self.swr_initialized = true ∧ ¬ swr.init_ok = true
        · rw [if_pos hsetup] at h
          injection h with h
          left
          rw [← h]
        · rw [if_neg hsetup] at h
          by_cases hdiv : (outNbChannels * outBitDepth).tdiv 8 = 0
          · simp [hdiv] at h
          · simp only [hdiv, if_false] at h
            right
            refine ⟨hst, curBuf, ?_⟩
            rw [← ticksToSamples_fst_swr]
            simp only [beforeAdvance]
            split at h
            · simp at h
            · rename_i self3 env1 trace1 hadv
              split at h
              · simp at h
              · injection h with h
                refine ⟨env1, setupTrace self curBuf outFrequency, trace1, trivial, ?_⟩
                rw [← h]
                exact hadv
  · rw [if_pos hst] at h
    injection h with h
    left
    rw [← h]

/-! ### The looping traversal and the refill loop -/

/-- The looping traversal stops at once when nothing remains to be read. -/
theorem loopQueue_done (q : List AudioBuffer) (fuel i : Nat) (rem : Int)
    (final : Option (Int × Int)) (trace : List Event) (h : rem ≤ 0) :
    loopQueue q fuel i rem final trace = .ok (rem, final, trace) := by
  have hn : ¬ 0 < rem := by omega
  cases fuel <;> simp [loopQueue, hn]

/-- The successor of a queue index, cyclically. -/
theorem succ_mod_length (i L : Nat) (h : i < L) :
    (i + 1) % L = if i + 1 < L then i + 1 else 0 := by
  split
  · rename_i h1
    exact Nat.mod_eq_of_lt h1
  · have : i + 1 = L := by omega
    rw [this, Nat.mod_self]

/-- The looping traversal from buffer `i` with `rem > 0` samples to read, in a queue whose
buffer `k` is non-empty: given `rem * queue_size` iterations plus the distance from `i`
to `k`, it ends with nothing left, at a cursor `rem` samples further up to whole turns
of the queue. -/
theorem loopQueue_spec (q : List AudioBuffer) (hq : ∀ b ∈ q, 0 ≤ b.sampleSize)
    (k : Nat) (bk : AudioBuffer) (hk : q[k]? = some bk) (hkpos : 0 < bk.sampleSize) :
    ∀ (fuel i : Nat) (rem : Int) (final : Option (Int × Int)) (trace : List Event),
      i < q.length → 0 < rem →
      rem.toNat * q.length + (if i ≤ k then k - i else k + q.length - i) < fuel →
      ∃ (fi : Nat) (fp : Int) (tr : List Event) (w : Nat),
        loopQueue q fuel i rem final trace = .ok (0, some ((fi : Int), fp), tr)
          ∧ fi < q.length ∧ 0 < fp
          ∧ (∃ b, q[fi]? = some b ∧ fp ≤ b.sampleSize)
          ∧ sizeBefore q fi + fp + (w : Int) * sizeBefore q q.length
              = sizeBefore q i + rem := by
  have hkL : k < q.length := by
    rcases List.getElem?_eq_some.mp hk with ⟨h, _⟩
    exact h
  intro fuel
  induction fuel with
  | zero => intro i rem final trace _ _ h; omega
  | succ fuel ih =>
    intro i rem final trace hiL hrem hfuel
    obtain ⟨b, hb⟩ : ∃ b, q[i]? = some b := ⟨q[i], List.getElem?_eq_getElem hiL⟩
    have hb0 : 0 ≤ b.sampleSize := hq b (List.getElem?_mem hb)
    have hsucc := sizeBefore_succ q i b hb
    by_cases hle : rem ≤ b.sampleSize
    · have havail : b.getSamples rem 0 = rem := by
        simp [AudioBuffer.getSamples, hle]
      refine ⟨i, rem, trace ++ [Event.swr_convert 0 rem], 0, ?_, hiL, hrem, ⟨b, hb, hle⟩,
        by simp⟩
      simp only [loopQueue, hrem, if_true, hb, havail, sub_self]
      exact loopQueue_done q fuel _ 0 _ _ (le_refl 0)
    · have hlt : b.sampleSize < rem := by omega
      have havail : b.getSamples rem 0 = b.sampleSize := by
        simp [AudioBuffer.getSamples, hlt.le]
      have hne : ¬ rem = b.sampleSize := by omega
      have hstep : loopQueue q (fuel + 1) i rem final trace
          = loopQueue q fuel ((i + 1) % q.length) (rem - b.sampleSize) final
              (trace ++ [Event.swr_convert 0 b.sampleSize]) := by
        simp only [loopQueue, hrem, if_true, hb, havail, hne, if_false]
      have hmod := succ_mod_length i q.length hiL
      have hi' : (i + 1) % q.length < q.length := Nat.mod_lt _ (by omega)
      have hmeasure : (rem - b.sampleSize).toNat * q.length
          + (if (i + 1) % q.length ≤ k then k - (i + 1) % q.length
             else k + q.length - (i + 1) % q.length) < fuel := by
        by_cases hz : b.sampleSize = 0
        · have hik : i ≠ k := by
            intro e
            subst e
            rw [hk] at hb
            injection hb with hb
            subst hb
            omega
          rw [hz, sub_zero]
          rw [hmod]
          split_ifs at hfuel ⊢ <;> omega
        · have h1 : (rem - b.sampleSize).toNat + 1 ≤ rem.toNat := by omega
          have h2 := Nat.mul_le_mul_right q.length h1
          rw [Nat.succ_mul] at h2
          split_ifs at hfuel ⊢ <;> omega
      obtain ⟨fi, fp, tr, w, e, h1, h2, h3, h4⟩ :=
        ih ((i + 1) % q.length) (rem - b.sampleSize) final
          (trace ++ [Event.swr_convert 0 b.sampleSize]) hi' (by omega) hmeasure
      rw [hstep]
      by_cases hwrap : i + 1 < q.length
      · rw [hmod, if_pos hwrap] at h4
        exact ⟨fi, fp, tr, w, e, h1, h2, h3, by omega⟩
      · rw [hmod, if_neg hwrap, sizeBefore_zero] at h4
        have hiL' : i + 1 = q.length := by omega
        rw [hiL'] at hsucc
        refine ⟨fi, fp, tr, w + 1, e, h1, h2, h3, ?_⟩
        push_cast
        rw [add_mul, one_mul]
        omega

/-- The refill loop stops at once when nothing remains to be read. -/
theorem refillLoop_done {σ : Type} (callback : σ → AudioBuffer → σ × AudioBuffer)
    (fuel : Nat) (env : σ) (buf : AudioBuffer) (rem pos : Int) (trace : List Event)
    (h : rem ≤ 0) :
    refillLoop callback fuel env buf rem pos trace = .ok (env, buf, pos, trace) := by
  have hn : ¬ 0 < rem := by omega
  cases fuel <;> simp [refillLoop, hn]

/-- The refill loop with `rem > 0` samples to read and a callback that leaves at least one
sample and a non-zero frequency: within `rem` iterations it ends after a sequence of
refill passes that consume at least one sample each and `rem` in total, with `position`
the consumption of the last one. -/
theorem refillLoop_spec {σ : Type} (callback : σ → AudioBuffer → σ × AudioBuffer)
    (hcb : ∀ e b, 1 ≤ (callback e b).2.sampleSize)
    (hcbf : ∀ e b, b.frequency ≠ 0 → (callback e b).2.frequency ≠ 0) :
    ∀ (fuel : Nat) (env : σ) (buf : AudioBuffer) (rem pos : Int) (trace : List Event),
      0 < rem → buf.frequency ≠ 0 → rem.toNat ≤ fuel →
      ∃ (env1 : σ) (buf1 : AudioBuffer) (rs : List (timespec × Int)) (last : timespec × Int),
        refillLoop callback fuel env buf rem pos trace
            = .ok (env1, buf1, last.2, trace ++ (rs ++ [last]).flatMap refillEvents)
          ∧ (∀ r ∈ rs ++ [last], 1 ≤ r.2)
          ∧ ((rs ++ [last]).map Prod.snd).sum = rem
          ∧ last.2 ≤ buf1.sampleSize := by
  intro fuel
  induction fuel with
  | zero => intro env buf rem pos trace h _ hf; omega
  | succ fuel ih =>
    intro env buf rem pos trace hrem hfreq hfuel
    have hsize := hcb env buf
    have hfreq1 := hcbf env buf hfreq
    by_cases hle : rem ≤ (callback env buf).2.sampleSize
    · have havail : (callback env buf).2.getSamples rem 0 = rem := by
        simp [AudioBuffer.getSamples, hle]
      refine ⟨(callback env buf).1, (callback env buf).2, [],
        (⟨((1000000000 * (-rem)).tdiv buf.frequency).tdiv 1000000000,
          ((1000000000 * (-rem)).tdiv buf.frequency).tmod 1000000000⟩, rem), ?_, ?_, ?_, hle⟩
      · simp only [refillLoop, hrem, if_true, hfreq, if_false, havail, sub_self]
        rw [refillLoop_done callback fuel _ _ 0 _ _ (le_refl 0)]
        simp [refillEvents]
      · intro r hr
        simp at hr
        subst hr
        exact hrem
      · simp
    · have hlt : (callback env buf).2.sampleSize < rem := by omega
      have havail : (callback env buf).2.getSamples rem 0 = (callback env buf).2.sampleSize := by
        simp [AudioBuffer.getSamples, hlt.le]
      have hne : ¬ rem = (callback env buf).2.sampleSize := by omega
      obtain ⟨env1, buf1, rs, last, e, h1, h2, h3⟩ :=
        ih (callback env buf).1 (callback env buf).2
          (rem - (callback env buf).2.sampleSize) pos
          (trace ++ refillEvents
            (⟨((1000000000 * (-rem)).tdiv buf.frequency).tdiv 1000000000,
              ((1000000000 * (-rem)).tdiv buf.frequency).tmod 1000000000⟩,
             (callback env buf).2.sampleSize))
          (by omega) hfreq1 (by omega)
      refine ⟨env1, buf1,
        (⟨((1000000000 * (-rem)).tdiv buf.frequency).tdiv 1000000000,
          ((1000000000 * (-rem)).tdiv buf.frequency).tmod 1000000000⟩,
         (callback env buf).2.sampleSize) :: rs, last, ?_, ?_, ?_, h3⟩
      · simp only [refillLoop, hrem, if_true, hfreq, if_false, havail, hne]
        simp only [refillEvents] at e
        rw [e]
        simp [refillEvents]
      · intro r hr
        rw [List.cons_append, List.mem_cons] at hr
        rcases hr with hr | hr
        · subst hr; exact hsize
        · exact h1 r hr
      · simp only [List.cons_append, List.map_cons, List.sum_cons]
        omega

/-! ### Advancing the cursor -/

theorem bufferAt_some (q : List AudioBuffer) (i : Int) (b : AudioBuffer)
    (h : bufferAt q i = some b) : 0 ≤ i ∧ q[i.toNat]? = some b ∧ i.toNat < q.length := by
  unfold bufferAt at h
  by_cases h0 : 0 ≤ i
  · rw [if_pos h0] at h
    exact ⟨h0, h, (List.getElem?_eq_some.mp h).1⟩
  · rw [if_neg h0] at h
    cases h

theorem bufferAt_natCast (q : List AudioBuffer) (i : Nat) : bufferAt q (i : Int) = q[i]? := by
  simp [bufferAt]

/-- The easy branch: the current buffer holds the `n` samples. -/
theorem advance_full {σ : Type} (fuel : Nat) (callback : σ → AudioBuffer → σ × AudioBuffer)
    (s : AudioSource) (env : σ) (curBuf : AudioBuffer) (n outNb : Int) (trace : List Event)
    (h : n ≤ curBuf.sampleSize - s.position) :
    advance fuel callback s env curBuf n outNb trace
      = .ok ({ s with position := s.position + n }, env,
          trace ++ [Event.swr_convert outNb n]) := by
  have havail : curBuf.getSamples n s.position = n := by
    simp [AudioBuffer.getSamples, h]
  unfold advance
  simp only [havail, if_true]

/-- The non-looping branch of the traversal, in terms of `queueSize` and `getPosition`. -/
theorem advance_walk {σ : Type} (fuel : Nat) (callback : σ → AudioBuffer → σ × AudioBuffer)
    (s : AudioSource) (env : σ) (curBuf : AudioBuffer) (n outNb : Int) (trace : List Event)
    (hloop : s.looping = false) (hsrc : s.source ≠ SourceType.SOURCE_CALLBACK)
    (hbuf : bufferAt s.buffer_queue s.queue_index = some curBuf)
    (hq : ∀ b ∈ s.buffer_queue, 0 ≤ b.sampleSize)
    (h : curBuf.sampleSize - s.position < n) :
    (n ≤ s.queueSize - s.getPosition →
      ∃ (fi : Nat) (fp : Int) (tr : List Event),
        advance fuel callback s env curBuf n outNb trace
            = .ok ({ s with queue_index := (fi : Int), position := fp }, env, tr)
          ∧ fi < s.buffer_queue.length ∧ 0 < fp
          ∧ (∃ b, s.buffer_queue[fi]? = some b ∧ fp ≤ b.sampleSize)
          ∧ sizeBefore s.buffer_queue fi + fp = s.getPosition + n)
    ∧ (s.queueSize - s.getPosition < n →
      ∃ tr : List Event,
        advance fuel callback s env curBuf n outNb trace
          = .ok ({ s.init with state := SourceState.SOURCE_STOPPED }, env, tr)) := by
  obtain ⟨hqi0, hqi, hqiL⟩ := bufferAt_some _ _ _ hbuf
  have hsucc := sizeBefore_succ _ _ _ hqi
  have hQ := queueSize_eq s
  have hP := getPosition_eq s
  have havail : curBuf.getSamples n s.position = curBuf.sampleSize - s.position := by
    simp [AudioBuffer.getSamples, h.le]
  have hne : ¬ curBuf.sampleSize - s.position = n := by omega
  have hrem : 0 < n - (curBuf.sampleSize - s.position) := by omega
  obtain ⟨w1, w2⟩ := walkQueue_spec s.buffer_queue hq
    (s.buffer_queue.length - (s.queue_index.toNat + 1)) (s.queue_index.toNat + 1)
    (n - (curBuf.sampleSize - s.position)) none
    (if 0 < curBuf.sampleSize - s.position then
      trace ++ [Event.swr_convert 0 (curBuf.sampleSize - s.position)] else trace)
    (by omega) hrem
  constructor
  · intro hle
    obtain ⟨fi, fp, tr, e, h1, h2, h3, h4⟩ := w1 (by omega)
    refine ⟨fi, fp, tr ++ [Event.swr_convert outNb 0], ?_, h1, h2, h3, by omega⟩
    unfold advance
    simp only [havail, hne, if_false, hsrc, hloop, Bool.false_eq_true, e, lt_self_iff_false]
  · intro hlt
    obtain ⟨rem1, fin, tr, e, h1⟩ := w2 (by omega)
    refine ⟨tr ++ [Event.swr_convert outNb 0], ?_⟩
    unfold advance
    simp only [havail, hne, if_false, hsrc, hloop, Bool.false_eq_true, e, h1, if_true]

/-- The looping branch of the traversal, in terms of `queueSize` and `getPosition`. -/
theorem advance_loop {σ : Type} (fuel : Nat) (callback : σ → AudioBuffer → σ × AudioBuffer)
    (s : AudioSource) (env : σ) (curBuf : AudioBuffer) (n outNb : Int) (trace : List Event)
    (hloop : s.looping = true) (hsrc : s.source ≠ SourceType.SOURCE_CALLBACK)
    (hbuf : bufferAt s.buffer_queue s.queue_index = some curBuf)
    (hq : ∀ b ∈ s.buffer_queue, 0 ≤ b.sampleSize)
    (hne : ∃ b ∈ s.buffer_queue, 0 < b.sampleSize)
    (h : curBuf.sampleSize - s.position < n)
    (hfuel : ((n - (curBuf.sampleSize - s.position)).toNat + 2) * s.buffer_queue.length
      ≤ fuel) :
    ∃ (fi : Nat) (fp : Int) (tr : List Event) (w : Nat),
      advance fuel callback s env curBuf n outNb trace
          = .ok ({ s with queue_index := (fi : Int), position := fp }, env, tr)
        ∧ fi < s.buffer_queue.length ∧ 0 < fp
        ∧ (∃ b, s.buffer_queue[fi]? = some b ∧ fp ≤ b.sampleSize)
        ∧ sizeBefore s.buffer_queue fi + fp + (w : Int) * s.queueSize = s.getPosition + n := by
  obtain ⟨hqi0, hqi, hqiL⟩ := bufferAt_some _ _ _ hbuf
  obtain ⟨bk, hbk, hkpos⟩ := hne
  obtain ⟨k, hkL, hk⟩ := List.getElem_of_mem hbk
  have hk' : s.buffer_queue[k]? = some bk := by
    rw [List.getElem?_eq_getElem hkL, hk]
  have hsucc := sizeBefore_succ _ _ _ hqi
  have hQ := queueSize_eq s
  have hP := getPosition_eq s
  have havail : curBuf.getSamples n s.position = curBuf.sampleSize - s.position := by
    simp [AudioBuffer.getSamples, h.le]
  have hne : ¬ curBuf.sampleSize - s.position = n := by omega
  have hrem : 0 < n - (curBuf.sampleSize - s.position) := by omega
  have hmod := succ_mod_length s.queue_index.toNat s.buffer_queue.length hqiL
  have hi' : (s.queue_index.toNat + 1) % s.buffer_queue.length < s.buffer_queue.length :=
    Nat.mod_lt _ (by omega)
  have hmeasure : (n - (curBuf.sampleSize - s.position)).toNat * s.buffer_queue.length
      + (if (s.queue_index.toNat + 1) % s.buffer_queue.length ≤ k
          then k - (s.queue_index.toNat + 1) % s.buffer_queue.length
          else k + s.buffer_queue.length - (s.queue_index.toNat + 1) % s.buffer_queue.length)
      < fuel := by
    rw [Nat.add_mul] at hfuel
    split_ifs <;> omega
  obtain ⟨fi, fp, tr, w, e, h1, h2, h3, h4⟩ := loopQueue_spec s.buffer_queue hq k bk hk' hkpos
    fuel ((s.queue_index.toNat + 1) % s.buffer_queue.length)
    (n - (curBuf.sampleSize - s.position)) none
    (if 0 < curBuf.sampleSize - s.position then
      trace ++ [Event.swr_convert 0 (curBuf.sampleSize - s.position)] else trace)
    hi' hrem hmeasure
  have hadv : advance fuel callback s env curBuf n outNb trace
      = .ok ({ s with queue_index := (fi : Int), position := fp }, env,
          tr ++ [Event.swr_convert outNb 0]) := by
    unfold advance
    simp only [havail, hne, if_false, hsrc, hloop, if_true, e, lt_self_iff_false]
  by_cases hwrap : s.queue_index.toNat + 1 < s.buffer_queue.length
  · rw [hmod, if_pos hwrap] at h4
    exact ⟨fi, fp, _, w, hadv, h1, h2, h3, by rw [hQ]; omega⟩
  · rw [hmod, if_neg hwrap, sizeBefore_zero] at h4
    have hL : s.queue_index.toNat + 1 = s.buffer_queue.length := by omega
    rw [hL] at hsucc
    refine ⟨fi, fp, _, w + 1, hadv, h1, h2, h3, ?_⟩
    push_cast
    rw [add_mul, one_mul, hQ]
    omega

theorem modEq_of_add_mul (a b q w : Int) (h : a + w * q = b) : a ≡ b [ZMOD q] := by
  rw [← h]
  unfold Int.ModEq
  rw [Int.add_mul_emod_self]

/-- Claim C4: loop wrap. For a playing, looping, non-callback source whose queue has
buffers of non-negative size, one of them non-empty, a `mixWith` call that reaches the
traversal and requests `n` samples, `n` larger than what remains in the current buffer,
finishes (within `(n - remaining + 2) * queue_size` iterations of the loop) with the
state still Playing and the queue unchanged, at a cursor inside the queue with
`0 < position ≤ sampleSize` of the buffer at `queue_index`, such that `getPosition()`
after, plus a whole number of turns of `queueSize()`, equals `getPosition()` before plus
`n`; so the two are congruent modulo `queueSize()`. -/
theorem mixWith_loop_wrap {σ : Type} (fuel : Nat)
    (callback : σ → AudioBuffer → σ × AudioBuffer) (swr : Resampler) (self : AudioSource)
    (env : σ) (ticks : timespec) (outSamples : List Int)
    (outBytes outBitDepth outNbChannels outFrequency : Int) (outVolume : ℚ)
    (curBuf : AudioBuffer) (n : Int)
    (hst : self.state = SourceState.SOURCE_PLAYING)
    (hloop : self.looping = true)
    (hsrc : self.source ≠ SourceType.SOURCE_CALLBACK)
    (hbuf : bufferAt self.buffer_queue self.queue_index = some curBuf)
    (hq : ∀ b ∈ self.buffer_queue, 0 ≤ b.sampleSize)
    (hne : ∃ b ∈ self.buffer_queue, 0 < b.sampleSize)
    (hready : ResamplerReady swr self)
    (hfit : OutputFits swr outSamples outBitDepth outNbChannels)
    (hn : (self.ticksToSamples ticks curBuf.frequency).1 = n)
    (hmore : curBuf.sampleSize - self.position < n)
    (hfuel : ((n - (curBuf.sampleSize - self.position)).toNat + 2) * self.buffer_queue.length
      ≤ fuel) :
    ∃ (r : MixResult σ) (wraps : Nat),
      self.mixWith fuel callback swr env ticks outSamples outBytes outBitDepth outNbChannels
          outFrequency outVolume = .ok r
        ∧ r.self.state = SourceState.SOURCE_PLAYING
        ∧ r.self.buffer_queue = self.buffer_queue
        ∧ 0 ≤ r.self.queue_index ∧ r.self.queue_index < self.nbQueue
        ∧ 0 < r.self.position
        ∧ (∃ b, bufferAt self.buffer_queue r.self.queue_index = some b
              ∧ r.self.position ≤ b.sampleSize)
        ∧ r.self.getPosition + (wraps : Int) * self.queueSize = self.getPosition + n
        ∧ r.self.getPosition ≡ self.getPosition + n [ZMOD self.queueSize] := by
  obtain ⟨fpos, fqi, fq, fst, floop, fsrc⟩ := beforeAdvance_fields
      (mixedAfter swr self.mixedSamples outBytes outBitDepth outNbChannels) self ticks curBuf
  have hQ : (beforeAdvance
      (mixedAfter swr self.mixedSamples outBytes outBitDepth outNbChannels) self ticks curBuf).queueSize = self.queueSize := by
    simp only [AudioSource.queueSize, fq]
  have hP : (beforeAdvance
      (mixedAfter swr self.mixedSamples outBytes outBitDepth outNbChannels) self ticks curBuf).getPosition = self.getPosition := by
    simp only [AudioSource.getPosition, fq, fqi, fpos]
  obtain ⟨fi, fp, tr, w, hadv, h1, h2, ⟨b, hb, hfp⟩, h4⟩ :=
    advance_loop fuel callback (beforeAdvance
        (mixedAfter swr self.mixedSamples outBytes outBitDepth outNbChannels) self ticks curBuf) env curBuf n
      (outBytes.tdiv ((outNbChannels * outBitDepth).tdiv 8))
      (setupTrace self curBuf outFrequency)
      (by rw [floop]; exact hloop) (by rw [fsrc]; exact hsrc) (by rw [fq, fqi]; exact hbuf)
      (by rw [fq]; exact hq) (by rw [fq]; exact hne) (by rw [fpos]; exact hmore)
      (by rw [fpos, fq]; exact hfuel)
  rw [fq] at h1 hb h4
  rw [hQ, hP] at h4
  rw [← hn] at hadv
  obtain ⟨out1, hmix, _⟩ := mixWith_of_advance fuel callback swr self env ticks outSamples
    outBytes outBitDepth outNbChannels outFrequency outVolume curBuf _ _ _ hst hbuf hready hfit
    hadv
  have hgp : ({ beforeAdvance
      (mixedAfter swr self.mixedSamples outBytes outBitDepth outNbChannels) self ticks curBuf with
        queue_index := (fi : Int), position := fp } : AudioSource).getPosition
      = sizeBefore self.buffer_queue fi + fp := by
    rw [getPosition_eq]
    simp [fq]
  refine ⟨_, w, hmix, ?_, ?_, ?_, ?_, h2, ⟨b, ?_, hfp⟩, ?_, ?_⟩
  · exact fst.trans hst
  · exact fq
  · exact Int.natCast_nonneg fi
  · simp only [AudioSource.nbQueue]; omega
  · simp only [bufferAt_natCast]; exact hb
  · rw [hgp]; exact h4
  · rw [hgp]
    exact modEq_of_add_mul _ _ _ _ h4

theorem mixWith_loop_wrap_witness :
    ∃ (r : MixResult Unit) (wraps : Nat),
      (twoBufferSource true).mixWith 104 idleCallback idleResampler () ⟨0, 150000000⟩ []
          0 16 2 44100 1 = .ok r
        ∧ r.self.state = SourceState.SOURCE_PLAYING
        ∧ r.self.queue_index = 1 ∧ r.self.position = 50
        ∧ r.self.getPosition + (wraps : Int) * (twoBufferSource true).queueSize
            = (twoBufferSource true).getPosition + 150 := by
  obtain ⟨r, w, hr, h1, _, _, _, _, _, h7, _⟩ :=
    mixWith_loop_wrap 104 idleCallback idleResampler (twoBufferSource true) () ⟨0, 150000000⟩ []
      0 16 2 44100 1 (bufferOfSize 1000) 150 rfl rfl (by decide) rfl (by decide) (by decide)
      (by decide) (by decide) (by decide) (by decide) (by decide)
  have heval : ((twoBufferSource true).mixWith 104 idleCallback idleResampler () ⟨0, 150000000⟩
      [] 0 16 2 44100 1).toOption.map
        (fun r => (r.self.queue_index, r.self.position)) = some (1, 50) := by
    decide
  rw [hr] at heval
  simp only [Except.toOption, Option.map_some', Option.some.injEq, Prod.mk.injEq] at heval
  exact ⟨r, w, hr, h1, heval.1, heval.2, h7⟩

/-- Claim C5: queue exhaustion. For a playing, non-looping, non-callback source whose
queue has buffers of non-negative size, a `mixWith` call that reaches the traversal and
requests `n` samples returns, and leaves the source Stopped with `position = 0`,
`queue_index = 0` and `samples_frac = 0` exactly when `n` is greater than
`queueSize() - getPosition()`, the number of samples from the cursor to the end of the
queue; otherwise the state stays Playing and `getPosition()` has advanced by `n`. -/
theorem mixWith_queue_exhaustion {σ : Type} (fuel : Nat)
    (callback : σ → AudioBuffer → σ × AudioBuffer) (swr : Resampler) (self : AudioSource)
    (env : σ) (ticks : timespec) (outSamples : List Int)
    (outBytes outBitDepth outNbChannels outFrequency : Int) (outVolume : ℚ)
    (curBuf : AudioBuffer) (n : Int)
    (hst : self.state = SourceState.SOURCE_PLAYING)
    (hloop : self.looping = false)
    (hsrc : self.source ≠ SourceType.SOURCE_CALLBACK)
    (hbuf : bufferAt self.buffer_queue self.queue_index = some curBuf)
    (hq : ∀ b ∈ self.buffer_queue, 0 ≤ b.sampleSize)
    (hready : ResamplerReady swr self)
    (hfit : OutputFits swr outSamples outBitDepth outNbChannels)
    (hn : (self.ticksToSamples ticks curBuf.frequency).1 = n) :
    ∃ r : MixResult σ,
      self.mixWith fuel callback swr env ticks outSamples outBytes outBitDepth outNbChannels
          outFrequency outVolume = .ok r
        ∧ ((r.self.state = SourceState.SOURCE_STOPPED ∧ r.self.position = 0
              ∧ r.self.queue_index = 0 ∧ r.self.samples_frac = 0)
            ↔ self.queueSize - self.getPosition < n)
        ∧ (¬ (self.queueSize - self.getPosition < n) →
            r.self.state = SourceState.SOURCE_PLAYING
              ∧ r.self.getPosition = self.getPosition + n) := by
  obtain ⟨fpos, fqi, fq, fst, floop, fsrc⟩ := beforeAdvance_fields
      (mixedAfter swr self.mixedSamples outBytes outBitDepth outNbChannels) self ticks curBuf
  have hQ : (beforeAdvance
      (mixedAfter swr self.mixedSamples outBytes outBitDepth outNbChannels) self ticks curBuf).queueSize = self.queueSize := by
    simp only [AudioSource.queueSize, fq]
  have hP : (beforeAdvance
      (mixedAfter swr self.mixedSamples outBytes outBitDepth outNbChannels) self ticks curBuf).getPosition = self.getPosition := by
    simp only [AudioSource.getPosition, fq, fqi, fpos]
  obtain ⟨hqi0, hqi, hqiL⟩ := bufferAt_some _ _ _ hbuf
  have hsucc := sizeBefore_succ _ _ _ hqi
  have htot := sizeBefore_le_total self.buffer_queue hq (self.queue_index.toNat + 1)
  have hQe := queueSize_eq self
  have hPe := getPosition_eq self
  by_cases hfull : n ≤ curBuf.sampleSize - self.position
  · -- the current buffer holds the n samples
    have hadv := advance_full fuel callback (beforeAdvance
        (mixedAfter swr self.mixedSamples outBytes outBitDepth outNbChannels) self ticks curBuf) env curBuf n
      (outBytes.tdiv ((outNbChannels * outBitDepth).tdiv 8))
      (setupTrace self curBuf outFrequency)
      (by rw [fpos]; exact hfull)
    rw [← hn] at hadv
    obtain ⟨out1, hmix, _⟩ := mixWith_of_advance fuel callback swr self env ticks outSamples
      outBytes outBitDepth outNbChannels outFrequency outVolume curBuf _ _ _ hst hbuf hready
      hfit hadv
    have hnot : ¬ (self.queueSize - self.getPosition < n) := by omega
    have hstate : ({ beforeAdvance
        (mixedAfter swr self.mixedSamples outBytes outBitDepth outNbChannels) self ticks curBuf with
        position := (beforeAdvance
            (mixedAfter swr self.mixedSamples outBytes outBitDepth outNbChannels) self ticks curBuf).position
          + (self.ticksToSamples ticks curBuf.frequency).1 } : AudioSource).state
        = SourceState.SOURCE_PLAYING := fst.trans hst
    refine ⟨_, hmix, ⟨fun h => ?_, fun h => absurd h hnot⟩, fun _ => ⟨hstate, ?_⟩⟩
    · rw [hstate] at h
      exact absurd h.1 (by decide)
    · rw [getPosition_eq, hPe]
      simp only [fq, fqi, fpos, hn]
      omega
  · have hmore : curBuf.sampleSize - self.position < n := by omega
    obtain ⟨w1, w2⟩ := advance_walk fuel callback (beforeAdvance
        (mixedAfter swr self.mixedSamples outBytes outBitDepth outNbChannels) self ticks curBuf) env
      curBuf n (outBytes.tdiv ((outNbChannels * outBitDepth).tdiv 8))
      (setupTrace self curBuf outFrequency)
      (by rw [floop]; exact hloop) (by rw [fsrc]; exact hsrc) (by rw [fq, fqi]; exact hbuf)
      (by rw [fq]; exact hq) (by rw [fpos]; exact hmore)
    rw [hQ, hP] at w1 w2
    by_cases hex : self.queueSize - self.getPosition < n
    · obtain ⟨tr, hadv⟩ := w2 hex
      rw [← hn] at hadv
      obtain ⟨out1, hmix, _⟩ := mixWith_of_advance fuel callback swr self env ticks outSamples
        outBytes outBitDepth outNbChannels outFrequency outVolume curBuf _ _ _ hst hbuf hready
        hfit hadv
      exact ⟨_, hmix, ⟨fun _ => hex, fun _ => ⟨rfl, rfl, rfl, rfl⟩⟩, fun h => absurd hex h⟩
    · obtain ⟨fi, fp, tr, hadv, h1, h2, h3, h4⟩ := w1 (by omega)
      rw [← hn] at hadv
      obtain ⟨out1, hmix, _⟩ := mixWith_of_advance fuel callback swr self env ticks outSamples
        outBytes outBitDepth outNbChannels outFrequency outVolume curBuf _ _ _ hst hbuf hready
        hfit hadv
      have hstate : ({ beforeAdvance
          (mixedAfter swr self.mixedSamples outBytes outBitDepth outNbChannels) self ticks curBuf with
          queue_index := (fi : Int), position := fp } : AudioSource).state
          = SourceState.SOURCE_PLAYING := fst.trans hst
      refine ⟨_, hmix, ⟨fun h => ?_, fun h => absurd h hex⟩, fun _ => ⟨hstate, ?_⟩⟩
      · rw [hstate] at h
        exact absurd h.1 (by decide)
      · rw [getPosition_eq]
        simp only [fq, Int.toNat_ofNat]
        rw [fq] at h4
        exact h4

theorem mixWith_queue_exhaustion_witness :
    ∃ r : MixResult Unit,
      (twoBufferSource false).mixWith 0 idleCallback idleResampler () ⟨0, 601000000⟩ []
          0 16 2 44100 1 = .ok r
        ∧ ((r.self.state = SourceState.SOURCE_STOPPED ∧ r.self.position = 0
              ∧ r.self.queue_index = 0 ∧ r.self.samples_frac = 0)
            ↔ (twoBufferSource false).queueSize - (twoBufferSource false).getPosition < 601)
        ∧ (¬ ((twoBufferSource false).queueSize - (twoBufferSource false).getPosition < 601) →
            r.self.state = SourceState.SOURCE_PLAYING
              ∧ r.self.getPosition = (twoBufferSource false).getPosition + 601) :=
  mixWith_queue_exhaustion 0 idleCallback idleResampler (twoBufferSource false) ()
    ⟨0, 601000000⟩ [] 0 16 2 44100 1 (bufferOfSize 1000) 601 rfl rfl (by decide) rfl
    (by decide) (by decide) (by decide) (by decide)

/-! ### The cursor after a call -/

/-- When the looping traversal ends with nothing left, `finalIndex` and `finalPos` have
been assigned, to a buffer of the queue and a position in `(0, sampleSize]`. -/
theorem loopQueue_inv (q : List AudioBuffer) :
    ∀ (fuel i : Nat) (rem : Int) (final : Option (Int × Int)) (trace : List Event)
      (rem1 : Int) (fin : Option (Int × Int)) (tr : List Event),
      loopQueue q fuel i rem final trace = .ok (rem1, fin, tr) →
      (rem ≤ 0 → ∃ (fi : Nat) (fp : Int) (b : AudioBuffer),
          final = some ((fi : Int), fp) ∧ q[fi]? = some b ∧ 0 < fp ∧ fp ≤ b.sampleSize) →
      rem1 ≤ 0 →
      ∃ (fi : Nat) (fp : Int) (b : AudioBuffer),
        fin = some ((fi : Int), fp) ∧ q[fi]? = some b ∧ 0 < fp ∧ fp ≤ b.sampleSize := by
  intro fuel
  induction fuel with
  | zero =>
    intro i rem final trace rem1 fin tr h hP hrem1
    by_cases hr : 0 < rem
    · simp [loopQueue, hr] at h
    · simp only [loopQueue, hr, if_false, Except.ok.injEq, Prod.mk.injEq] at h
      obtain ⟨e1, e2, _⟩ := h
      subst e1 e2
      exact hP (by omega)
  | succ fuel ih =>
    intro i rem final trace rem1 fin tr h hP hrem1
    by_cases hr : 0 < rem
    · cases hb : q[i]? with
      | none => simp [loopQueue, hr, hb] at h
      | some b =>
        simp only [loopQueue, hr, if_true, hb] at h
        refine ih _ _ _ _ _ _ _ h ?_ hrem1
        intro hle
        have hmin : b.getSamples rem 0 ≤ rem := by
          simp [AudioBuffer.getSamples]
        have hmin2 : b.getSamples rem 0 ≤ b.sampleSize := by
          simp [AudioBuffer.getSamples]
        have heq : rem = b.getSamples rem 0 := by omega
        rw [if_pos heq]
        exact ⟨i, b.getSamples rem 0, b, rfl, hb, by omega, hmin2⟩
    · simp only [loopQueue, hr, if_false, Except.ok.injEq, Prod.mk.injEq] at h
      obtain ⟨e1, e2, _⟩ := h
      subst e1 e2
      exact hP (by omega)

/-- When the non-looping traversal ends with nothing left, `finalIndex` and `finalPos`
have been assigned, to a buffer of the queue and a position in `(0, sampleSize]`. -/
theorem walkQueue_inv (q : List AudioBuffer) :
    ∀ (fuel i : Nat) (rem : Int) (final : Option (Int × Int)) (trace : List Event)
      (rem1 : Int) (fin : Option (Int × Int)) (tr : List Event),
      walkQueue q fuel i rem final trace = .ok (rem1, fin, tr) →
      (rem ≤ 0 → ∃ (fi : Nat) (fp : Int) (b : AudioBuffer),
          final = some ((fi : Int), fp) ∧ q[fi]? = some b ∧ 0 < fp ∧ fp ≤ b.sampleSize) →
      rem1 ≤ 0 →
      ∃ (fi : Nat) (fp : Int) (b : AudioBuffer),
        fin = some ((fi : Int), fp) ∧ q[fi]? = some b ∧ 0 < fp ∧ fp ≤ b.sampleSize := by
  intro fuel
  induction fuel with
  | zero =>
    intro i rem final trace rem1 fin tr h hP hrem1
    by_cases hr : 0 < rem ∧ i < q.length
    · simp [walkQueue, hr] at h
    · simp only [walkQueue, hr, if_false, Except.ok.injEq, Prod.mk.injEq] at h
      obtain ⟨e1, e2, _⟩ := h
      subst e1 e2
      exact hP hrem1
  | succ fuel ih =>
    intro i rem final trace rem1 fin tr h hP hrem1
    by_cases hr : 0 < rem ∧ i < q.length
    · cases hb : q[i]? with
      | none => simp [walkQueue, hr, hb] at h
      | some b =>
        simp only [walkQueue, hr, and_self, if_true, hb] at h
        refine ih _ _ _ _ _ _ _ h ?_ hrem1
        intro hle
        have hmin : b.getSamples rem 0 ≤ rem := by
          simp [AudioBuffer.getSamples]
        have hmin2 : b.getSamples rem 0 ≤ b.sampleSize := by
          simp [AudioBuffer.getSamples]
        have heq : rem = b.getSamples rem 0 := by omega
        rw [if_pos heq]
        exact ⟨i, b.getSamples rem 0, b, rfl, hb, by omega, hmin2⟩
    · simp only [walkQueue, hr, if_false, Except.ok.injEq, Prod.mk.injEq] at h
      obtain ⟨e1, e2, _⟩ := h
      subst e1 e2
      exact hP hrem1

/-- When the refill loop ends, `position` has been assigned a value in `(0, sampleSize]`
of the refilled buffer. -/
theorem refillLoop_inv {σ : Type} (callback : σ → AudioBuffer → σ × AudioBuffer) :
    ∀ (fuel : Nat) (env : σ) (buf : AudioBuffer) (rem pos : Int) (trace : List Event)
      (env1 : σ) (buf1 : AudioBuffer) (pos1 : Int) (tr : List Event),
      refillLoop callback fuel env buf rem pos trace = .ok (env1, buf1, pos1, tr) →
      (rem ≤ 0 → 0 < pos ∧ pos ≤ buf.sampleSize) →
      0 < pos1 ∧ pos1 ≤ buf1.sampleSize := by
  intro fuel
  induction fuel with
  | zero =>
    intro env buf rem pos trace env1 buf1 pos1 tr h hP
    by_cases hr : 0 < rem
    · simp [refillLoop, hr] at h
    · simp only [refillLoop, hr, if_false, Except.ok.injEq, Prod.mk.injEq] at h
      obtain ⟨_, e2, e3, _⟩ := h
      subst e2 e3
      exact hP (by omega)
  | succ fuel ih =>
    intro env buf rem pos trace env1 buf1 pos1 tr h hP
    by_cases hr : 0 < rem
    · by_cases hf : buf.frequency = 0
      · simp [refillLoop, hr, hf] at h
      · simp only [refillLoop, hr, if_true, hf, if_false] at h
        refine ih _ _ _ _ _ _ _ _ _ h ?_
        intro hle
        have hmin : (callback env buf).2.getSamples rem 0 ≤ rem := by
          simp [AudioBuffer.getSamples]
        have hmin2 : (callback env buf).2.getSamples rem 0
            ≤ (callback env buf).2.sampleSize := by
          simp [AudioBuffer.getSamples]
        have heq : rem = (callback env buf).2.getSamples rem 0 := by omega
        rw [if_pos heq]
        exact ⟨by omega, hmin2⟩
    · simp only [refillLoop, hr, if_false, Except.ok.injEq, Prod.mk.injEq] at h
      obtain ⟨_, e2, e3, _⟩ := h
      subst e2 e3
      exact hP (by omega)

/-- After a traversal that requested `n ≥ 0` samples from a position `≥ 0` and left the
source playing, the cursor designates a buffer and `0 ≤ position ≤ sampleSize`. -/
theorem advance_cursor {σ : Type} (fuel : Nat) (callback : σ → AudioBuffer → σ × AudioBuffer)
    (s : AudioSource) (env : σ) (curBuf : AudioBuffer) (n outNb : Int) (trace : List Event)
    (s1 : AudioSource) (env1 : σ) (tr : List Event)
    (h : advance fuel callback s env curBuf n outNb trace = .ok (s1, env1, tr))
    (hbuf : bufferAt s.buffer_queue s.queue_index = some curBuf)
    (hpos : 0 ≤ s.position) (hn : 0 ≤ n)
    (hst : s1.state = SourceState.SOURCE_PLAYING) :
    ∃ b, bufferAt s1.buffer_queue s1.queue_index = some b
      ∧ 0 ≤ s1.position ∧ s1.position ≤ b.sampleSize := by
  obtain ⟨hqi0, hqi, hqiL⟩ := bufferAt_some _ _ _ hbuf
  unfold advance at h
  by_cases hfull : curBuf.getSamples n s.position = n
  · simp only [hfull, if_true, Except.ok.injEq, Prod.mk.injEq] at h
    obtain ⟨e, _, _⟩ := h
    subst e
    have : n ≤ curBuf.sampleSize - s.position := by
      have := min_le_right n (curBuf.sampleSize - s.position)
      simp only [AudioBuffer.getSamples] at hfull
      omega
    exact ⟨curBuf, hbuf, by simp only; omega, by simp only; omega⟩
  · have hlt : curBuf.getSamples n s.position < n := by
      have := min_le_left n (curBuf.sampleSize - s.position)
      simp only [AudioBuffer.getSamples] at hfull ⊢
      omega
    simp only [hfull, if_false] at h
    by_cases hsrc : s.source = SourceType.SOURCE_CALLBACK
    · simp only [hsrc, if_true] at h
      split at h
      · cases h
      · rename_i envr bufr posr trr hloop
        simp only [Except.ok.injEq, Prod.mk.injEq] at h
        obtain ⟨e, _, _⟩ := h
        subst e
        obtain ⟨p1, p2⟩ := refillLoop_inv callback _ _ _ _ _ _ _ _ _ _ hloop
          (fun hle => by omega)
        refine ⟨bufr, ?_, p1.le, p2⟩
        simp only [bufferAt, hqi0, if_true]
        rw [List.getElem?_set_self hqiL]
    · simp only [hsrc, if_false] at h
      split at h
      · cases h
      · rename_i rem1 fin trr hwalk
        by_cases hrem : 0 < rem1
        · simp only [hrem, if_true, Except.ok.injEq, Prod.mk.injEq] at h
          obtain ⟨e, _, _⟩ := h
          subst e
          simp at hst
        · simp only [hrem, if_false] at h
          have hgood : ∃ (fi : Nat) (fp : Int) (b : AudioBuffer),
              fin = some ((fi : Int), fp) ∧ s.buffer_queue[fi]? = some b ∧ 0 < fp
                ∧ fp ≤ b.sampleSize := by
            by_cases hl : s.looping = true
            · simp only [hl, if_true] at hwalk
              exact loopQueue_inv _ _ _ _ _ _ _ _ _ hwalk (fun hle => by omega) (by omega)
            · simp only [hl, if_false] at hwalk
              exact walkQueue_inv _ _ _ _ _ _ _ _ _ hwalk (fun hle => by omega) (by omega)
          obtain ⟨fi, fp, b, efin, hb, h1, h2⟩ := hgood
          subst efin
          simp only [Except.ok.injEq, Prod.mk.injEq] at h
          obtain ⟨e, _, _⟩ := h
          subst e
          exact ⟨b, by simp only [bufferAt_natCast]; exact hb, h1.le, h2⟩

/-- Claim C6, amended: position invariant. If `0 ≤ position ≤ sampleSize` of the
current buffer before a `mixWith` call whose tick delta converts to a non-negative
number of samples, and the source is still Playing when `mixWith` returns, then
`queue_index` designates a buffer of the queue and `0 ≤ position ≤ sampleSize` of that
buffer holds again. The upper bound is not strict: a read that ends exactly at the end
of a buffer leaves `position = sampleSize`. -/
theorem mixWith_position_invariant {σ : Type} (fuel : Nat)
    (callback : σ → AudioBuffer → σ × AudioBuffer) (swr : Resampler) (self : AudioSource)
    (env : σ) (ticks : timespec) (outSamples : List Int)
    (outBytes outBitDepth outNbChannels outFrequency : Int) (outVolume : ℚ)
    (curBuf : AudioBuffer) (r : MixResult σ)
    (hbuf : bufferAt self.buffer_queue self.queue_index = some curBuf)
    (hpos : 0 ≤ self.position) (hpos1 : self.position ≤ curBuf.sampleSize)
    (hn : 0 ≤ (self.ticksToSamples ticks curBuf.frequency).1)
    (hr : self.mixWith fuel callback swr env ticks outSamples outBytes outBitDepth
        outNbChannels outFrequency outVolume = .ok r)
    (hst : r.self.state = SourceState.SOURCE_PLAYING) :
    ∃ b, bufferAt r.self.buffer_queue r.self.queue_index = some b
      ∧ 0 ≤ r.self.position ∧ r.self.position ≤ b.sampleSize := by
  rcases mixWith_inv fuel callback swr self env ticks outSamples outBytes outBitDepth
    outNbChannels outFrequency outVolume r hr with h | ⟨_, cb, env1, tr0, tr1, hb, hadv⟩
  · rw [h]
    exact ⟨curBuf, hbuf, hpos, hpos1⟩
  · rw [hbuf] at hb
    injection hb with hb
    subst hb
    obtain ⟨fpos, fqi, fq, _, _, _⟩ := beforeAdvance_fields
        (mixedAfter swr self.mixedSamples outBytes outBitDepth outNbChannels) self ticks curBuf
    exact advance_cursor fuel callback _ env curBuf _ _ tr0 r.self env1 tr1 hadv
      (by rw [fq, fqi]; exact hbuf) (by rw [fpos]; exact hpos) hn hst

theorem mixWith_position_invariant_witness :
    ∃ b, bufferAt [bufferOfSize 1000, bufferOfSize 500] 0 = some b
      ∧ (0 : Int) ≤ 1000 ∧ (1000 : Int) ≤ b.sampleSize :=
  mixWith_position_invariant 0 idleCallback idleResampler (twoBufferSource false) ()
    ⟨0, 100000000⟩ [] 0 16 2 44100 1 (bufferOfSize 1000)
    ⟨0, { twoBufferSource false with swr_initialized := true, position := 1000 }, [], (),
      [Event.swr_init 1000 44100, Event.swr_convert 0 100]⟩
    rfl (by decide) (by decide) (by decide) rfl rfl

theorem mixWith_position_invariant_counterexample :
    (bufferAt (twoBufferSource false).buffer_queue (twoBufferSource false).queue_index
          = some (bufferOfSize 1000)
        ∧ 0 ≤ (twoBufferSource false).position
        ∧ (twoBufferSource false).position < (bufferOfSize 1000).sampleSize)
      ∧ ((twoBufferSource false).mixWith 0 idleCallback idleResampler () ⟨0, 100000000⟩ []
            0 16 2 44100 1).toOption.map
          (fun r => (r.self.state, r.self.buffer_queue.length, r.self.position,
            (bufferAt r.self.buffer_queue r.self.queue_index).map AudioBuffer.sampleSize))
        = some (SourceState.SOURCE_PLAYING, 2, 1000, some 1000)
      ∧ ((twoBufferSource false).mixWith 0 idleCallback idleResampler () ⟨2147484, 0⟩ []
            0 16 2 44100 1).toOption.map
          (fun r => (r.self.state, r.self.buffer_queue.length, r.self.position,
            (bufferAt r.self.buffer_queue r.self.queue_index).map AudioBuffer.sampleSize))
        = some (SourceState.SOURCE_PLAYING, 2, -2147482396, some 1000) := by
  refine ⟨by decide, by decide, by decide⟩

/-! ### Gain and saturation -/

/-- The macro `clamptofullsignedrange` is a clamp when `lo ≤ 0`, `-1 ≤ hi`, `lo ≤ hi` and
the differences stay within `int`. -/
theorem clamp_eq_max_min (x lo hi : Int) (hlo : lo ≤ 0) (hhi : -1 ≤ hi) (hle : lo ≤ hi)
    (hspan : hi - lo < 2147483648) (h1 : -2147483648 ≤ x - lo) (h2 : x - lo < 2147483648) :
    clamptofullsignedrange x lo hi = max lo (min hi x) := by
  unfold clamptofullsignedrange toUInt32
  simp only [max_def, min_def]
  split_ifs <;> omega

theorem gain_product_bounds (m g : Int) (hm1 : -32768 ≤ m) (hm2 : m ≤ 32767)
    (hg1 : 0 ≤ g) (hg2 : g ≤ 65536) :
    -2147483648 ≤ m * g ∧ m * g ≤ 2147418112 := by
  constructor
  · nlinarith
  · nlinarith

/-- The shift `>> 16` is the floor of the division by `65536`. -/
theorem shiftRight16 (x : Int) : x >>> (16 : Nat) = x / 65536 := by
  rw [Int.shiftRight_eq_div_pow]
  norm_num

/-- Claim C7: saturation for 16-bit output. For 16-bit `o` and `m` and a gain
`0 ≤ g ≤ 65536`, the value stored by the 16-bit loop lies in `[-32768, 32767]`, is
`32767` when `o + floor(m*g/65536)` exceeds `32767`, is `-32768` when that sum is below
`-32768`, and is the sum otherwise; a stereo frame stores this value in both slots.
The macro `clamptofullsignedrange(x, lo, hi)` equals `max(lo, min(hi, x))` on the
mixer's sum, and on every `x` with `lo ≤ 0`, `-1 ≤ hi`, `lo ≤ hi` and `x - lo`,
`hi - lo` within the range of `int`. -/
theorem mixSample16_saturates (o m g : Int)
    (ho1 : -32768 ≤ o) (ho2 : o ≤ 32767) (hm1 : -32768 ≤ m) (hm2 : m ≤ 32767)
    (hg1 : 0 ≤ g) (hg2 : g ≤ 65536) :
    (-32768 ≤ mixSample16 o m g ∧ mixSample16 o m g ≤ 32767)
      ∧ (32767 < o + m * g / 65536 → mixSample16 o m g = 32767)
      ∧ (o + m * g / 65536 < -32768 → mixSample16 o m g = -32768)
      ∧ (-32768 ≤ o + m * g / 65536 → o + m * g / 65536 ≤ 32767 →
          mixSample16 o m g = o + m * g / 65536)
      ∧ mixFrame16 [m, m] g g 2 0 [o, o] = .ok [mixSample16 o m g, mixSample16 o m g]
      ∧ clamptofullsignedrange (o + ((m * g) >>> (16 : Nat))) (-32768) 32767
          = max (-32768) (min 32767 (o + m * g / 65536))
      ∧ (∀ x lo hi : Int, lo ≤ 0 → -1 ≤ hi → lo ≤ hi → hi - lo < 2147483648 →
          -2147483648 ≤ x - lo → x - lo < 2147483648 →
          clamptofullsignedrange x lo hi = max lo (min hi x)) := by
  obtain ⟨hp1, hp2⟩ := gain_product_bounds m g hm1 hm2 hg1 hg2
  have hs : (m * g) >>> (16 : Nat) = m * g / 65536 := shiftRight16 _
  have hc : clamptofullsignedrange (o + m * g / 65536) (-32768) 32767
      = max (-32768) (min 32767 (o + m * g / 65536)) :=
    clamp_eq_max_min _ _ _ (by omega) (by omega) (by omega) (by omega) (by omega) (by omega)
  have hv : mixSample16 o m g = max (-32768) (min 32767 (o + m * g / 65536)) := by
    unfold mixSample16 toInt16
    rw [hs, hc]
    omega
  refine ⟨by rw [hv]; omega, fun h => by rw [hv]; omega, fun h => by rw [hv]; omega,
    fun h1 h2 => by rw [hv]; omega, ?_, by rw [hs, hc], clamp_eq_max_min⟩
  simp [mixFrame16, sampleAt]

theorem mixSample16_saturates_witness :
    mixSample16 30000 30000 65536 = 32767
      ∧ mixSample16 (-30000) (-30000) 65536 = -32768
      ∧ mixSample16 10000 30000 32768 = 25000 :=
  ⟨(mixSample16_saturates 30000 30000 65536 (by decide) (by decide) (by decide) (by decide)
      (by decide) (by decide)).2.1 (by decide),
   (mixSample16_saturates (-30000) (-30000) 65536 (by decide) (by decide) (by decide)
      (by decide) (by decide) (by decide)).2.2.1 (by decide),
   (mixSample16_saturates 10000 30000 32768 (by decide) (by decide) (by decide) (by decide)
      (by decide) (by decide)).2.2.2.1 (by decide) (by decide)⟩

/-- Claim C8, evaluated at `o = 100`, `m = 100`, `g = 65536`: the left slot of an 8-bit
frame receives `0`, because the code subtracts 256 from the sum, whereas the right slot
receives `200`, the saturated sum `o + floor(m*g/65536)` that the claim describes for
both channels. -/
theorem mixLeft8_subtracts_256 :
    mixLeft8 100 100 65536 = 0
      ∧ mixRight8 100 100 65536 = 200
      ∧ max 0 (min 255 (100 + 100 * 65536 / 65536)) = (200 : Int)
      ∧ mixFrame8 [100, 100] 65536 65536 2 0 [100, 100] = .ok [0, 200] := by
  refine ⟨by decide, by decide, by decide, by rfl⟩

theorem truncToInt_intCast (z : Int) : truncToInt (z : ℚ) = z := by
  unfold truncToInt
  split <;> simp

/-! ### Rounding to `float` -/

theorem roundHalfEven_near (q : ℚ) :
    q - 1 / 2 ≤ (roundHalfEven q : ℚ) ∧ (roundHalfEven q : ℚ) ≤ q + 1 / 2 := by
  have h1 := Int.floor_le q
  have h2 := Int.lt_floor_add_one q
  unfold roundHalfEven
  split_ifs <;> push_cast <;> constructor <;> linarith

theorem roundHalfEven_le_int (q : ℚ) (N : Int) (h : q ≤ N) : roundHalfEven q ≤ N := by
  have h1 := (roundHalfEven_near q).2
  have h2 : (roundHalfEven q : ℚ) < ((N + 1 : Int) : ℚ) := by
    push_cast
    linarith
  have h3 : roundHalfEven q < N + 1 := by exact_mod_cast h2
  omega

theorem int_le_roundHalfEven (q : ℚ) (N : Int) (h : (N : ℚ) ≤ q) : N ≤ roundHalfEven q := by
  have h1 := (roundHalfEven_near q).1
  have h2 : ((N - 1 : Int) : ℚ) < (roundHalfEven q : ℚ) := by
    push_cast
    linarith
  have h3 : N - 1 < roundHalfEven q := by exact_mod_cast h2
  omega

theorem float32Spacing_pos (q : ℚ) : 0 < float32Spacing q := by
  unfold float32Spacing
  positivity

/-- The rounding error is at most half the spacing. -/
theorem roundFloat32_near (q : ℚ) :
    q - float32Spacing q / 2 ≤ roundFloat32 q ∧ roundFloat32 q ≤ q + float32Spacing q / 2 := by
  have hs := float32Spacing_pos q
  obtain ⟨h1, h2⟩ := roundHalfEven_near (q / float32Spacing q)
  have e : q / float32Spacing q * float32Spacing q = q := div_mul_cancel₀ q hs.ne'
  unfold roundFloat32
  constructor
  · have := mul_le_mul_of_nonneg_right h1 hs.le
    rw [sub_mul, e] at this
    linarith
  · have := mul_le_mul_of_nonneg_right h2 hs.le
    rw [add_mul, e] at this
    linarith

theorem log_two_le (q : ℚ) (j : Int) (hj : 0 ≤ j) (hq : |q| ≤ 2 ^ j) :
    Int.log 2 |q| ≤ j := by
  rcases (abs_nonneg q).eq_or_lt with h | h
  · rw [← h, Int.log_zero_right]
    exact hj
  · have h2 : |q| ≤ ((2 : ℕ) : ℚ) ^ j := by
      rw [Nat.cast_ofNat]
      exact hq
    have := Int.log_mono_right (b := 2) h h2
    rwa [Int.log_zpow (by norm_num)] at this

/-- The spacing around a value of magnitude at most `2^j`, `j ≥ 0`, is at most
`2^(j - 23)`. -/
theorem float32Spacing_le (q : ℚ) (j : Int) (hj : 0 ≤ j) (hq : |q| ≤ 2 ^ j) :
    float32Spacing q ≤ 2 ^ (j - 23) := by
  have h := log_two_le q j hj hq
  unfold float32Spacing
  apply zpow_le_zpow_right₀ (by norm_num)
  have : max (Int.log 2 |q|) (-126) ≤ j := max_le h (by omega)
  omega

/-- A power of two above the spacing is a whole number of spacings. -/
theorem zpow_div_spacing (k j : Int) (h : k ≤ j) :
    ∃ N : Int, (N : ℚ) = (2 : ℚ) ^ j / (2 : ℚ) ^ k ∧ (N : ℚ) * (2 : ℚ) ^ k = (2 : ℚ) ^ j := by
  refine ⟨2 ^ (j - k).toNat, ?_, ?_⟩
  · rw [← zpow_sub₀ (by norm_num : (2 : ℚ) ≠ 0)]
    push_cast
    rw [← zpow_natCast, Int.toNat_of_nonneg (by omega)]
  · push_cast
    rw [← zpow_natCast, Int.toNat_of_nonneg (by omega), ← zpow_add₀ (by norm_num : (2 : ℚ) ≠ 0)]
    congr 1
    omega

theorem roundFloat32_nonneg (q : ℚ) (hq : 0 ≤ q) : 0 ≤ roundFloat32 q := by
  have hs := float32Spacing_pos q
  have h := int_le_roundHalfEven (q / float32Spacing q) 0 (by
    push_cast
    exact div_nonneg hq hs.le)
  unfold roundFloat32
  exact mul_nonneg (by exact_mod_cast h) hs.le

/-- Rounding does not cross a power of two from below: `2^j` is a `float` number. -/
theorem roundFloat32_le_zpow (q : ℚ) (j : Int) (hj : 0 ≤ j) (hq : q ≤ 2 ^ j) :
    roundFloat32 q ≤ 2 ^ j := by
  have hs := float32Spacing_pos q
  rcases le_or_lt q 0 with h0 | h0
  · have h := roundHalfEven_le_int (q / float32Spacing q) 0 (by
      push_cast
      exact div_nonpos_of_nonpos_of_nonneg h0 hs.le)
    unfold roundFloat32
    have h1 : (roundHalfEven (q / float32Spacing q) : ℚ) ≤ 0 := by exact_mod_cast h
    have h2 : (roundHalfEven (q / float32Spacing q) : ℚ) * float32Spacing q ≤ 0 :=
      mul_nonpos_of_nonpos_of_nonneg h1 hs.le
    have h3 : (0 : ℚ) < 2 ^ j := by positivity
    linarith
  · have habs : |q| = q := abs_of_pos h0
    have hlog := log_two_le q j hj (by rw [habs]; exact hq)
    have hk : max (Int.log 2 |q|) (-126) - 23 ≤ j := by
      have : max (Int.log 2 |q|) (-126) ≤ j := max_le hlog (by omega)
      omega
    obtain ⟨N, hN1, hN2⟩ := zpow_div_spacing _ j hk
    have hle : q / float32Spacing q ≤ (N : ℚ) := by
      rw [hN1]
      unfold float32Spacing
      exact div_le_div_of_nonneg_right hq (by positivity)
    have h := roundHalfEven_le_int _ N hle
    have h1 : (roundHalfEven (q / float32Spacing q) : ℚ) ≤ (N : ℚ) := by exact_mod_cast h
    have h2 := mul_le_mul_of_nonneg_right h1 hs.le
    unfold roundFloat32
    calc (roundHalfEven (q / float32Spacing q) : ℚ) * float32Spacing q
        ≤ (N : ℚ) * float32Spacing q := h2
      _ = 2 ^ j := hN2

/-- Rounding does not cross a power of two from above. -/
theorem zpow_le_roundFloat32 (q : ℚ) (j : Int) (hj : 0 ≤ j) (hq : 2 ^ j ≤ q) :
    2 ^ j ≤ roundFloat32 q := by
  have hs := float32Spacing_pos q
  have hj0 : (0 : ℚ) < 2 ^ j := by positivity
  have h0 : 0 < q := lt_of_lt_of_le hj0 hq
  have habs : |q| = q := abs_of_pos h0
  have hlogj : j ≤ Int.log 2 |q| := by
    rw [habs]
    apply (Int.zpow_le_iff_le_log (by norm_num) h0).mp
    rw [Nat.cast_ofNat]
    exact hq
  have hmax : max (Int.log 2 |q|) (-126) = Int.log 2 |q| := max_eq_left (by omega)
  have hsp : float32Spacing q = 2 ^ (Int.log 2 |q| - 23) := by
    unfold float32Spacing
    rw [hmax]
  rcases le_or_lt (Int.log 2 |q| - 23) j with hk | hk
  · obtain ⟨N, hN1, hN2⟩ := zpow_div_spacing _ j hk
    have hle : (N : ℚ) ≤ q / float32Spacing q := by
      rw [hN1, hsp]
      exact div_le_div_of_nonneg_right hq (by positivity)
    have h := int_le_roundHalfEven _ N hle
    have h1 : (N : ℚ) ≤ (roundHalfEven (q / float32Spacing q) : ℚ) := by exact_mod_cast h
    have h2 := mul_le_mul_of_nonneg_right h1 hs.le
    unfold roundFloat32
    calc (2 : ℚ) ^ j = (N : ℚ) * float32Spacing q := by rw [hsp]; exact hN2.symm
      _ ≤ (roundHalfEven (q / float32Spacing q) : ℚ) * float32Spacing q := h2
  · have hpow : (2 : ℚ) ^ Int.log 2 |q| ≤ q := by
      have := Int.zpow_log_le_self (b := 2) (r := q) (by norm_num) h0
      rw [Nat.cast_ofNat, ← habs] at this
      rw [habs] at this ⊢
      exact this
    have hbig : (1 : ℚ) ≤ q / float32Spacing q := by
      rw [le_div_iff₀ hs, one_mul, hsp]
      refine le_trans ?_ hpow
      apply zpow_le_zpow_right₀ (by norm_num)
      omega
    have h := int_le_roundHalfEven _ 1 (by push_cast; exact hbig)
    have h1 : (1 : ℚ) ≤ (roundHalfEven (q / float32Spacing q) : ℚ) := by exact_mod_cast h
    have h2 := mul_le_mul_of_nonneg_right h1 hs.le
    rw [one_mul] at h2
    unfold roundFloat32
    refine le_trans ?_ h2
    rw [hsp]
    apply zpow_le_zpow_right₀ (by norm_num)
    omega

/-- The spacing around a positive value in the binade of `2^e`. -/
theorem float32Spacing_eq (q : ℚ) (e : Int) (he : -126 ≤ e) (h1 : (2 : ℚ) ^ e ≤ q)
    (h2 : q < (2 : ℚ) ^ (e + 1)) : float32Spacing q = (2 : ℚ) ^ (e - 23) := by
  have h0 : 0 < q := lt_of_lt_of_le (by positivity) h1
  have habs : |q| = q := abs_of_pos h0
  have hlog : Int.log 2 q = e := by
    apply le_antisymm
    · have := (Int.lt_zpow_iff_log_lt (b := 2) (by norm_num) h0 (x := e + 1)).mp (by
        rw [Nat.cast_ofNat]
        exact h2)
      omega
    · apply (Int.zpow_le_iff_le_log (by norm_num) h0).mp
      rw [Nat.cast_ofNat]
      exact h1
  unfold float32Spacing
  rw [habs, hlog, max_eq_left he]

/-- The `float` nearest to a positive value in the binade of `2^e` that lies strictly
within half a spacing of `m` spacings. -/
theorem roundFloat32_eval (q : ℚ) (e m : Int) (he : -126 ≤ e) (h1 : (2 : ℚ) ^ e ≤ q)
    (h2 : q < (2 : ℚ) ^ (e + 1)) (hm1 : (m : ℚ) - 1 / 2 < q / (2 : ℚ) ^ (e - 23))
    (hm2 : q / (2 : ℚ) ^ (e - 23) < (m : ℚ) + 1 / 2) :
    roundFloat32 q = (m : ℚ) * (2 : ℚ) ^ (e - 23) := by
  have hsp := float32Spacing_eq q e he h1 h2
  obtain ⟨n1, n2⟩ := roundHalfEven_near (q / (2 : ℚ) ^ (e - 23))
  have hr : roundHalfEven (q / (2 : ℚ) ^ (e - 23)) = m := by
    have a1 : ((m - 1 : Int) : ℚ) < (roundHalfEven (q / (2 : ℚ) ^ (e - 23)) : ℚ) := by
      push_cast
      linarith
    have a2 : (roundHalfEven (q / (2 : ℚ) ^ (e - 23)) : ℚ) < ((m + 1 : Int) : ℚ) := by
      push_cast
      linarith
    have b1 : m - 1 < roundHalfEven (q / (2 : ℚ) ^ (e - 23)) := by exact_mod_cast a1
    have b2 : roundHalfEven (q / (2 : ℚ) ^ (e - 23)) < m + 1 := by exact_mod_cast a2
    omega
  unfold roundFloat32
  rw [hsp, hr]

theorem resultVolume_eq (v w : ℚ) : resultVolume v w = min 1 (roundFloat32 (v * w)) := by
  unfold resultVolume
  split
  · rename_i h; exact (min_eq_left h.le).symm
  · rename_i h; exact (min_eq_right (not_lt.mp h)).symm

theorem truncToInt_nonneg (q : ℚ) (h : 0 ≤ q) : truncToInt q = ⌊q⌋ := by
  unfold truncToInt
  rw [if_pos h]

theorem gainFactor_le (v w : ℚ) : gainFactor v w ≤ 65536 := by
  have hle : resultVolume v w ≤ 1 := by rw [resultVolume_eq]; exact min_le_left _ _
  have hz : roundFloat32 (resultVolume v w * 65536) ≤ 65536 := by
    have := roundFloat32_le_zpow (resultVolume v w * 65536) 16 (by omega) (by
      norm_num
      linarith)
    norm_num at this
    exact this
  unfold gainFactor truncToInt
  have h65 : roundFloat32 (resultVolume v w * 65536) ≤ ((65536 : Int) : ℚ) := by
    push_cast
    exact hz
  split
  · exact Int.cast_le.mp (le_trans (Int.floor_le _) h65)
  · rename_i hneg
    have : ⌈roundFloat32 (resultVolume v w * 65536)⌉ ≤ 0 :=
      Int.ceil_le.mpr (by push_cast; linarith)
    omega

theorem gainFactor_unity (v w : ℚ) (h : 1 ≤ v * w) :
    resultVolume v w = 1 ∧ gainFactor v w = 65536 := by
  have hx : 1 ≤ roundFloat32 (v * w) := by
    have := zpow_le_roundFloat32 (v * w) 0 (le_refl 0) (by simpa using h)
    simpa using this
  have hres : resultVolume v w = 1 := by
    rw [resultVolume_eq]
    exact min_eq_left hx
  refine ⟨hres, ?_⟩
  have h1 := roundFloat32_le_zpow (1 * 65536) 16 (by omega) (by norm_num)
  have h2 := zpow_le_roundFloat32 (1 * 65536) 16 (by omega) (by norm_num)
  have hz : roundFloat32 (1 * 65536) = ((65536 : Int) : ℚ) := by
    norm_num at h1 h2 ⊢
    exact le_antisymm h1 h2
  unfold gainFactor
  rw [hres, hz, truncToInt_intCast]

/-- The factor is within one of the factor computed without rounding. -/
theorem gainFactor_close (v w : ℚ) (h0 : 0 ≤ v * w) :
    gainFactor v w - 1 ≤ truncToInt (min 1 (v * w) * 65536)
      ∧ truncToInt (min 1 (v * w) * 65536) ≤ gainFactor v w + 1 := by
  rcases le_or_lt 1 (v * w) with h1 | h1
  · rw [(gainFactor_unity v w h1).2, min_eq_left h1]
    have : ((1 : ℚ) * 65536) = ((65536 : Int) : ℚ) := by norm_num
    rw [this, truncToInt_intCast]
    omega
  · have hx0 := roundFloat32_nonneg (v * w) h0
    have hx1 : roundFloat32 (v * w) ≤ 1 := by
      have := roundFloat32_le_zpow (v * w) 0 (le_refl 0) (by simpa using h1.le)
      simpa using this
    have hres : resultVolume v w = roundFloat32 (v * w) := by
      rw [resultVolume_eq]
      exact min_eq_right hx1
    have hsx : float32Spacing (v * w) ≤ 1 / 8388608 := by
      have := float32Spacing_le (v * w) 0 (le_refl 0) (by
        rw [abs_of_nonneg h0]
        simpa using h1.le)
      norm_num at this
      linarith
    obtain ⟨ex1, ex2⟩ := roundFloat32_near (v * w)
    have hy0 : 0 ≤ roundFloat32 (v * w) * 65536 := by positivity
    have hy1 : roundFloat32 (v * w) * 65536 ≤ 65536 := by linarith
    have hsy : float32Spacing (roundFloat32 (v * w) * 65536) ≤ 1 / 128 := by
      have := float32Spacing_le (roundFloat32 (v * w) * 65536) 16 (by omega) (by
        rw [abs_of_nonneg hy0]
        norm_num
        exact hx1)
      norm_num at this
      linarith
    obtain ⟨ey1, ey2⟩ := roundFloat32_near (roundFloat32 (v * w) * 65536)
    have hz0 := roundFloat32_nonneg _ hy0
    have hp0 : 0 ≤ min 1 (v * w) * 65536 := by
      have : 0 ≤ min 1 (v * w) := le_min (by norm_num) h0
      positivity
    unfold gainFactor
    rw [hres, truncToInt_nonneg _ hz0, truncToInt_nonneg _ hp0, min_eq_right h1.le]
    have f1 := Int.floor_le (roundFloat32 (roundFloat32 (v * w) * 65536))
    have f2 := Int.lt_floor_add_one (roundFloat32 (roundFloat32 (v * w) * 65536))
    have g1 := Int.floor_le (v * w * 65536)
    have g2 := Int.lt_floor_add_one (v * w * 65536)
    constructor
    · have : ((⌊roundFloat32 (roundFloat32 (v * w) * 65536)⌋ - 1 : Int) : ℚ)
          < ((⌊v * w * 65536⌋ + 1 : Int) : ℚ) := by
        push_cast
        linarith
      have := Int.cast_lt.mp this
      omega
    · have : ((⌊v * w * 65536⌋ : Int) : ℚ)
          < ((⌊roundFloat32 (roundFloat32 (v * w) * 65536)⌋ + 2 : Int) : ℚ) := by
        push_cast
        linarith
      have := Int.cast_lt.mp this
      omega

/-- Claim C9, amended: gain clamp. `volume * outVolume` is a `float` product: the gain
`mixWith` applies is `min(1, fl(v*w))`, `fl` rounding to the nearest `float`, and the
fixed-point factor is `trunc(fl(min(1, fl(v*w)) * 65536))`. The factor never exceeds
`65536`; when `v*w ≥ 1` the gain is 1, the factor is `65536` and a 16-bit input sample
`m` is added at unity, the stored value being `o + m` clamped to `[-32768, 32767]`; for
`v*w ≥ 0` the factor is non-negative and within one of `trunc(min(1, v*w) * 65536)`, the
factor of the exact product. -/
theorem gainFactor_clamped (v w : ℚ) :
    resultVolume v w = min 1 (roundFloat32 (v * w))
      ∧ gainFactor v w ≤ 65536
      ∧ (1 ≤ v * w →
          resultVolume v w = 1 ∧ gainFactor v w = 65536
            ∧ ∀ o m : Int, -32768 ≤ o → o ≤ 32767 → -32768 ≤ m → m ≤ 32767 →
                mixSample16 o m (gainFactor v w) = max (-32768) (min 32767 (o + m)))
      ∧ (0 ≤ v * w →
          0 ≤ gainFactor v w
            ∧ gainFactor v w - 1 ≤ truncToInt (min 1 (v * w) * 65536)
            ∧ truncToInt (min 1 (v * w) * 65536) ≤ gainFactor v w + 1)
      ∧ (v * w - float32Spacing (v * w) / 2 ≤ roundFloat32 (v * w)
          ∧ roundFloat32 (v * w) ≤ v * w + float32Spacing (v * w) / 2) := by
  refine ⟨resultVolume_eq v w, gainFactor_le v w, ?_, ?_, roundFloat32_near (v * w)⟩
  · intro h
    obtain ⟨hres, hunity⟩ := gainFactor_unity v w h
    refine ⟨hres, hunity, ?_⟩
    intro o m ho1 ho2 hm1 hm2
    rw [hunity]
    have hs : (m * 65536) >>> (16 : Nat) = m := by
      rw [shiftRight16]; omega
    have hc := clamp_eq_max_min (o + m) (-32768) 32767 (by omega) (by omega) (by omega)
      (by omega) (by omega) (by omega)
    unfold mixSample16 toInt16
    rw [hs, hc]
    omega
  · intro h0
    obtain ⟨c1, c2⟩ := gainFactor_close v w h0
    refine ⟨?_, c1, c2⟩
    have hres0 : 0 ≤ resultVolume v w := by
      rw [resultVolume_eq]
      exact le_min (by norm_num) (roundFloat32_nonneg _ h0)
    have hz0 := roundFloat32_nonneg (resultVolume v w * 65536) (by positivity)
    unfold gainFactor
    rw [truncToInt_nonneg _ hz0]
    exact Int.floor_nonneg.mpr hz0

/-- Volumes 1 and 2: the product is at least 1, the factor is 65536 and two samples of
30000 add up to the clamped 32767. -/
theorem gainFactor_clamped_witness :
    (1 : ℚ) ≤ 1 * 2 ∧ gainFactor 1 2 = 65536
      ∧ mixSample16 30000 30000 (gainFactor 1 2) = max (-32768) (min 32767 (30000 + 30000)) :=
  ⟨by norm_num, ((gainFactor_clamped 1 2).2.2.1 (by norm_num)).2.1,
    ((gainFactor_clamped 1 2).2.2.1 (by norm_num)).2.2 30000 30000 (by decide) (by decide)
      (by decide) (by decide)⟩

/-- The `float` volumes `12348031 / 2^29` and `14881391 / 2^24`: their exact product
lies just below `1337 / 65536` and gives the factor `trunc(1336.99997...) = 1336`, but
the product rounded to `float` is `1337 / 65536` and the factor of the code is 1337. -/
theorem gainFactor_clamped_counterexample :
    gainFactor (12348031 / 536870912) (14881391 / 16777216) = 1337
      ∧ truncToInt (min 1 ((12348031 / 536870912 : ℚ) * (14881391 / 16777216)) * 65536)
        = 1336 := by
  have hp : (12348031 / 536870912 : ℚ) * (14881391 / 16777216)
      = 183755877391121 / 9007199254740992 := by norm_num
  have hx : roundFloat32 (183755877391121 / 9007199254740992) = 1337 / 65536 := by
    rw [roundFloat32_eval (183755877391121 / 9007199254740992) (-6) 10952704 (by omega)
      (by norm_num) (by norm_num) (by norm_num) (by norm_num)]
    norm_num
  have hy : roundFloat32 1337 = 1337 := by
    rw [roundFloat32_eval 1337 10 10952704 (by omega)
      (by norm_num) (by norm_num) (by norm_num) (by norm_num)]
    norm_num
  constructor
  · unfold gainFactor
    rw [resultVolume_eq, hp, hx, min_eq_right (by norm_num)]
    have : (1337 / 65536 : ℚ) * 65536 = 1337 := by norm_num
    rw [this, hy]
    have : (1337 : ℚ) = ((1337 : Int) : ℚ) := by norm_num
    rw [this, truncToInt_intCast]
  · rw [hp, min_eq_right (by norm_num)]
    rw [truncToInt_nonneg _ (by norm_num)]
    rw [Int.floor_eq_iff]
    constructor <;> norm_num

/-! ### Callback refill -/

theorem fedSamples_append (a b : List Event) :
    fedSamples (a ++ b) = fedSamples a ++ fedSamples b := by
  induction a with
  | nil => rfl
  | cons e a ih => cases e <;> simp [fedSamples, ih]

theorem fedSamples_refills (l : List (timespec × Int)) :
    fedSamples (l.flatMap refillEvents) = l.map Prod.snd := by
  induction l with
  | nil => rfl
  | cons r l ih =>
    rw [List.flatMap_cons, fedSamples_append, ih]
    simp [refillEvents, fedSamples]

theorem callbackCount_append (a b : List Event) :
    callbackCount (a ++ b) = callbackCount a + callbackCount b := by
  simp [callbackCount]

theorem callbackCount_refills (l : List (timespec × Int)) :
    callbackCount (l.flatMap refillEvents) = l.length := by
  induction l with
  | nil => rfl
  | cons r l ih =>
    rw [List.flatMap_cons, callbackCount_append, ih]
    simp [refillEvents, callbackCount, List.count_cons]
    omega

theorem setupTrace_quiet (self : AudioSource) (curBuf : AudioBuffer) (outFrequency : Int) :
    callbackCount (setupTrace self curBuf outFrequency) = 0
      ∧ fedSamples (setupTrace self curBuf outFrequency) = [] := by
  unfold setupTrace
  split_ifs <;> simp [callbackCount, fedSamples]

/-- The callback branch of the traversal. -/
theorem advance_refill {σ : Type} (fuel : Nat) (callback : σ → AudioBuffer → σ × AudioBuffer)
    (s : AudioSource) (env : σ) (curBuf : AudioBuffer) (n outNb : Int) (trace : List Event)
    (hsrc : s.source = SourceType.SOURCE_CALLBACK)
    (hcb : ∀ e b, 1 ≤ (callback e b).2.sampleSize)
    (hcbf : ∀ e b, b.frequency ≠ 0 → (callback e b).2.frequency ≠ 0)
    (hfreq : curBuf.frequency ≠ 0)
    (h : curBuf.sampleSize - s.position < n)
    (hfuel : (n - (curBuf.sampleSize - s.position)).toNat ≤ fuel) :
    ∃ (env1 : σ) (buf1 : AudioBuffer) (rs : List (timespec × Int)) (last : timespec × Int),
      advance fuel callback s env curBuf n outNb trace
          = .ok ({ s with
                    position := last.2
                    buffer_queue := s.buffer_queue.set s.queue_index.toNat buf1 },
                 env1,
                 (if 0 < curBuf.sampleSize - s.position then
                    trace ++ [Event.swr_convert 0 (curBuf.sampleSize - s.position)]
                  else trace) ++ (rs ++ [last]).flatMap refillEvents
                   ++ [Event.swr_convert outNb 0])
        ∧ (∀ r ∈ rs ++ [last], 1 ≤ r.2)
        ∧ (curBuf.sampleSize - s.position) + ((rs ++ [last]).map Prod.snd).sum = n
        ∧ last.2 ≤ buf1.sampleSize := by
  have havail : curBuf.getSamples n s.position = curBuf.sampleSize - s.position := by
    simp [AudioBuffer.getSamples, h.le]
  have hne : ¬ curBuf.sampleSize - s.position = n := by omega
  obtain ⟨env1, buf1, rs, last, e, h1, h2, h3⟩ := refillLoop_spec callback hcb hcbf fuel env curBuf
    (n - (curBuf.sampleSize - s.position)) s.position
    (if 0 < curBuf.sampleSize - s.position then
      trace ++ [Event.swr_convert 0 (curBuf.sampleSize - s.position)] else trace)
    (by omega) hfreq hfuel
  refine ⟨env1, buf1, rs, last, ?_, h1, by omega, h3⟩
  unfold advance
  simp only [havail, hne, if_false, hsrc, if_true, e]

/-- Claim C10: callback refill. For a playing callback-fed source whose current buffer
(of non-zero frequency) holds fewer than the `n` requested samples, and a refill callback
that leaves at least one sample in the buffer each time it is invoked (and keeps its
frequency non-zero), a `mixWith` call that reaches the traversal finishes within `n`
iterations of the refill loop: every pass invokes the callback once and consumes at least
one sample, the samples of the initial partial read and of all refills total exactly `n`,
the state is still Playing, `queue_index` is unchanged and `position` is the number of
samples consumed from the last refill. -/
theorem mixWith_callback_refill {σ : Type} (fuel : Nat)
    (callback : σ → AudioBuffer → σ × AudioBuffer) (swr : Resampler) (self : AudioSource)
    (env : σ) (ticks : timespec) (outSamples : List Int)
    (outBytes outBitDepth outNbChannels outFrequency : Int) (outVolume : ℚ)
    (curBuf : AudioBuffer) (n : Int)
    (hst : self.state = SourceState.SOURCE_PLAYING)
    (hsrc : self.source = SourceType.SOURCE_CALLBACK)
    (hbuf : bufferAt self.buffer_queue self.queue_index = some curBuf)
    (hready : ResamplerReady swr self)
    (hfit : OutputFits swr outSamples outBitDepth outNbChannels)
    (hn : (self.ticksToSamples ticks curBuf.frequency).1 = n)
    (hheld : 0 ≤ curBuf.sampleSize - self.position)
    (hfewer : curBuf.sampleSize - self.position < n)
    (hcb : ∀ e b, 1 ≤ (callback e b).2.sampleSize)
    (hcbf : ∀ e b, b.frequency ≠ 0 → (callback e b).2.frequency ≠ 0)
    (hfreq : curBuf.frequency ≠ 0)
    (hfuel : n.toNat ≤ fuel) :
    ∃ (r : MixResult σ) (refills : List (timespec × Int)) (last : timespec × Int)
        (before : List Event),
      self.mixWith fuel callback swr env ticks outSamples outBytes outBitDepth outNbChannels
          outFrequency outVolume = .ok r
        ∧ r.self.state = SourceState.SOURCE_PLAYING
        ∧ r.self.queue_index = self.queue_index
        ∧ r.self.position = last.2
        ∧ (∀ x ∈ refills ++ [last], 1 ≤ x.2)
        ∧ (curBuf.sampleSize - self.position) + ((refills ++ [last]).map Prod.snd).sum = n
        ∧ r.trace = before ++ (refills ++ [last]).flatMap refillEvents
            ++ [Event.swr_convert (outBytes.tdiv ((outNbChannels * outBitDepth).tdiv 8)) 0]
        ∧ callbackCount before = 0
        ∧ callbackCount r.trace = refills.length + 1
        ∧ (fedSamples r.trace).sum = n := by
  obtain ⟨fpos, fqi, fq, fst, floop, fsrc⟩ := beforeAdvance_fields
      (mixedAfter swr self.mixedSamples outBytes outBitDepth outNbChannels) self ticks curBuf
  obtain ⟨env1, buf1, rs, last, hadv, h1, h2, h3⟩ :=
    advance_refill fuel callback (beforeAdvance
        (mixedAfter swr self.mixedSamples outBytes outBitDepth outNbChannels) self ticks curBuf) env curBuf n
      (outBytes.tdiv ((outNbChannels * outBitDepth).tdiv 8))
      (setupTrace self curBuf outFrequency)
      (by rw [fsrc]; exact hsrc) hcb hcbf hfreq (by rw [fpos]; exact hfewer)
      (by rw [fpos]; omega)
  rw [fpos] at hadv h2
  rw [← hn] at hadv
  obtain ⟨out1, hmix, _⟩ := mixWith_of_advance fuel callback swr self env ticks outSamples
    outBytes outBitDepth outNbChannels outFrequency outVolume curBuf _ _ _ hst hbuf hready hfit
    hadv
  have hbefore : callbackCount
        (if 0 < curBuf.sampleSize - self.position then
          setupTrace self curBuf outFrequency
            ++ [Event.swr_convert 0 (curBuf.sampleSize - self.position)]
         else setupTrace self curBuf outFrequency) = 0
      ∧ (fedSamples
        (if 0 < curBuf.sampleSize - self.position then
          setupTrace self curBuf outFrequency
            ++ [Event.swr_convert 0 (curBuf.sampleSize - self.position)]
         else setupTrace self curBuf outFrequency)).sum
          = curBuf.sampleSize - self.position := by
    obtain ⟨c0, f0⟩ := setupTrace_quiet self curBuf outFrequency
    split_ifs
    · refine ⟨?_, ?_⟩
      · rw [callbackCount_append, c0]
        rfl
      · rw [fedSamples_append, f0]
        simp [fedSamples]
    · refine ⟨c0, ?_⟩
      rw [f0, List.sum_nil]
      omega
  refine ⟨_, rs, last, _, hmix, fst.trans hst, fqi, rfl, h1, h2, rfl, hbefore.1, ?_, ?_⟩
  · simp only [callbackCount_append, callbackCount_refills, hbefore.1, List.length_append,
      List.length_singleton]
    simp [callbackCount]
  · simp only [fedSamples_append, fedSamples_refills, List.sum_append, hbefore.2]
    simp only [fedSamples, List.sum_cons, List.sum_nil]
    omega

theorem mixWith_callback_refill_witness :
    ∃ (r : MixResult Unit) (refills : List (timespec × Int)) (last : timespec × Int)
        (before : List Event),
      ({ twoBufferSource false with source := SourceType.SOURCE_CALLBACK }).mixWith 150
          refill20 idleResampler () ⟨0, 150000000⟩ [] 0 16 2 44100 1 = .ok r
        ∧ r.self.state = SourceState.SOURCE_PLAYING
        ∧ r.self.queue_index = 0
        ∧ r.self.position = last.2
        ∧ (∀ x ∈ refills ++ [last], 1 ≤ x.2)
        ∧ (1000 - 900) + ((refills ++ [last]).map Prod.snd).sum = 150
        ∧ r.trace = before ++ (refills ++ [last]).flatMap refillEvents
            ++ [Event.swr_convert 0 0]
        ∧ callbackCount before = 0
        ∧ callbackCount r.trace = refills.length + 1
        ∧ (fedSamples r.trace).sum = 150 :=
  mixWith_callback_refill 150 refill20 idleResampler
    { twoBufferSource false with source := SourceType.SOURCE_CALLBACK } () ⟨0, 150000000⟩ []
    0 16 2 44100 1 (bufferOfSize 1000) 150 rfl rfl rfl (by decide) (by decide) (by decide)
    (by decide) (by decide) (fun _ _ => (by decide : (1 : Int) ≤ 20)) (fun _ _ h => h) (by decide) (by decide)

/-- An event other than `fakeAdvanceTimer` and `callback` does not matter to `bracketed`. -/
theorem bracketed_quiet (e : Event) (t : List Event)
    (h1 : ∀ x, e ≠ Event.fakeAdvanceTimer x) (h2 : e ≠ Event.callback) :
    bracketed (e :: t) = bracketed t := by
  cases e with
  | fakeAdvanceTimer x => exact absurd rfl (h1 x)
  | callback => exact absurd rfl h2
  | logUnknownFormat => rfl
  | swr_init a b => rfl
  | logSwrInitError => rfl
  | swr_convert a b => rfl

/-- A `fakeAdvanceTimer` call that does not open a bracket breaks `bracketed`. -/
theorem bracketed_orphan (x : timespec) (tail : List Event)
    (hno : ∀ r t, tail = Event.callback :: Event.fakeAdvanceTimer r :: t → False) :
    bracketed (Event.fakeAdvanceTimer x :: tail) = false := by
  match tail, hno with
  | [], _ => rfl
  | Event.callback :: [], _ => rfl
  | Event.callback :: Event.fakeAdvanceTimer r :: t, hno => exact absurd rfl (hno r t)
  | Event.callback :: Event.callback :: _, _ => rfl
  | Event.callback :: Event.logUnknownFormat :: _, _ => rfl
  | Event.callback :: Event.swr_init _ _ :: _, _ => rfl
  | Event.callback :: Event.logSwrInitError :: _, _ => rfl
  | Event.callback :: Event.swr_convert _ _ :: _, _ => rfl
  | Event.fakeAdvanceTimer _ :: _, _ => rfl
  | Event.logUnknownFormat :: _, _ => rfl
  | Event.swr_init _ _ :: _, _ => rfl
  | Event.logSwrInitError :: _, _ => rfl
  | Event.swr_convert _ _ :: _, _ => rfl

/-- Bracketed traces can be put one after the other. -/
theorem bracketed_append (a b : List Event) (ha : bracketed a = true)
    (hb : bracketed b = true) : bracketed (a ++ b) = true := by
  induction a using bracketed.induct with
  | case1 => simpa using hb
  | case2 x r t ih =>
    simp only [bracketed, Bool.and_eq_true, decide_eq_true_eq] at ha
    simp only [List.cons_append, bracketed, Bool.and_eq_true, decide_eq_true_eq]
    exact ⟨ha.1, ih ha.2⟩
  | case3 x tail hno =>
    rw [bracketed_orphan x tail hno] at ha
    cases ha
  | case4 tail => simp [bracketed] at ha
  | case5 e t h1 h2 h3 ih =>
    rw [bracketed_quiet e t (fun x hx => h2 x hx) (fun hx => h3 hx)] at ha
    rw [List.cons_append, bracketed_quiet e (t ++ b) (fun x hx => h2 x hx) (fun hx => h3 hx)]
    exact ih ha

/-- In a bracketed trace the override is set twice for every callback. -/
theorem bracketed_overrides_length (t : List Event) (h : bracketed t = true) :
    (overrides t).length = 2 * callbackCount t := by
  induction t using bracketed.induct with
  | case1 => rfl
  | case2 x r t ih =>
    simp only [bracketed, Bool.and_eq_true, decide_eq_true_eq] at h
    have := ih h.2
    simp only [callbackCount] at this ⊢
    simp [overrides, List.count_cons, this]
    omega
  | case3 x tail hno =>
    rw [bracketed_orphan x tail hno] at h
    cases h
  | case4 tail => simp [bracketed] at h
  | case5 e t h1 h2 h3 ih =>
    rw [bracketed_quiet e t (fun x hx => h2 x hx) (fun hx => h3 hx)] at h
    have := ih h
    have ho : overrides (e :: t) = overrides t := by
      cases e with
      | fakeAdvanceTimer x => exact absurd rfl (h2 x)
      | callback => rfl
      | logUnknownFormat => rfl
      | swr_init a b => rfl
      | logSwrInitError => rfl
      | swr_convert a b => rfl
    have hc : callbackCount (e :: t) = callbackCount t := by
      simp only [callbackCount, List.count_cons]
      have : (e == Event.callback) = false := by
        simpa using h3
      simp [this]
    rw [ho, hc, this]

/-- In a bracketed trace the last override that was set, if any, is `{0, 0}`. -/
theorem bracketed_overrides_last (t : List Event) (h : bracketed t = true) :
    (overrides t).getLast? = none ∨ (overrides t).getLast? = some ⟨0, 0⟩ := by
  induction t using bracketed.induct with
  | case1 => left; rfl
  | case2 x r t ih =>
    simp only [bracketed, Bool.and_eq_true, decide_eq_true_eq] at h
    obtain ⟨hr, ht⟩ := h
    subst hr
    right
    have hov : overrides (Event.fakeAdvanceTimer x :: Event.callback
        :: Event.fakeAdvanceTimer ⟨0, 0⟩ :: t) = x :: ⟨0, 0⟩ :: overrides t := rfl
    rw [hov]
    cases hrest : overrides t with
    | nil => rfl
    | cons y ys =>
      rcases ih ht with h0 | h0
      · rw [hrest] at h0; simp at h0
      · rw [hrest] at h0
        simpa [List.getLast?_cons_cons] using h0
  | case3 x tail hno =>
    rw [bracketed_orphan x tail hno] at h
    cases h
  | case4 tail => simp [bracketed] at h
  | case5 e t h1 h2 h3 ih =>
    rw [bracketed_quiet e t (fun x hx => h2 x hx) (fun hx => h3 hx)] at h
    have ho : overrides (e :: t) = overrides t := by
      cases e with
      | fakeAdvanceTimer x => exact absurd rfl (h2 x)
      | callback => rfl
      | logUnknownFormat => rfl
      | swr_init a b => rfl
      | logSwrInitError => rfl
      | swr_convert a b => rfl
    rw [ho]
    exact ih h

/-- In a bracketed trace every `callback` has a `fakeAdvanceTimer` call right before it
and `fakeAdvanceTimer({0, 0})` right after it. -/
theorem bracketed_neighbours (t : List Event) (h : bracketed t = true) :
    ∀ i : Nat, t[i]? = some Event.callback →
      ∃ x, 0 < i ∧ t[i - 1]? = some (Event.fakeAdvanceTimer x)
        ∧ t[i + 1]? = some (Event.fakeAdvanceTimer ⟨0, 0⟩) := by
  induction t using bracketed.induct with
  | case1 => intro i hi; simp at hi
  | case2 x r t ih =>
    simp only [bracketed, Bool.and_eq_true, decide_eq_true_eq] at h
    obtain ⟨hr, ht⟩ := h
    subst hr
    intro i hi
    match i, hi with
    | 0, hi => simp at hi
    | 1, _ => exact ⟨x, by omega, by simp, by simp⟩
    | 2, hi => simp at hi
    | j + 3, hi =>
      have hj : t[j]? = some Event.callback := by simpa using hi
      obtain ⟨y, h0, h1, h2⟩ := ih ht j hj
      refine ⟨y, by omega, ?_, ?_⟩
      · obtain ⟨k, rfl⟩ : ∃ k, j = k + 1 := ⟨j - 1, by omega⟩
        simpa using h1
      · simpa using h2
  | case3 x tail hno =>
    rw [bracketed_orphan x tail hno] at h
    cases h
  | case4 tail => simp [bracketed] at h
  | case5 e t h1 h2 h3 ih =>
    rw [bracketed_quiet e t (fun x hx => h2 x hx) (fun hx => h3 hx)] at h
    intro i hi
    match i, hi with
    | 0, hi =>
      simp at hi
      exact absurd hi h3
    | j + 1, hi =>
      have hj : t[j]? = some Event.callback := by simpa using hi
      obtain ⟨y, h0, h1, h2⟩ := ih h j hj
      refine ⟨y, by omega, ?_, ?_⟩
      · obtain ⟨k, rfl⟩ : ∃ k, j = k + 1 := ⟨j - 1, by omega⟩
        simpa using h1
      · simpa using h2

/-- The three loops of the traversal keep a trace bracketed. -/
theorem refillLoop_bracketed {σ : Type} (callback : σ → AudioBuffer → σ × AudioBuffer) :
    ∀ (fuel : Nat) (env : σ) (buf : AudioBuffer) (rem pos : Int) (trace : List Event)
      (env1 : σ) (buf1 : AudioBuffer) (pos1 : Int) (tr : List Event),
      refillLoop callback fuel env buf rem pos trace = .ok (env1, buf1, pos1, tr) →
      bracketed trace = true → bracketed tr = true := by
  intro fuel
  induction fuel with
  | zero =>
    intro env buf rem pos trace env1 buf1 pos1 tr h hb
    by_cases hr : 0 < rem
    · simp [refillLoop, hr] at h
    · simp only [refillLoop, hr, if_false, Except.ok.injEq, Prod.mk.injEq] at h
      obtain ⟨_, _, _, e⟩ := h
      subst e
      exact hb
  | succ fuel ih =>
    intro env buf rem pos trace env1 buf1 pos1 tr h hb
    by_cases hr : 0 < rem
    · by_cases hf : buf.frequency = 0
      · simp [refillLoop, hr, hf] at h
      · simp only [refillLoop, hr, if_true, hf, if_false] at h
        refine ih _ _ _ _ _ _ _ _ _ h (bracketed_append _ _ hb ?_)
        simp [bracketed]
    · simp only [refillLoop, hr, if_false, Except.ok.injEq, Prod.mk.injEq] at h
      obtain ⟨_, _, _, e⟩ := h
      subst e
      exact hb

theorem loopQueue_bracketed (q : List AudioBuffer) :
    ∀ (fuel i : Nat) (rem : Int) (final : Option (Int × Int)) (trace : List Event)
      (rem1 : Int) (fin : Option (Int × Int)) (tr : List Event),
      loopQueue q fuel i rem final trace = .ok (rem1, fin, tr) →
      bracketed trace = true → bracketed tr = true := by
  intro fuel
  induction fuel with
  | zero =>
    intro i rem final trace rem1 fin tr h hb
    by_cases hr : 0 < rem
    · simp [loopQueue, hr] at h
    · simp only [loopQueue, hr, if_false, Except.ok.injEq, Prod.mk.injEq] at h
      obtain ⟨_, _, e⟩ := h
      subst e
      exact hb
  | succ fuel ih =>
    intro i rem final trace rem1 fin tr h hb
    by_cases hr : 0 < rem
    · cases hq : q[i]? with
      | none => simp [loopQueue, hr, hq] at h
      | some b =>
        simp only [loopQueue, hr, if_true, hq] at h
        exact ih _ _ _ _ _ _ _ h (bracketed_append _ _ hb rfl)
    · simp only [loopQueue, hr, if_false, Except.ok.injEq, Prod.mk.injEq] at h
      obtain ⟨_, _, e⟩ := h
      subst e
      exact hb

theorem walkQueue_bracketed (q : List AudioBuffer) :
    ∀ (fuel i : Nat) (rem : Int) (final : Option (Int × Int)) (trace : List Event)
      (rem1 : Int) (fin : Option (Int × Int)) (tr : List Event),
      walkQueue q fuel i rem final trace = .ok (rem1, fin, tr) →
      bracketed trace = true → bracketed tr = true := by
  intro fuel
  induction fuel with
  | zero =>
    intro i rem final trace rem1 fin tr h hb
    by_cases hr : 0 < rem ∧ i < q.length
    · simp [walkQueue, hr] at h
    · simp only [walkQueue, hr, if_false, Except.ok.injEq, Prod.mk.injEq] at h
      obtain ⟨_, _, e⟩ := h
      subst e
      exact hb
  | succ fuel ih =>
    intro i rem final trace rem1 fin tr h hb
    by_cases hr : 0 < rem ∧ i < q.length
    · cases hq : q[i]? with
      | none => simp [walkQueue, hr, hq] at h
      | some b =>
        simp only [walkQueue, hr, and_self, if_true, hq] at h
        exact ih _ _ _ _ _ _ _ h (bracketed_append _ _ hb rfl)
    · simp only [walkQueue, hr, if_false, Except.ok.injEq, Prod.mk.injEq] at h
      obtain ⟨_, _, e⟩ := h
      subst e
      exact hb

/-- The traversal keeps a trace bracketed. -/
theorem advance_bracketed {σ : Type} (fuel : Nat)
    (callback : σ → AudioBuffer → σ × AudioBuffer)
    (s : AudioSource) (env : σ) (curBuf : AudioBuffer) (n outNb : Int) (trace : List Event)
    (s1 : AudioSource) (env1 : σ) (tr : List Event)
    (h : advance fuel callback s env curBuf n outNb trace = .ok (s1, env1, tr))
    (hb : bracketed trace = true) : bracketed tr = true := by
  unfold advance at h
  have hb1 : bracketed (if 0 < curBuf.getSamples n s.position then
      trace ++ [Event.swr_convert 0 (curBuf.getSamples n s.position)] else trace) = true := by
    split
    · exact bracketed_append _ _ hb rfl
    · exact hb
  by_cases hfull : curBuf.getSamples n s.position = n
  · simp only [hfull, if_true, Except.ok.injEq, Prod.mk.injEq] at h
    obtain ⟨_, _, e⟩ := h
    subst e
    exact bracketed_append _ _ hb rfl
  · simp only [hfull, if_false] at h
    by_cases hsrc : s.source = SourceType.SOURCE_CALLBACK
    · simp only [hsrc, if_true] at h
      split at h
      · cases h
      · rename_i envr bufr posr trr hloop
        simp only [Except.ok.injEq, Prod.mk.injEq] at h
        obtain ⟨_, _, e⟩ := h
        subst e
        exact bracketed_append _ _
          (refillLoop_bracketed callback _ _ _ _ _ _ _ _ _ _ hloop hb1) rfl
    · simp only [hsrc, if_false] at h
      split at h
      · cases h
      · rename_i rem1 fin trr hwalk
        have hb2 : bracketed trr = true := by
          by_cases hl : s.looping = true
          · simp only [hl, if_true] at hwalk
            exact loopQueue_bracketed _ _ _ _ _ _ _ _ _ hwalk hb1
          · simp only [hl, if_false] at hwalk
            exact walkQueue_bracketed _ _ _ _ _ _ _ _ _ hwalk hb1
        by_cases hrem : 0 < rem1
        · simp only [hrem, if_true, Except.ok.injEq, Prod.mk.injEq] at h
          obtain ⟨_, _, e⟩ := h
          subst e
          exact bracketed_append _ _ hb2 rfl
        · simp only [hrem, if_false] at h
          split at h
          · cases h
          · simp only [Except.ok.injEq, Prod.mk.injEq] at h
            obtain ⟨_, _, e⟩ := h
            subst e
            exact bracketed_append _ _ hb2 rfl

/-- The conversion setup makes no clock call. -/
theorem setupTrace_bracketed (self : AudioSource) (curBuf : AudioBuffer) (outFrequency : Int) :
    bracketed (setupTrace self curBuf outFrequency) = true := by
  unfold setupTrace
  split_ifs <;> rfl

/-- The trace of a call that returns: empty (a guard), the setup followed by the error
log of `swr_init`, or the trace of the traversal started on the setup trace. -/
theorem mixWith_trace_inv {σ : Type} (fuel : Nat)
    (callback : σ → AudioBuffer → σ × AudioBuffer) (swr : Resampler) (self : AudioSource)
    (env : σ) (ticks : timespec) (outSamples : List Int)
    (outBytes outBitDepth outNbChannels outFrequency : Int) (outVolume : ℚ)
    (r : MixResult σ)
    (h : self.mixWith fuel callback swr env ticks outSamples outBytes outBitDepth
        outNbChannels outFrequency outVolume = .ok r) :
    (r.trace = [] ∧ r.self = self ∧ r.ret = -1)
      ∨ (∃ curBuf, bufferAt self.buffer_queue self.queue_index = some curBuf
          ∧ ¬ ResamplerReady swr self
          ∧ r.trace = setupTrace self curBuf outFrequency ++ [Event.logSwrInitError]
          ∧ r.self = self ∧ r.ret = 0)
      ∨ (∃ curBuf, bufferAt self.buffer_queue self.queue_index = some curBuf
          ∧ ResamplerReady swr self
          ∧ self.state = SourceState.SOURCE_PLAYING
          ∧ r.ret = swr.convOutSamples
          ∧ advance fuel callback (beforeAdvance
              (mixedAfter swr self.mixedSamples outBytes outBitDepth outNbChannels) self ticks curBuf) env curBuf
              (self.ticksToSamples ticks curBuf.frequency).1
              (outBytes.tdiv ((outNbChannels * outBitDepth).tdiv 8))
              (setupTrace self curBuf outFrequency)
            = .ok (r.self, r.env, r.trace)) := by
  unfold AudioSource.mixWith at h
  by_cases hst : self.state = SourceState.SOURCE_PLAYING
  · rw [if_neg (not_not.mpr hst)] at h
    by_cases hemp : self.buffer_queue.isEmpty = true
    · rw [if_pos hemp] at h
      injection h with h
      left
      rw [← h]
      exact ⟨rfl, rfl, rfl⟩
    · rw [if_neg hemp] at h
      cases hbuf : bufferAt self.buffer_queue self.queue_index with
      | none => simp [hbuf] at h
      | some curBuf =>
        simp only [hbuf] at h
        by_cases hsetup : ¬ self.swr_initialized = true ∧ ¬ swr.init_ok = true
        · rw [if_pos hsetup] at h
          injection h with h
          right; left
          refine ⟨curBuf, rfl, ?_, ?_, ?_, ?_⟩
          · intro hr
            rcases hr with hr | hr
            · exact hsetup.1 hr
            · exact hsetup.2 hr
          · rw [← h]
          · rw [← h]
          · rw [← h]
        · rw [if_neg hsetup] at h
          by_cases hdiv : (outNbChannels * outBitDepth).tdiv 8 = 0
          · simp [hdiv] at h
          · simp only [hdiv, if_false] at h
            right; right
            have hready : ResamplerReady swr self := by
              by_cases h1 : self.swr_initialized = true
              · exact Or.inl h1
              · by_cases h2 : swr.init_ok = true
                · exact Or.inr h2
                · exact absurd ⟨h1, h2⟩ hsetup
            refine ⟨curBuf, rfl, hready, hst, ?_⟩
            rw [← ticksToSamples_fst_swr]
            simp only [beforeAdvance]
            split at h
            · simp at h
            · rename_i self3 env1 trace1 hadv
              split at h
              · simp at h
              · injection h with h
                rw [← h]
                exact ⟨rfl, hadv⟩
  · rw [if_pos hst] at h
    injection h with h
    left
    rw [← h]
    exact ⟨rfl, rfl, rfl⟩

/-- Claim C11: scoped override bracketing. In the trace of every `mixWith` call that
returns, each invocation of the refill callback has a `fakeAdvanceTimer` call right before
it and `fakeAdvanceTimer({0, 0})` right after it, and there is no other `fakeAdvanceTimer`
call (two per callback invocation); so the last override that was set, if any, is
`{0, 0}`, and a call that never invokes the callback never calls `fakeAdvanceTimer`. -/
theorem mixWith_override_bracketing {σ : Type} (fuel : Nat)
    (callback : σ → AudioBuffer → σ × AudioBuffer) (swr : Resampler) (self : AudioSource)
    (env : σ) (ticks : timespec) (outSamples : List Int)
    (outBytes outBitDepth outNbChannels outFrequency : Int) (outVolume : ℚ)
    (r : MixResult σ)
    (h : self.mixWith fuel callback swr env ticks outSamples outBytes outBitDepth
        outNbChannels outFrequency outVolume = .ok r) :
    bracketed r.trace = true
      ∧ (∀ i : Nat, r.trace[i]? = some Event.callback →
          ∃ x, 0 < i ∧ r.trace[i - 1]? = some (Event.fakeAdvanceTimer x)
            ∧ r.trace[i + 1]? = some (Event.fakeAdvanceTimer ⟨0, 0⟩))
      ∧ (overrides r.trace).length = 2 * callbackCount r.trace
      ∧ ((overrides r.trace).getLast? = none ∨ (overrides r.trace).getLast? = some ⟨0, 0⟩)
      ∧ (callbackCount r.trace = 0 → overrides r.trace = []) := by
  have hb : bracketed r.trace = true := by
    rcases mixWith_trace_inv fuel callback swr self env ticks outSamples outBytes outBitDepth
      outNbChannels outFrequency outVolume r h with
      ⟨h0, _, _⟩ | ⟨cb, _, _, h1, _, _⟩ | ⟨cb, _, _, _, _, hadv⟩
    · rw [h0]; rfl
    · rw [h1]
      exact bracketed_append _ _ (setupTrace_bracketed _ _ _) rfl
    · exact advance_bracketed fuel callback _ env cb _ _ _ _ _ _ hadv
        (setupTrace_bracketed _ _ _)
  have hlen := bracketed_overrides_length r.trace hb
  refine ⟨hb, bracketed_neighbours r.trace hb, hlen, bracketed_overrides_last r.trace hb, ?_⟩
  intro h0
  rw [h0] at hlen
  exact List.length_eq_zero.mp hlen

/-- A callback-fed source that needs three refills: the trace of the call is bracketed. -/
theorem mixWith_override_bracketing_witness :
    bracketed
        ([Event.swr_init 1000 44100, Event.swr_convert 0 100]
          ++ [(⟨0, -50000000⟩, 20), (⟨0, -30000000⟩, 20), (⟨0, -10000000⟩, (10 : Int))].flatMap
              refillEvents
          ++ [Event.swr_convert 0 0]) = true :=
  (mixWith_override_bracketing 150 refill20 idleResampler
    { twoBufferSource false with source := SourceType.SOURCE_CALLBACK } () ⟨0, 150000000⟩ []
    0 16 2 44100 1
    ⟨0, { twoBufferSource false with
            source := SourceType.SOURCE_CALLBACK
            swr_initialized := true
            position := 10
            buffer_queue := [{ bufferOfSize 1000 with sampleSize := 20 }, bufferOfSize 500] },
      [], (),
      [Event.swr_init 1000 44100, Event.swr_convert 0 100]
        ++ [(⟨0, -50000000⟩, 20), (⟨0, -30000000⟩, 20), (⟨0, -10000000⟩, (10 : Int))].flatMap
            refillEvents
        ++ [Event.swr_convert 0 0]⟩
    rfl).1

/-- Claim C12, amended: from any state, `init()` sets `position`, `queue_index` and
`samples_frac` to 0 (and closes the resampler context) and leaves the state, like `id`,
`volume`, `looping`, the kind of source and the buffer queue, as it was; it is the
constructor that sets the state to Initial. -/
theorem init_resets_cursor (s : AudioSource) :
    s.init.position = 0 ∧ s.init.queue_index = 0 ∧ s.init.samples_frac = 0
      ∧ s.init.state = s.state
      ∧ s.init.id = s.id ∧ s.init.volume = s.volume ∧ s.init.looping = s.looping
      ∧ s.init.source = s.source ∧ s.init.buffer_queue = s.buffer_queue
      ∧ s.init.swr_initialized = false
      ∧ AudioSource.new.state = SourceState.SOURCE_INITIAL :=
  ⟨rfl, rfl, rfl, rfl, rfl, rfl, rfl, rfl, rfl, rfl, rfl⟩

/-- A playing source is still playing after `init()`. -/
theorem init_resets_cursor_counterexample :
    (twoBufferSource false).state = SourceState.SOURCE_PLAYING
      ∧ (twoBufferSource false).init.state = SourceState.SOURCE_PLAYING
      ∧ (twoBufferSource false).init.state ≠ SourceState.SOURCE_INITIAL := by
  decide

/-- A failed `swr_init` makes `mixWith` return 0 and hand back the source, the output
buffer and the callback state untouched. -/
theorem mixWith_swr_init_failure {σ : Type} (fuel : Nat)
    (callback : σ → AudioBuffer → σ × AudioBuffer) (swr : Resampler) (self : AudioSource)
    (env : σ) (ticks : timespec) (outSamples : List Int)
    (outBytes outBitDepth outNbChannels outFrequency : Int) (outVolume : ℚ)
    (curBuf : AudioBuffer)
    (hst : self.state = SourceState.SOURCE_PLAYING)
    (hbuf : bufferAt self.buffer_queue self.queue_index = some curBuf)
    (hinit : self.swr_initialized = false) (hfail : swr.init_ok = false) :
    self.mixWith fuel callback swr env ticks outSamples outBytes outBitDepth outNbChannels
        outFrequency outVolume
      = .ok ⟨0, self, outSamples, env,
          setupTrace self curBuf outFrequency ++ [Event.logSwrInitError]⟩ := by
  have hne : self.buffer_queue.isEmpty = false := by
    cases hq : self.buffer_queue with
    | nil => simp [bufferAt, hq] at hbuf
    | cons a l => rfl
  unfold AudioSource.mixWith
  rw [if_neg (not_not.mpr hst)]
  simp only [hne, Bool.false_eq_true, if_false, hbuf, hinit, hfail, not_false_eq_true,
    and_self, if_true]

/-- Claim C13, evaluated on a playing source whose resampler is already initialised and
whose current buffer has an unknown sample format: `mixWith` logs the unknown format and
goes on; it returns the 1 sample the resampler produced, not 0, and `position` has moved
from 900 to 1000. -/
theorem mixWith_unknown_format_proceeds :
    ∃ r : MixResult Unit,
      unknownFormatSource.mixWith 0 idleCallback ⟨false, 1, [5, 5]⟩ () ⟨0, 100000000⟩
          [0, 0] 4 16 2 44100 1 = .ok r
        ∧ r.ret = 1
        ∧ unknownFormatSource.position = 900 ∧ r.self.position = 1000
        ∧ r.trace = [Event.logUnknownFormat, Event.swr_convert 1 100] := by
  have hadv := advance_full 0 idleCallback
    (beforeAdvance (mixedAfter ⟨false, 1, [5, 5]⟩ unknownFormatSource.mixedSamples 4 16 2)
      unknownFormatSource ⟨0, 100000000⟩
      { bufferOfSize 1000 with format := SampleFormat.SAMPLE_FMT_OTHER }) ()
    { bufferOfSize 1000 with format := SampleFormat.SAMPLE_FMT_OTHER } 100 1
    (setupTrace unknownFormatSource
      { bufferOfSize 1000 with format := SampleFormat.SAMPLE_FMT_OTHER } 44100)
    (by decide)
  obtain ⟨out1, hmix, _⟩ := mixWith_of_advance 0 idleCallback ⟨false, 1, [5, 5]⟩
    unknownFormatSource () ⟨0, 100000000⟩ [0, 0] 4 16 2 44100 1
    { bufferOfSize 1000 with format := SampleFormat.SAMPLE_FMT_OTHER } _ _ _ rfl rfl
    (by decide) (by decide) hadv
  exact ⟨_, hmix, rfl, rfl, rfl, rfl⟩

/-- The traversal leaves `id`, `volume`, `looping` and the kind of source alone, and the
buffer queue too, except that the callback branch puts the refilled buffer in the place
of the current one. -/
theorem advance_frame {σ : Type} (fuel : Nat)
    (callback : σ → AudioBuffer → σ × AudioBuffer)
    (s : AudioSource) (env : σ) (curBuf : AudioBuffer) (n outNb : Int) (trace : List Event)
    (s1 : AudioSource) (env1 : σ) (tr : List Event)
    (h : advance fuel callback s env curBuf n outNb trace = .ok (s1, env1, tr)) :
    s1.id = s.id ∧ s1.volume = s.volume ∧ s1.looping = s.looping ∧ s1.source = s.source
      ∧ s1.mixedSamples = s.mixedSamples
      ∧ (s1.buffer_queue = s.buffer_queue
          ∨ (s.source = SourceType.SOURCE_CALLBACK
              ∧ ∃ b, s1.buffer_queue = s.buffer_queue.set s.queue_index.toNat b)) := by
  unfold advance at h
  by_cases hfull : curBuf.getSamples n s.position = n
  · simp only [hfull, if_true, Except.ok.injEq, Prod.mk.injEq] at h
    obtain ⟨e, _, _⟩ := h
    subst e
    exact ⟨rfl, rfl, rfl, rfl, rfl, Or.inl rfl⟩
  · simp only [hfull, if_false] at h
    by_cases hsrc : s.source = SourceType.SOURCE_CALLBACK
    · simp only [hsrc, if_true] at h
      split at h
      · cases h
      · rename_i envr bufr posr trr hloop
        simp only [Except.ok.injEq, Prod.mk.injEq] at h
        obtain ⟨e, _, _⟩ := h
        subst e
        exact ⟨rfl, rfl, rfl, hsrc.symm, rfl, Or.inr ⟨hsrc, bufr, rfl⟩⟩
    · simp only [hsrc, if_false] at h
      split at h
      · cases h
      · rename_i rem1 fin trr hwalk
        by_cases hrem : 0 < rem1
        · simp only [hrem, if_true, Except.ok.injEq, Prod.mk.injEq] at h
          obtain ⟨e, _, _⟩ := h
          subst e
          exact ⟨rfl, rfl, rfl, rfl, rfl, Or.inl rfl⟩
        · simp only [hrem, if_false] at h
          split at h
          · cases h
          · simp only [Except.ok.injEq, Prod.mk.injEq] at h
            obtain ⟨e, _, _⟩ := h
            subst e
            exact ⟨rfl, rfl, rfl, rfl, rfl, Or.inl rfl⟩

/-- A call that returns on a playing source with a valid `queue_index` and a ready
resampler has run the traversal, started on the setup trace. -/
theorem mixWith_playing_inv {σ : Type} (fuel : Nat)
    (callback : σ → AudioBuffer → σ × AudioBuffer) (swr : Resampler) (self : AudioSource)
    (env : σ) (ticks : timespec) (outSamples : List Int)
    (outBytes outBitDepth outNbChannels outFrequency : Int) (outVolume : ℚ)
    (curBuf : AudioBuffer) (r : MixResult σ)
    (hst : self.state = SourceState.SOURCE_PLAYING)
    (hbuf : bufferAt self.buffer_queue self.queue_index = some curBuf)
    (hready : ResamplerReady swr self)
    (h : self.mixWith fuel callback swr env ticks outSamples outBytes outBitDepth
        outNbChannels outFrequency outVolume = .ok r) :
    advance fuel callback (beforeAdvance
        (mixedAfter swr self.mixedSamples outBytes outBitDepth outNbChannels) self ticks curBuf) env curBuf
        (self.ticksToSamples ticks curBuf.frequency).1
        (outBytes.tdiv ((outNbChannels * outBitDepth).tdiv 8))
        (setupTrace self curBuf outFrequency)
      = .ok (r.self, r.env, r.trace) := by
  unfold AudioSource.mixWith at h
  rw [if_neg (not_not.mpr hst)] at h
  have hne : ¬ self.buffer_queue.isEmpty = true := by
    cases hq : self.buffer_queue with
    | nil => simp [bufferAt, hq] at hbuf
    | cons a l => simp
  rw [if_neg hne] at h
  simp only [hbuf] at h
  have hsetup : ¬ (¬ self.swr_initialized = true ∧ ¬ swr.init_ok = true) := by
    intro hs
    rcases hready with hr | hr
    · exact hs.1 hr
    · exact hs.2 hr
  rw [if_neg hsetup] at h
  by_cases hdiv : (outNbChannels * outBitDepth).tdiv 8 = 0
  · simp [hdiv] at h
  · simp only [hdiv, if_false] at h
    rw [← ticksToSamples_fst_swr]
    simp only [beforeAdvance]
    split at h
    · simp at h
    · rename_i self3 env1 trace1 hadv
      split at h
      · simp at h
      · injection h with h
        rw [← h]
        exact hadv

/-- The fields that `beforeAdvance` takes over from the source. -/
theorem beforeAdvance_frame (swr : List Int) (s : AudioSource) (t : timespec)
    (b : AudioBuffer) :
    (beforeAdvance swr s t b).id = s.id ∧ (beforeAdvance swr s t b).volume = s.volume
      ∧ (beforeAdvance swr s t b).mixedSamples = swr := by
  unfold beforeAdvance
  rw [ticksToSamples_snd]
  exact ⟨rfl, rfl, rfl⟩

/-- Claim C14, amended: frame of `mixWith`. A call that returns leaves `id`, `volume`,
`looping` and the kind of source as they were, and the buffer queue holds the same
buffers in the same order, the current one possibly refilled when the source is
callback-fed. Besides `position`, `queue_index`, `samples_frac` and `state`, the call
changes the data member `mixedSamples`: unless it stops at a guard or at a failed
`swr_init`, which change nothing, the vector is resized to `outBytes` and written from
its start by `swr_convert`; with `outBytes = 0` it comes back empty. -/
theorem mixWith_frame {σ : Type} (fuel : Nat)
    (callback : σ → AudioBuffer → σ × AudioBuffer) (swr : Resampler) (self : AudioSource)
    (env : σ) (ticks : timespec) (outSamples : List Int)
    (outBytes outBitDepth outNbChannels outFrequency : Int) (outVolume : ℚ)
    (r : MixResult σ)
    (h : self.mixWith fuel callback swr env ticks outSamples outBytes outBitDepth
        outNbChannels outFrequency outVolume = .ok r) :
    r.self.id = self.id ∧ r.self.volume = self.volume ∧ r.self.looping = self.looping
      ∧ r.self.source = self.source
      ∧ r.self.buffer_queue.length = self.buffer_queue.length
      ∧ (∀ i : Nat, i ≠ self.queue_index.toNat →
          r.self.buffer_queue[i]? = self.buffer_queue[i]?)
      ∧ (self.source ≠ SourceType.SOURCE_CALLBACK → r.self.buffer_queue = self.buffer_queue)
      ∧ ((self.state ≠ SourceState.SOURCE_PLAYING ∨ self.buffer_queue = []
            ∨ ¬ ResamplerReady swr self) → r.self = self)
      ∧ (r.self.mixedSamples = self.mixedSamples
          ∨ r.self.mixedSamples
            = mixedAfter swr self.mixedSamples outBytes outBitDepth outNbChannels)
      ∧ ((self.state = SourceState.SOURCE_PLAYING ∧ self.buffer_queue ≠ []
            ∧ ResamplerReady swr self) →
          r.self.mixedSamples
            = mixedAfter swr self.mixedSamples outBytes outBitDepth outNbChannels)
      ∧ (mixedAfter swr self.mixedSamples outBytes outBitDepth outNbChannels).length
          = (outBytes.tdiv (outBitDepth.tdiv 8)).toNat
      ∧ (outBytes = 0 →
          mixedAfter swr self.mixedSamples outBytes outBitDepth outNbChannels = []) := by
  have hlen : ∀ (m : List Int) (a b : Int),
      (resizeMixed m a b).length = (a.tdiv (b.tdiv 8)).toNat := by
    intro m a b
    simp only [resizeMixed, List.length_append, List.length_take, List.length_replicate]
    omega
  have hmlen : (mixedAfter swr self.mixedSamples outBytes outBitDepth outNbChannels).length
      = (outBytes.tdiv (outBitDepth.tdiv 8)).toNat := by
    simp only [mixedAfter, List.length_append, List.length_take, List.length_drop, hlen]
    omega
  have hzero : outBytes = 0 →
      mixedAfter swr self.mixedSamples outBytes outBitDepth outNbChannels = [] := by
    intro h0
    apply List.eq_nil_of_length_eq_zero
    rw [hmlen, h0]
    simp
  have hafter : (self.state = SourceState.SOURCE_PLAYING ∧ self.buffer_queue ≠ []
        ∧ ResamplerReady swr self) →
      r.self.mixedSamples
        = mixedAfter swr self.mixedSamples outBytes outBitDepth outNbChannels := by
    rintro ⟨hst, hne, hready⟩
    cases hbuf : bufferAt self.buffer_queue self.queue_index with
    | none =>
      exfalso
      unfold AudioSource.mixWith at h
      rw [if_neg (not_not.mpr hst)] at h
      have hemp : self.buffer_queue.isEmpty = false := by
        cases hq : self.buffer_queue with
        | nil => exact absurd hq hne
        | cons a l => rfl
      simp [hemp, hbuf] at h
    | some cb =>
      have hadv := mixWith_playing_inv fuel callback swr self env ticks outSamples outBytes
        outBitDepth outNbChannels outFrequency outVolume cb r hst hbuf hready h
      obtain ⟨_, _, fmix⟩ := beforeAdvance_frame
        (mixedAfter swr self.mixedSamples outBytes outBitDepth outNbChannels) self ticks cb
      obtain ⟨_, _, _, _, a5, _⟩ := advance_frame fuel callback _ env cb _ _ _ _ _ _ hadv
      exact a5.trans fmix
  rcases mixWith_trace_inv fuel callback swr self env ticks outSamples outBytes outBitDepth
    outNbChannels outFrequency outVolume r h with
    ⟨_, h0, _⟩ | ⟨cb, _, _, _, h0, _⟩ | ⟨cb, hb, hready, hst, hret, hadv⟩
  · refine ⟨?_, ?_, ?_, ?_, ?_, ?_, ?_, ?_, ?_, hafter, hmlen, hzero⟩ <;> rw [h0]
    · exact fun _ _ => rfl
    · exact fun _ => rfl
    · exact fun _ => rfl
    · exact Or.inl rfl
  · refine ⟨?_, ?_, ?_, ?_, ?_, ?_, ?_, ?_, ?_, hafter, hmlen, hzero⟩ <;> rw [h0]
    · exact fun _ _ => rfl
    · exact fun _ => rfl
    · exact fun _ => rfl
    · exact Or.inl rfl
  · obtain ⟨fpos, fqi, fq, fst, floop, fsrc⟩ := beforeAdvance_fields
      (mixedAfter swr self.mixedSamples outBytes outBitDepth outNbChannels) self ticks cb
    obtain ⟨fid, fvol, fmix⟩ := beforeAdvance_frame
      (mixedAfter swr self.mixedSamples outBytes outBitDepth outNbChannels) self ticks cb
    obtain ⟨a1, a2, a3, a4, a5, a6⟩ := advance_frame fuel callback _ env cb _ _ _ _ _ _ hadv
    rw [fq, fsrc, fqi] at a6
    have hq : r.self.buffer_queue = self.buffer_queue
        ∨ ∃ b, r.self.buffer_queue = self.buffer_queue.set self.queue_index.toNat b := by
      rcases a6 with a6 | ⟨_, b, a6⟩
      · exact Or.inl a6
      · exact Or.inr ⟨b, a6⟩
    refine ⟨a1.trans fid, a2.trans fvol, a3.trans floop, a4.trans fsrc, ?_, ?_, ?_, ?_,
      Or.inr (a5.trans fmix), hafter, hmlen, hzero⟩
    · rcases hq with e | ⟨b, e⟩ <;> rw [e]
      simp
    · intro i hi
      rcases hq with e | ⟨b, e⟩ <;> rw [e]
      exact List.getElem?_set_ne (Ne.symm hi)
    · intro hs
      rcases a6 with a6 | ⟨hc, _⟩
      · exact a6
      · exact absurd hc hs
    · intro hor
      rcases hor with h1 | h1 | h1
      · exact absurd hst h1
      · rw [h1] at hb
        simp [bufferAt] at hb
      · exact absurd hready h1

/-- A queue-fed source of two buffers that mixes 100 samples: the call returns, and
`id` and `volume` are those of the source. -/
theorem mixWith_frame_witness :
    (0 : Int) = (twoBufferSource false).id ∧ (1 : ℚ) = (twoBufferSource false).volume :=
  ⟨(mixWith_frame 0 idleCallback idleResampler (twoBufferSource false) ()
      ⟨0, 100000000⟩ [] 0 16 2 44100 1
      ⟨0, { twoBufferSource false with swr_initialized := true, position := 1000 }, [], (),
        [Event.swr_init 1000 44100, Event.swr_convert 0 100]⟩ rfl).1,
   (mixWith_frame 0 idleCallback idleResampler (twoBufferSource false) ()
      ⟨0, 100000000⟩ [] 0 16 2 44100 1
      ⟨0, { twoBufferSource false with swr_initialized := true, position := 1000 }, [], (),
        [Event.swr_init 1000 44100, Event.swr_convert 0 100]⟩ rfl).2.1⟩

/-- A playing source with an empty scratch vector and an output buffer of 4 bytes (one
16-bit stereo frame): `mixedSamples.resize(4)` leaves the vector with two samples, also
when `swr_convert` produces nothing, and with the frame `[1, 2]` when it produces one
frame. -/
theorem mixWith_frame_counterexample :
    (twoBufferSource false).mixedSamples = []
      ∧ ((twoBufferSource false).mixWith 0 idleCallback ⟨true, 0, []⟩ () ⟨0, 100000000⟩
            [0, 0] 4 16 2 44100 1).toOption.map
          (fun r => (r.ret, r.self.mixedSamples)) = some (0, [0, 0])
      ∧ mixedAfter ⟨true, 1, [1, 2]⟩ (twoBufferSource false).mixedSamples 4 16 2 = [1, 2] := by
  refine ⟨by decide, by decide, by decide⟩

/-! ## The deterministic timer -/

theorem nanos_ofNanos (n : Int) : (timespec.ofNanos n).nanos = n := by
  unfold timespec.ofNanos timespec.nanos
  simp only
  omega

theorem nanos_add (a b : timespec) : (a.add b).nanos = a.nanos + b.nanos := by
  unfold timespec.add
  exact nanos_ofNanos _

theorem nanos_sub (a b : timespec) : (a.sub b).nanos = a.nanos - b.nanos := by
  unfold timespec.sub
  exact nanos_ofNanos _

theorem enterFrameBoundary_ticks (framerate : Nat) (t : DeterministicTimer) :
    (t.enterFrameBoundary framerate).ticks.nanos =
      t.ticks.nanos + (DeterministicTimer.nominalIncrement framerate t : Nat)
        + t.addedDelay.nanos + t.forceAdvancedTicks.nanos := by
  simp only [DeterministicTimer.enterFrameBoundary, nanos_add]
  simp only [timespec.nanos]
  omega

theorem enterFrameBoundary_drained (framerate : Nat) (t : DeterministicTimer) :
    (t.enterFrameBoundary framerate).addedDelay = ⟨0, 0⟩ ∧
    (t.enterFrameBoundary framerate).forceAdvancedTicks = ⟨0, 0⟩ := ⟨rfl, rfl⟩

theorem enterFrameBoundary_carry (t : DeterministicTimer) (hfrac : t.fractional_part < 60) :
    (t.enterFrameBoundary 60).fractional_part < 60 ∧
    (DeterministicTimer.nominalIncrement 60 t * 60
      + (t.enterFrameBoundary 60).fractional_part = 1000000000 + t.fractional_part) ∧
    (DeterministicTimer.nominalIncrement 60 t = 16666667 ∨
      DeterministicTimer.nominalIncrement 60 t = 16666666) := by
  simp only [DeterministicTimer.enterFrameBoundary, DeterministicTimer.nominalIncrement]
  norm_num
  split_ifs <;> omega

theorem frames_inv (t : DeterministicTimer) (hfrac : t.fractional_part < 60)
    (hdelay : t.addedDelay.nanos = 0) (hforce : t.forceAdvancedTicks.nanos = 0) (k : Nat) :
    (DeterministicTimer.frames 60 k t).fractional_part < 60 ∧
    (DeterministicTimer.frames 60 k t).addedDelay.nanos = 0 ∧
    (DeterministicTimer.frames 60 k t).forceAdvancedTicks.nanos = 0 ∧
    (DeterministicTimer.frames 60 k t).ticks.nanos * 60
        + ((DeterministicTimer.frames 60 k t).fractional_part : Int)
      = t.ticks.nanos * 60 + (t.fractional_part : Int) + (k : Int) * 1000000000 := by
  induction k with
  | zero => exact ⟨hfrac, hdelay, hforce, by simp [DeterministicTimer.frames]⟩
  | succ k ih =>
    obtain ⟨h1, h2, h3, h4⟩ := ih
    have hc := enterFrameBoundary_carry (DeterministicTimer.frames 60 k t) h1
    have ht := enterFrameBoundary_ticks 60 (DeterministicTimer.frames 60 k t)
    have hd := enterFrameBoundary_drained 60 (DeterministicTimer.frames 60 k t)
    simp only [DeterministicTimer.frames]
    refine ⟨hc.1, by rw [hd.1]; rfl, by rw [hd.2]; rfl, ?_⟩
    rw [ht, h2, h3]
    have := hc.2.1
    push_cast
    omega

/-- Claim C15. At a frame rate of 60, from a timer with no added delay, no forced advance
and a carried remainder below the frame rate, every `enterFrameBoundary` call of a run of
consecutive calls advances `ticks` by 16,666,667 ns or by 16,666,666 ns, and any 60
consecutive calls advance `ticks` by exactly 1,000,000,000 ns. -/
theorem enterFrameBoundary_rate_accuracy (t : DeterministicTimer)
    (hfrac : t.fractional_part < 60) (hdelay : t.addedDelay.nanos = 0)
    (hforce : t.forceAdvancedTicks.nanos = 0) (k : Nat) :
    ((((DeterministicTimer.frames 60 k t).enterFrameBoundary 60).ticks.nanos
        - (DeterministicTimer.frames 60 k t).ticks.nanos = 16666667) ∨
     (((DeterministicTimer.frames 60 k t).enterFrameBoundary 60).ticks.nanos
        - (DeterministicTimer.frames 60 k t).ticks.nanos = 16666666)) ∧
    (DeterministicTimer.frames 60 (k + 60) t).ticks.nanos
      - (DeterministicTimer.frames 60 k t).ticks.nanos = 1000000000 := by
  have hk := frames_inv t hfrac hdelay hforce k
  have hk60 := frames_inv t hfrac hdelay hforce (k + 60)
  have hc := enterFrameBoundary_carry (DeterministicTimer.frames 60 k t) hk.1
  have ht := enterFrameBoundary_ticks 60 (DeterministicTimer.frames 60 k t)
  refine ⟨?_, ?_⟩
  · rw [ht, hk.2.1, hk.2.2.1]
    rcases hc.2.2 with h | h <;> rw [h] <;> simp
  · have h1 := hk.2.2.2
    have h2 := hk60.2.2.2
    have h3 := hk.1
    have h4 := hk60.1
    push_cast at h2
    omega

/-- The first sixty frames after the timer is set up advance `ticks` by one second, and
the first of them by 16,666,666 ns. -/
theorem enterFrameBoundary_rate_accuracy_witness :
    ((((DeterministicTimer.frames 60 0 (DeterministicTimer.initialise [])).enterFrameBoundary
          60).ticks.nanos
        - (DeterministicTimer.frames 60 0 (DeterministicTimer.initialise [])).ticks.nanos
          = 16666667) ∨
     (((DeterministicTimer.frames 60 0 (DeterministicTimer.initialise [])).enterFrameBoundary
          60).ticks.nanos
        - (DeterministicTimer.frames 60 0 (DeterministicTimer.initialise [])).ticks.nanos
          = 16666666)) ∧
    (DeterministicTimer.frames 60 (0 + 60) (DeterministicTimer.initialise [])).ticks.nanos
      - (DeterministicTimer.frames 60 0 (DeterministicTimer.initialise [])).ticks.nanos
        = 1000000000 :=
  enterFrameBoundary_rate_accuracy (DeterministicTimer.initialise []) (by decide) (by decide)
    (by decide) 0

/-- Claim C16, amended. For every timer, frame rate and delay `d`, `addDelay(d)` followed
by one `enterFrameBoundary` advances `ticks` by the nominal increment of the frame plus
`d` plus the delay and the forced advance that were pending before `addDelay`; the
accumulated delay and the forced advance are zero afterwards, and a second immediate
`enterFrameBoundary` advances `ticks` by its nominal increment alone. -/
theorem addDelay_drained (framerate : Nat) (t : DeterministicTimer) (d : timespec) :
    (((t.addDelay d).enterFrameBoundary framerate).ticks.nanos - t.ticks.nanos
      = (DeterministicTimer.nominalIncrement framerate t : Nat) + d.nanos
        + t.addedDelay.nanos + t.forceAdvancedTicks.nanos) ∧
    ((t.addDelay d).enterFrameBoundary framerate).addedDelay = ⟨0, 0⟩ ∧
    ((t.addDelay d).enterFrameBoundary framerate).forceAdvancedTicks = ⟨0, 0⟩ ∧
    ((((t.addDelay d).enterFrameBoundary framerate).enterFrameBoundary framerate).ticks.nanos
      - ((t.addDelay d).enterFrameBoundary framerate).ticks.nanos
      = (DeterministicTimer.nominalIncrement framerate
          ((t.addDelay d).enterFrameBoundary framerate) : Nat)) := by
  refine ⟨?_, rfl, rfl, ?_⟩
  · rw [enterFrameBoundary_ticks]
    have h1 : (t.addDelay d).addedDelay.nanos = t.addedDelay.nanos + d.nanos := by
      simp only [DeterministicTimer.addDelay, nanos_add]
    have h2 : DeterministicTimer.nominalIncrement framerate (t.addDelay d)
        = DeterministicTimer.nominalIncrement framerate t := rfl
    have h3 : (t.addDelay d).ticks = t.ticks := rfl
    have h4 : (t.addDelay d).forceAdvancedTicks = t.forceAdvancedTicks := rfl
    rw [h1, h2, h3, h4]
    omega
  · rw [enterFrameBoundary_ticks framerate ((t.addDelay d).enterFrameBoundary framerate)]
    rw [(enterFrameBoundary_drained framerate (t.addDelay d)).1,
      (enterFrameBoundary_drained framerate (t.addDelay d)).2]
    simp [timespec.nanos]

/-- On a timer that was just set up, at 60 frames per second, a delay of 5,000,000 ns
makes the next frame advance `ticks` by 16,666,666 + 5,000,000 ns, the one after by
16,666,667 ns. -/
theorem addDelay_drained_witness :
    (DeterministicTimer.nominalIncrement 60 (DeterministicTimer.initialise []) = 16666666) ∧
    (DeterministicTimer.nominalIncrement 60
      (((DeterministicTimer.initialise []).addDelay ⟨0, 5000000⟩).enterFrameBoundary 60)
        = 16666667) ∧
    ((((DeterministicTimer.initialise []).addDelay ⟨0, 5000000⟩).enterFrameBoundary
          60).ticks.nanos - (DeterministicTimer.initialise []).ticks.nanos
      = (DeterministicTimer.nominalIncrement 60 (DeterministicTimer.initialise []) : Nat)
        + (⟨0, 5000000⟩ : timespec).nanos
        + (DeterministicTimer.initialise []).addedDelay.nanos
        + (DeterministicTimer.initialise []).forceAdvancedTicks.nanos) ∧
    (((DeterministicTimer.initialise []).addDelay ⟨0, 5000000⟩).enterFrameBoundary
      60).addedDelay = ⟨0, 0⟩ ∧
    (((DeterministicTimer.initialise []).addDelay ⟨0, 5000000⟩).enterFrameBoundary
      60).forceAdvancedTicks = ⟨0, 0⟩ ∧
    (((((DeterministicTimer.initialise []).addDelay ⟨0, 5000000⟩).enterFrameBoundary
          60).enterFrameBoundary 60).ticks.nanos
      - (((DeterministicTimer.initialise []).addDelay ⟨0, 5000000⟩).enterFrameBoundary
          60).ticks.nanos
      = (DeterministicTimer.nominalIncrement 60
          (((DeterministicTimer.initialise []).addDelay ⟨0, 5000000⟩).enterFrameBoundary
            60) : Nat)) :=
  ⟨by decide, by decide, addDelay_drained 60 (DeterministicTimer.initialise []) ⟨0, 5000000⟩⟩

/-- A timer with a delay of 1,000,000 ns already pending: `addDelay({0, 5000000})` and
one `enterFrameBoundary` at 60 frames per second advance `ticks` by 22,666,666 ns, while
the nominal increment plus the delay is 21,666,666 ns. Likewise with a forced advance of
1,000,000 ns pending. -/
theorem addDelay_drained_counterexample :
    (((((DeterministicTimer.initialise []).addDelay ⟨0, 1000000⟩).addDelay
          ⟨0, 5000000⟩).enterFrameBoundary 60).ticks.nanos
        - ((DeterministicTimer.initialise []).addDelay ⟨0, 1000000⟩).ticks.nanos = 22666666) ∧
    ((DeterministicTimer.nominalIncrement 60
          ((DeterministicTimer.initialise []).addDelay ⟨0, 1000000⟩) : Int)
        + (⟨0, 5000000⟩ : timespec).nanos = 21666666) ∧
    ((((((DeterministicTimer.initialise [0, 0, 0, 0, 0, 0]).getTicks ⟨0, 1000000⟩
          TimeCallType.TIMETYPE_TIME).2).addDelay ⟨0, 5000000⟩).enterFrameBoundary
            60).ticks.nanos
        - (((DeterministicTimer.initialise [0, 0, 0, 0, 0, 0]).getTicks ⟨0, 1000000⟩
          TimeCallType.TIMETYPE_TIME).2).ticks.nanos = 22666666) := by
  decide

theorem getTicks_value (δ : timespec) (t : DeterministicTimer) (k : TimeCallType) :
    (t.getTicks δ k).1 = (t.ticks.add t.forceAdvancedTicks).add t.fakeExtraTicks := by
  unfold DeterministicTimer.getTicks
  cases k.slot with
  | none => rfl
  | some i => simp only; split_ifs <;> rfl

theorem getTicks_frame (δ : timespec) (t : DeterministicTimer) (k : TimeCallType) :
    (t.getTicks δ k).2.ticks = t.ticks ∧
    (t.getTicks δ k).2.fakeExtraTicks = t.fakeExtraTicks ∧
    (t.getTicks δ k).2.altGetTimeLimits = t.altGetTimeLimits ∧
    (t.getTicks δ k).2.addedDelay = t.addedDelay := by
  unfold DeterministicTimer.getTicks
  cases k.slot with
  | none => exact ⟨rfl, rfl, rfl, rfl⟩
  | some i => simp only; split_ifs <;> exact ⟨rfl, rfl, rfl, rfl⟩

theorem getTicks_untracked (δ : timespec) (t : DeterministicTimer) (k : TimeCallType)
    (hk : k.slot = none) : (t.getTicks δ k).2 = t := by
  unfold DeterministicTimer.getTicks
  rw [hk]

theorem getD_set_le (l : List Nat) (i v : Nat) : (l.set i v).getD i 0 ≤ v := by
  by_cases h : i < l.length
  · simp [List.getD, List.getElem?_set_self h]
  · have : l.set i v = l := by
      apply List.set_eq_of_length_le
      omega
    rw [this]
    simp [List.getD, List.getElem?_eq_none (Nat.le_of_not_lt h)]

theorem getTicks_below_limit (δ : timespec) (t : DeterministicTimer) (k : TimeCallType)
    (i : Nat) (hk : k.slot = some i)
    (hlim : t.altGetTimes.getD i 0 + 1 ≤ t.altGetTimeLimits.getD i 0) :
    (t.getTicks δ k).2.forceAdvancedTicks = t.forceAdvancedTicks ∧
    (t.getTicks δ k).2.altGetTimes.getD i 0 ≤ t.altGetTimes.getD i 0 + 1 := by
  unfold DeterministicTimer.getTicks
  rw [hk]
  simp only
  rw [if_neg (by omega)]
  exact ⟨rfl, getD_set_le _ _ _⟩

/-- What `fakeAdvanceTimer` leaves as it is, also around a query: `ticks`, the forced
advance, the counters and the limits; the override is the offset it was given. -/
theorem overrideScenario_frame (δ X : timespec) (t : DeterministicTimer) (k : TimeCallType) :
    (t.fakeAdvanceTimer X).ticks = t.ticks ∧
    (t.fakeAdvanceTimer X).forceAdvancedTicks = t.forceAdvancedTicks ∧
    (t.fakeAdvanceTimer X).altGetTimes = t.altGetTimes ∧
    (t.fakeAdvanceTimer X).altGetTimeLimits = t.altGetTimeLimits ∧
    (t.fakeAdvanceTimer X).fakeExtraTicks = X ∧
    (((t.fakeAdvanceTimer X).getTicks δ k).2.fakeAdvanceTimer ⟨0, 0⟩).ticks = t.ticks :=
  ⟨rfl, rfl, rfl, rfl, rfl, (getTicks_frame δ (t.fakeAdvanceTimer X) k).1⟩

/-- Claim C17, amended. From a timer with no override active, for every offset `X` and
every query kind `k` that is untracked, or tracked with its consecutive-call counter at
least three below its limit: if `t0` is the value of a query of kind `k`, then after
`fakeAdvanceTimer(X)` the query returns `t0 + X`, and after `fakeAdvanceTimer({0,0})` it
returns `t0` again. For every timer, `fakeAdvanceTimer` and the queries leave `ticks` as
it is. -/
theorem fakeAdvanceTimer_reversible (δ X : timespec) (t : DeterministicTimer)
    (k : TimeCallType) (hover : t.fakeExtraTicks.nanos = 0)
    (hk : k.slot = none ∨ ∃ i, k.slot = some i ∧
      t.altGetTimes.getD i 0 + 3 ≤ t.altGetTimeLimits.getD i 0) :
    (overrideScenario δ X t k).2.1 = (overrideScenario δ X t k).1.add X ∧
    (overrideScenario δ X t k).2.2.1 = timespec.ofNanos (overrideScenario δ X t k).1.nanos ∧
    (overrideScenario δ X t k).2.2.1.nanos = (overrideScenario δ X t k).1.nanos ∧
    (t.fakeAdvanceTimer X).ticks = t.ticks ∧
    (overrideScenario δ X t k).2.2.2.ticks = t.ticks := by
  simp only [overrideScenario]
  have hf1 := getTicks_frame δ t k
  have hf2 := getTicks_frame δ ((t.getTicks δ k).2.fakeAdvanceTimer X) k
  have hf3 := getTicks_frame δ
    ((((t.getTicks δ k).2.fakeAdvanceTimer X).getTicks δ k).2.fakeAdvanceTimer ⟨0, 0⟩) k
  have hF1 : (t.getTicks δ k).2.forceAdvancedTicks = t.forceAdvancedTicks ∧
      (((t.getTicks δ k).2.fakeAdvanceTimer X).getTicks δ k).2.forceAdvancedTicks
        = t.forceAdvancedTicks := by
    rcases hk with hk | ⟨i, hk, hlim⟩
    · rw [getTicks_untracked δ t k hk]
      rw [getTicks_untracked δ _ k hk]
      exact ⟨rfl, rfl⟩
    · have h1 := getTicks_below_limit δ t k i hk (by omega)
      have h2 := getTicks_below_limit δ ((t.getTicks δ k).2.fakeAdvanceTimer X) k i hk (by
        show (t.getTicks δ k).2.altGetTimes.getD i 0 + 1
          ≤ (t.getTicks δ k).2.altGetTimeLimits.getD i 0
        rw [hf1.2.2.1]
        omega)
      exact ⟨h1.1, h2.1.trans h1.1⟩
  have hv2 : (((t.getTicks δ k).2.fakeAdvanceTimer X).getTicks δ k).1
      = (t.ticks.add t.forceAdvancedTicks).add X := by
    rw [getTicks_value]
    show (((t.getTicks δ k).2.ticks).add ((t.getTicks δ k).2.forceAdvancedTicks)).add X = _
    rw [hf1.1, hF1.1]
  have hv3 : (((((t.getTicks δ k).2.fakeAdvanceTimer X).getTicks δ k).2.fakeAdvanceTimer
        ⟨0, 0⟩).getTicks δ k).1 = (t.ticks.add t.forceAdvancedTicks).add ⟨0, 0⟩ := by
    rw [getTicks_value]
    show (((((t.getTicks δ k).2.fakeAdvanceTimer X).getTicks δ k).2.ticks).add
      ((((t.getTicks δ k).2.fakeAdvanceTimer X).getTicks δ k).2.forceAdvancedTicks)).add
        ⟨0, 0⟩ = _
    rw [hf2.1, hF1.2]
    show ((((t.getTicks δ k).2.ticks).add _).add _) = _
    rw [hf1.1]
  have hv1 : (t.getTicks δ k).1.nanos = (t.ticks.add t.forceAdvancedTicks).nanos := by
    rw [getTicks_value, nanos_add, hover]
    omega
  have h0 : (⟨0, 0⟩ : timespec).nanos = 0 := rfl
  refine ⟨?_, ?_, ?_, rfl, ?_⟩
  · rw [hv2]
    show timespec.ofNanos ((t.ticks.add t.forceAdvancedTicks).nanos + X.nanos)
      = timespec.ofNanos ((t.getTicks δ k).1.nanos + X.nanos)
    rw [hv1]
  · rw [hv3, hv1]
    show timespec.ofNanos ((t.ticks.add t.forceAdvancedTicks).nanos
      + (⟨0, 0⟩ : timespec).nanos) = _
    rw [h0, add_zero]
  · rw [hv3, hv1, nanos_add, h0, add_zero]
  · rw [hf3.1]
    show (((t.getTicks δ k).2.fakeAdvanceTimer X).getTicks δ k).2.ticks = _
    rw [hf2.1]
    exact hf1.1

/-- A timer that was just set up with a limit of 5 for every tracked kind, queried with
`TIMETYPE_SDLGETTICKS` around an override of 250 ms: the values are 0, 250 ms and 0. -/
theorem fakeAdvanceTimer_reversible_witness :
    ((overrideScenario ⟨0, 1000000⟩ ⟨0, 250000000⟩
        (DeterministicTimer.initialise [5, 5, 5, 5, 5, 5])
        TimeCallType.TIMETYPE_SDLGETTICKS).1 = ⟨0, 0⟩ ∧
      (overrideScenario ⟨0, 1000000⟩ ⟨0, 250000000⟩
        (DeterministicTimer.initialise [5, 5, 5, 5, 5, 5])
        TimeCallType.TIMETYPE_SDLGETTICKS).2.1 = ⟨0, 250000000⟩ ∧
      (overrideScenario ⟨0, 1000000⟩ ⟨0, 250000000⟩
        (DeterministicTimer.initialise [5, 5, 5, 5, 5, 5])
        TimeCallType.TIMETYPE_SDLGETTICKS).2.2.1 = ⟨0, 0⟩) ∧
    (overrideScenario ⟨0, 1000000⟩ ⟨0, 250000000⟩
        (DeterministicTimer.initialise [5, 5, 5, 5, 5, 5])
        TimeCallType.TIMETYPE_SDLGETTICKS).2.1
      = (overrideScenario ⟨0, 1000000⟩ ⟨0, 250000000⟩
        (DeterministicTimer.initialise [5, 5, 5, 5, 5, 5])
        TimeCallType.TIMETYPE_SDLGETTICKS).1.add ⟨0, 250000000⟩ :=
  ⟨by decide, (fakeAdvanceTimer_reversible ⟨0, 1000000⟩ ⟨0, 250000000⟩
    (DeterministicTimer.initialise [5, 5, 5, 5, 5, 5]) TimeCallType.TIMETYPE_SDLGETTICKS
    (by decide) (Or.inr ⟨4, rfl, by decide⟩)).1⟩

/-- Two timers on which the scenario fails. On a timer set up with a limit of 1 for every
tracked kind, the second query of kind `TIMETYPE_TIME` exceeds the limit and injects the
forced increment of 1 ms: the three values are 0, 250 ms and 1 ms, not 0 again. On a
timer with an override of 2 s already active, the untracked query returns 2 s before
`fakeAdvanceTimer({0, 250000000})`, then 250 ms, not 2.25 s, and 0 in the end. -/
theorem fakeAdvanceTimer_reversible_counterexample :
    ((overrideScenario ⟨0, 1000000⟩ ⟨0, 250000000⟩
        (DeterministicTimer.initialise [1, 1, 1, 1, 1, 1]) TimeCallType.TIMETYPE_TIME).1
        = ⟨0, 0⟩ ∧
      (overrideScenario ⟨0, 1000000⟩ ⟨0, 250000000⟩
        (DeterministicTimer.initialise [1, 1, 1, 1, 1, 1]) TimeCallType.TIMETYPE_TIME).2.1
        = ⟨0, 250000000⟩ ∧
      (overrideScenario ⟨0, 1000000⟩ ⟨0, 250000000⟩
        (DeterministicTimer.initialise [1, 1, 1, 1, 1, 1]) TimeCallType.TIMETYPE_TIME).2.2.1
        = ⟨0, 1000000⟩) ∧
    ((overrideScenario ⟨0, 1000000⟩ ⟨0, 250000000⟩
        ((DeterministicTimer.initialise []).fakeAdvanceTimer ⟨2, 0⟩)
        TimeCallType.TIMETYPE_UNTRACKED).1 = ⟨2, 0⟩ ∧
      (overrideScenario ⟨0, 1000000⟩ ⟨0, 250000000⟩
        ((DeterministicTimer.initialise []).fakeAdvanceTimer ⟨2, 0⟩)
        TimeCallType.TIMETYPE_UNTRACKED).2.1 = ⟨0, 250000000⟩ ∧
      (overrideScenario ⟨0, 1000000⟩ ⟨0, 250000000⟩
        ((DeterministicTimer.initialise []).fakeAdvanceTimer ⟨2, 0⟩)
        TimeCallType.TIMETYPE_UNTRACKED).2.2.1 = ⟨0, 0⟩) := by
  decide

/-! ## Diverted waits -/

/-- Claim C18. On the main thread with a thread state that is not native, each of
`SDL_Delay` and `usleep` (for a non-zero duration), `nanosleep` and `clock_nanosleep`
hands exactly one duration to `addDelay`, the requested one (for `clock_nanosleep` the
time it computed from the request), and makes exactly one real `nanosleep`, of `{0, 0}`;
`SDL_Delay` and `usleep` hand over a duration of `sleep` milliseconds and of `usec`
microseconds. -/
theorem diverted_wait_main_thread (orig_nanosleep : timespec → Int) (sleep usec : Nat)
    (clock_id flags : Int) (req curtime : timespec) (hsleep : sleep ≠ 0) (husec : usec ≠ 0) :
    (SDL_Delay true false sleep
        = [SleepCall.addDelay ⟨(sleep / 1000 : Nat), ((sleep % 1000) * 1000000 : Nat)⟩,
            SleepCall.nanosleep ⟨0, 0⟩] ∧
      (∀ d ∈ delaysHanded (SDL_Delay true false sleep), d.nanos = (sleep : Int) * 1000000) ∧
      (delaysHanded (SDL_Delay true false sleep)).length = 1 ∧
      realWaits (SDL_Delay true false sleep) = [⟨0, 0⟩]) ∧
    ((usleep true false usec).2
        = [SleepCall.addDelay ⟨(usec / 1000000 : Nat), ((usec % 1000000) * 1000 : Nat)⟩,
            SleepCall.nanosleep ⟨0, 0⟩] ∧
      (∀ d ∈ delaysHanded (usleep true false usec).2, d.nanos = (usec : Int) * 1000) ∧
      (delaysHanded (usleep true false usec).2).length = 1 ∧
      realWaits (usleep true false usec).2 = [⟨0, 0⟩]) ∧
    (delaysHanded (nanosleep orig_nanosleep true false req).2 = [req] ∧
      realWaits (nanosleep orig_nanosleep true false req).2 = [⟨0, 0⟩] ∧
      (nanosleep orig_nanosleep true false req).1 = orig_nanosleep ⟨0, 0⟩) ∧
    (delaysHanded (clock_nanosleep orig_nanosleep true false clock_id flags req curtime).2
        = [sleeptime flags req curtime] ∧
      realWaits (clock_nanosleep orig_nanosleep true false clock_id flags req curtime).2
        = [⟨0, 0⟩] ∧
      (clock_nanosleep orig_nanosleep true false clock_id flags req curtime).1
        = orig_nanosleep ⟨0, 0⟩ ∧
      sleeptime 0 req curtime = req) := by
  refine ⟨?_, ?_, ?_, ?_⟩
  · have h : SDL_Delay true false sleep
        = [SleepCall.addDelay ⟨(sleep / 1000 : Nat), ((sleep % 1000) * 1000000 : Nat)⟩,
            SleepCall.nanosleep ⟨0, 0⟩] := by
      simp [SDL_Delay, hsleep]
    rw [h]
    refine ⟨rfl, ?_, rfl, rfl⟩
    intro d hd
    simp only [delaysHanded, List.mem_singleton] at hd
    subst hd
    simp only [timespec.nanos]
    omega
  · have h : (usleep true false usec).2
        = [SleepCall.addDelay ⟨(usec / 1000000 : Nat), ((usec % 1000000) * 1000 : Nat)⟩,
            SleepCall.nanosleep ⟨0, 0⟩] := by
      simp [usleep, husec]
    rw [h]
    refine ⟨rfl, ?_, rfl, rfl⟩
    intro d hd
    simp only [delaysHanded, List.mem_singleton] at hd
    subst hd
    simp only [timespec.nanos]
    omega
  · simp [nanosleep, delaysHanded, realWaits]
  · by_cases hf : flags = 0
    · simp [clock_nanosleep, hf, delaysHanded, realWaits, sleeptime]
    · simp [clock_nanosleep, hf, delaysHanded, realWaits, sleeptime]

/-- The four overrides on the main thread: `SDL_Delay(1500)`, `usleep(2500000)`,
`nanosleep({1, 500})` and `clock_nanosleep` with an absolute deadline of 10 s at a
current time of 4 s. -/
theorem diverted_wait_main_thread_witness :
    (SDL_Delay true false 1500
        = [SleepCall.addDelay ⟨1, 500000000⟩, SleepCall.nanosleep ⟨0, 0⟩] ∧
      (usleep true false 2500000).2
        = [SleepCall.addDelay ⟨2, 500000000⟩, SleepCall.nanosleep ⟨0, 0⟩] ∧
      (nanosleep (fun _ => 0) true false ⟨1, 500⟩).2
        = [SleepCall.addDelay ⟨1, 500⟩, SleepCall.nanosleep ⟨0, 0⟩] ∧
      (clock_nanosleep (fun _ => 0) true false 1 1 ⟨10, 0⟩ ⟨4, 0⟩).2
        = [SleepCall.getTicks TimeCallType.TIMETYPE_UNTRACKED, SleepCall.addDelay ⟨6, 0⟩,
            SleepCall.nanosleep ⟨0, 0⟩]) ∧
    delaysHanded (clock_nanosleep (fun _ => 0) true false 1 1 ⟨10, 0⟩ ⟨4, 0⟩).2
      = [sleeptime 1 ⟨10, 0⟩ ⟨4, 0⟩] :=
  ⟨by decide, (diverted_wait_main_thread (fun _ => 0) 1500 2500000 1 1 ⟨10, 0⟩ ⟨4, 0⟩
    (by decide) (by decide)).2.2.2.1⟩

/-- Claim C19, amended. A wait is routed into virtual time only on the main thread and
only when the thread state is not native. On a secondary thread, or with a native thread
state, each of `SDL_Delay`, `usleep`, `nanosleep` and `clock_nanosleep` hands nothing to
`addDelay` and makes one real `nanosleep` with the requested duration; on the main
thread with a non-native state a call with a non-zero duration hands it to `addDelay`
and the one real `nanosleep` is of `{0, 0}`. -/
theorem wait_routing (orig_nanosleep : timespec → Int) (mainT native : Bool)
    (sleep usec : Nat) (clock_id flags : Int) (req curtime : timespec)
    (hsleep : sleep ≠ 0) (husec : usec ≠ 0) :
    ((mainT = false ∨ native = true) →
      (delaysHanded (SDL_Delay mainT native sleep) = [] ∧
        realWaits (SDL_Delay mainT native sleep)
          = [⟨(sleep / 1000 : Nat), ((sleep % 1000) * 1000000 : Nat)⟩]) ∧
      (delaysHanded (usleep mainT native usec).2 = [] ∧
        realWaits (usleep mainT native usec).2
          = [⟨(usec / 1000000 : Nat), ((usec % 1000000) * 1000 : Nat)⟩]) ∧
      (delaysHanded (nanosleep orig_nanosleep mainT native req).2 = [] ∧
        realWaits (nanosleep orig_nanosleep mainT native req).2 = [req] ∧
        (nanosleep orig_nanosleep mainT native req).1 = orig_nanosleep req) ∧
      (delaysHanded (clock_nanosleep orig_nanosleep mainT native clock_id flags req
          curtime).2 = [] ∧
        realWaits (clock_nanosleep orig_nanosleep mainT native clock_id flags req
          curtime).2 = [sleeptime flags req curtime] ∧
        (clock_nanosleep orig_nanosleep mainT native clock_id flags req curtime).1
          = orig_nanosleep (sleeptime flags req curtime))) ∧
    ((mainT = true ∧ native = false) →
      (delaysHanded (SDL_Delay mainT native sleep)
          = [⟨(sleep / 1000 : Nat), ((sleep % 1000) * 1000000 : Nat)⟩] ∧
        realWaits (SDL_Delay mainT native sleep) = [⟨0, 0⟩]) ∧
      (delaysHanded (usleep mainT native usec).2
          = [⟨(usec / 1000000 : Nat), ((usec % 1000000) * 1000 : Nat)⟩] ∧
        realWaits (usleep mainT native usec).2 = [⟨0, 0⟩]) ∧
      (delaysHanded (nanosleep orig_nanosleep mainT native req).2 = [req] ∧
        realWaits (nanosleep orig_nanosleep mainT native req).2 = [⟨0, 0⟩]) ∧
      (delaysHanded (clock_nanosleep orig_nanosleep mainT native clock_id flags req
          curtime).2 = [sleeptime flags req curtime] ∧
        realWaits (clock_nanosleep orig_nanosleep mainT native clock_id flags req
          curtime).2 = [⟨0, 0⟩])) := by
  constructor
  · intro h
    have hne : ¬ (mainT = true ∧ ¬ native = true) := by
      rcases h with h | h <;> simp [h]
    have hne2 : ∀ n : Nat, ¬ (n ≠ 0 ∧ mainT = true ∧ ¬ native = true) := fun n hn => hne hn.2
    refine ⟨?_, ?_, ?_, ?_⟩
    · simp only [SDL_Delay, if_neg (hne2 sleep), delaysHanded, realWaits, and_self]
    · simp only [usleep, if_neg (hne2 usec), delaysHanded, realWaits, and_self]
    · simp only [nanosleep, if_neg hne, delaysHanded, realWaits, and_self]
    · by_cases hf : flags = 0 <;> cases mainT <;> cases native <;> simp at h <;>
        simp [clock_nanosleep, hf, delaysHanded, realWaits]
  · rintro ⟨hm, hn⟩
    subst hm
    subst hn
    refine ⟨?_, ?_, ?_, ?_⟩
    · simp [SDL_Delay, hsleep, delaysHanded, realWaits]
    · simp [usleep, husec, delaysHanded, realWaits]
    · simp [nanosleep, delaysHanded, realWaits]
    · by_cases hf : flags = 0
      · simp [clock_nanosleep, hf, delaysHanded, realWaits]
      · simp [clock_nanosleep, hf, delaysHanded, realWaits]

/-- A wait of 1.5 s from a secondary thread: each override makes the real `nanosleep`
with the requested duration and hands nothing to `addDelay`. -/
theorem wait_routing_witness :
    (delaysHanded (SDL_Delay false false 1500) = [] ∧
        realWaits (SDL_Delay false false 1500)
          = [⟨(1500 / 1000 : Nat), ((1500 % 1000) * 1000000 : Nat)⟩]) ∧
      (delaysHanded (usleep false false 1500000).2 = [] ∧
        realWaits (usleep false false 1500000).2
          = [⟨(1500000 / 1000000 : Nat), ((1500000 % 1000000) * 1000 : Nat)⟩]) ∧
      (delaysHanded (nanosleep (fun _ => 0) false false ⟨1, 500000000⟩).2 = [] ∧
        realWaits (nanosleep (fun _ => 0) false false ⟨1, 500000000⟩).2
          = [⟨1, 500000000⟩] ∧
        (nanosleep (fun _ => 0) false false ⟨1, 500000000⟩).1
          = (fun _ => 0) (⟨1, 500000000⟩ : timespec)) ∧
      (delaysHanded (clock_nanosleep (fun _ => 0) false false 1 0 ⟨1, 500000000⟩
          ⟨4, 0⟩).2 = [] ∧
        realWaits (clock_nanosleep (fun _ => 0) false false 1 0 ⟨1, 500000000⟩
          ⟨4, 0⟩).2 = [sleeptime 0 ⟨1, 500000000⟩ ⟨4, 0⟩] ∧
        (clock_nanosleep (fun _ => 0) false false 1 0 ⟨1, 500000000⟩ ⟨4, 0⟩).1
          = (fun _ => 0) (sleeptime 0 ⟨1, 500000000⟩ ⟨4, 0⟩)) :=
  (wait_routing (fun _ => 0) false false 1500 1500000 1 0 ⟨1, 500000000⟩ ⟨4, 0⟩
    (by decide) (by decide)).1 (Or.inl rfl)

/-- Waits of 1.5 s that are not routed into virtual time: `nanosleep` and `SDL_Delay`
called from a secondary thread, and `usleep` called on the main thread with a native
thread state, make the real `nanosleep` of 1.5 s and never call `addDelay`. -/
theorem wait_routing_counterexample :
    (nanosleep (fun _ => 0) false false ⟨1, 500000000⟩).2
      = [SleepCall.nanosleep ⟨1, 500000000⟩] ∧
    SDL_Delay false false 1500 = [SleepCall.nanosleep ⟨1, 500000000⟩] ∧
    (usleep true true 1500000).2 = [SleepCall.nanosleep ⟨1, 500000000⟩] ∧
    (clock_nanosleep (fun _ => 0) false false 1 0 ⟨1, 500000000⟩ ⟨4, 0⟩).2
      = [SleepCall.nanosleep ⟨1, 500000000⟩] := by
  decide

theorem applyCalls_quiet (δ : timespec) (timer : DeterministicTimer) (calls : List SleepCall)
    (hq : ∀ k ∈ clockQueries calls, k = TimeCallType.TIMETYPE_UNTRACKED) :
    (applyCalls δ timer calls).altGetTimes = timer.altGetTimes ∧
    (applyCalls δ timer calls).forceAdvancedTicks = timer.forceAdvancedTicks ∧
    (applyCalls δ timer calls).ticks = timer.ticks := by
  induction calls generalizing timer with
  | nil => exact ⟨rfl, rfl, rfl⟩
  | cons c calls ih =>
    cases c with
    | addDelay d =>
      simp only [applyCalls]
      exact ih (timer.addDelay d) (fun k hk => hq k (by simpa [clockQueries] using hk))
    | getTicks type =>
      have ht : type = TimeCallType.TIMETYPE_UNTRACKED :=
        hq type (by
          simp only [clockQueries]
          exact List.mem_cons_self _ _)
      subst ht
      simp only [applyCalls]
      rw [getTicks_untracked δ timer TimeCallType.TIMETYPE_UNTRACKED rfl]
      exact ih timer (fun k hk => hq k (by
        simp only [clockQueries]
        exact List.mem_cons_of_mem _ hk))
    | nanosleep r =>
      simp only [applyCalls]
      exact ih timer (fun k hk => hq k (by simpa [clockQueries] using hk))

/-- Claim C20. `clock_nanosleep` with `flags == 0` takes the requested time as the delay
and makes no clock query; with any other flags it makes exactly one clock query, of kind
`TIMETYPE_UNTRACKED`, before anything else, and the delay is the requested time minus
the answer. Whatever the thread, its calls leave every consecutive-call counter and the
forced advance of the timer as they are. -/
theorem clock_nanosleep_untracked (orig_nanosleep : timespec → Int) (mainT native : Bool)
    (clock_id flags : Int) (req curtime : timespec) (δ : timespec)
    (timer : DeterministicTimer) :
    (clockQueries (clock_nanosleep orig_nanosleep mainT native clock_id flags req curtime).2
      = if flags = 0 then [] else [TimeCallType.TIMETYPE_UNTRACKED]) ∧
    ((clock_nanosleep orig_nanosleep mainT native clock_id flags req curtime).2.head?
      = if flags = 0 then
          (if mainT = true ∧ native = false then some (SleepCall.addDelay req)
            else some (SleepCall.nanosleep req))
        else some (SleepCall.getTicks TimeCallType.TIMETYPE_UNTRACKED)) ∧
    (sleeptime flags req curtime = if flags = 0 then req else req.sub curtime) ∧
    (delaysHanded (clock_nanosleep orig_nanosleep mainT native clock_id flags req curtime).2
        ++ realWaits (clock_nanosleep orig_nanosleep mainT native clock_id flags req
          curtime).2
      = if mainT = true ∧ native = false then [sleeptime flags req curtime, ⟨0, 0⟩]
        else [sleeptime flags req curtime]) ∧
    (applyCalls δ timer
      (clock_nanosleep orig_nanosleep mainT native clock_id flags req
        curtime).2).altGetTimes = timer.altGetTimes ∧
    (applyCalls δ timer
      (clock_nanosleep orig_nanosleep mainT native clock_id flags req
        curtime).2).forceAdvancedTicks = timer.forceAdvancedTicks := by
  have hq : clockQueries
      (clock_nanosleep orig_nanosleep mainT native clock_id flags req curtime).2
      = if flags = 0 then [] else [TimeCallType.TIMETYPE_UNTRACKED] := by
    by_cases hf : flags = 0 <;> cases mainT <;> cases native <;>
      simp [clock_nanosleep, hf, clockQueries]
  have hquiet := applyCalls_quiet δ timer
    (clock_nanosleep orig_nanosleep mainT native clock_id flags req curtime).2 (by
      rw [hq]
      intro k hk
      split_ifs at hk
      · simp at hk
      · simpa using hk)
  refine ⟨hq, ?_, rfl, ?_, hquiet.1, hquiet.2.1⟩
  · by_cases hf : flags = 0 <;> cases mainT <;> cases native <;>
      simp [clock_nanosleep, hf, sleeptime]
  · by_cases hf : flags = 0 <;> cases mainT <;> cases native <;>
      simp [clock_nanosleep, hf, delaysHanded, realWaits]

/-! ## Symbol resolution -/

/-- The five ways through `link_function`: pointer already set; found in the global
namespace; not found and no library given; library not found or not opened; library
opened and the symbol looked up in it. -/
theorem link_function_cases (loader : Loader) (function : Nat) (source : String)
    (library : Option String) :
    (function ≠ 0 ∧ link_function loader function source library = (true, function, []))
    ∨ (function = 0 ∧ loader.dlsym_next source ≠ 0
        ∧ link_function loader function source library
          = (true, loader.dlsym_next source,
              [LinkCall.dlhook_init, LinkCall.dlenter, LinkCall.dlsym_next source,
               LinkCall.dlleave]))
    ∨ (function = 0 ∧ loader.dlsym_next source = 0 ∧ library = none
        ∧ link_function loader function source library
          = (false, 0,
              [LinkCall.dlhook_init, LinkCall.dlenter, LinkCall.dlsym_next source,
               LinkCall.logError source, LinkCall.dlleave]))
    ∨ (∃ lib, function = 0 ∧ loader.dlsym_next source = 0 ∧ library = some lib
        ∧ (loader.find_lib lib = "" ∨ loader.dlopen (loader.find_lib lib) = 0)
        ∧ (link_function loader function source library).1 = false
        ∧ (link_function loader function source library).2.1 = 0
        ∧ lookups (link_function loader function source library).2.2
          = [LinkCall.dlsym_next source]
        ∧ librariesTried (link_function loader function source library).2.2 = [lib])
    ∨ (∃ lib, function = 0 ∧ loader.dlsym_next source = 0 ∧ library = some lib
        ∧ loader.find_lib lib ≠ "" ∧ loader.dlopen (loader.find_lib lib) ≠ 0
        ∧ (link_function loader function source library).1
          = decide (loader.dlsym (loader.dlopen (loader.find_lib lib)) source ≠ 0)
        ∧ (link_function loader function source library).2.1
          = loader.dlsym (loader.dlopen (loader.find_lib lib)) source
        ∧ lookups (link_function loader function source library).2.2
          = [LinkCall.dlsym_next source,
             LinkCall.dlsym (loader.dlopen (loader.find_lib lib)) source]
        ∧ librariesTried (link_function loader function source library).2.2 = [lib]) := by
  by_cases hf : function = 0
  · by_cases hg : loader.dlsym_next source = 0
    · cases library with
      | none =>
        right; right; left
        refine ⟨hf, hg, rfl, ?_⟩
        simp [link_function, hf, hg]
      | some lib =>
        by_cases hp : loader.find_lib lib = ""
        · right; right; right; left
          refine ⟨lib, hf, hg, rfl, Or.inl hp, ?_⟩
          simp [link_function, hf, hg, hp, lookups, librariesTried]
        · by_cases hh : loader.dlopen (loader.find_lib lib) = 0
          · right; right; right; left
            refine ⟨lib, hf, hg, rfl, Or.inr hh, ?_⟩
            simp [link_function, hf, hg, hp, hh, lookups, librariesTried]
          · right; right; right; right
            refine ⟨lib, hf, hg, rfl, hp, hh, ?_⟩
            by_cases hs : loader.dlsym (loader.dlopen (loader.find_lib lib)) source = 0
            · simp [link_function, hf, hg, hp, hh, hs, lookups, librariesTried]
            · simp [link_function, hf, hg, hp, hh, hs, lookups, librariesTried]
    · right; left
      refine ⟨hf, hg, ?_⟩
      simp [link_function, hf, hg]
  · left
    refine ⟨hf, ?_⟩
    simp [link_function, hf]

/-- Claim C21. `link_function` returns true exactly when the symbol is resolved, that is
when `*function` is non-null on return: with `*function` non-null on entry it returns
true, makes no call and leaves the pointer as it is; otherwise it looks the symbol up in
the global namespace and, when that lookup answers non-null, returns true with that
address; it asks for a library only when the global lookup fails and a library is given,
and when the library is found and opened and the lookup in it answers non-null, it
returns true with that address; in every other case, and so whenever every lookup it
makes comes back null, `*function` is null and the result is false. -/
theorem link_function_reports (loader : Loader) (function : Nat) (source : String)
    (library : Option String) :
    ((link_function loader function source library).1 = true
        ↔ (link_function loader function source library).2.1 ≠ 0)
    ∧ (function ≠ 0 → link_function loader function source library = (true, function, []))
    ∧ (function = 0 →
        (lookups (link_function loader function source library).2.2).head?
          = some (LinkCall.dlsym_next source))
    ∧ (librariesTried (link_function loader function source library).2.2
        = if function = 0 ∧ loader.dlsym_next source = 0 then library.toList else [])
    ∧ (library = none →
        ∀ handle symbol,
          LinkCall.dlsym handle symbol ∉ (link_function loader function source library).2.2)
    ∧ (function = 0 →
        (∀ symbol, LinkCall.dlsym_next symbol
            ∈ lookups (link_function loader function source library).2.2 →
          loader.dlsym_next symbol = 0) →
        (∀ handle symbol, LinkCall.dlsym handle symbol
            ∈ lookups (link_function loader function source library).2.2 →
          loader.dlsym handle symbol = 0) →
        (link_function loader function source library).1 = false
          ∧ (link_function loader function source library).2.1 = 0)
    ∧ (function = 0 → loader.dlsym_next source ≠ 0 →
        (link_function loader function source library).1 = true
          ∧ (link_function loader function source library).2.1 = loader.dlsym_next source
          ∧ lookups (link_function loader function source library).2.2
            = [LinkCall.dlsym_next source])
    ∧ (∀ lib, function = 0 → loader.dlsym_next source = 0 → library = some lib →
        loader.find_lib lib ≠ "" → loader.dlopen (loader.find_lib lib) ≠ 0 →
        loader.dlsym (loader.dlopen (loader.find_lib lib)) source ≠ 0 →
        (link_function loader function source library).1 = true
          ∧ (link_function loader function source library).2.1
            = loader.dlsym (loader.dlopen (loader.find_lib lib)) source
          ∧ lookups (link_function loader function source library).2.2
            = [LinkCall.dlsym_next source,
               LinkCall.dlsym (loader.dlopen (loader.find_lib lib)) source])
    ∧ ((link_function loader function source library).1 = true
        ↔ (function ≠ 0 ∨ loader.dlsym_next source ≠ 0
            ∨ ∃ lib, library = some lib ∧ loader.find_lib lib ≠ ""
                ∧ loader.dlopen (loader.find_lib lib) ≠ 0
                ∧ loader.dlsym (loader.dlopen (loader.find_lib lib)) source ≠ 0)) := by
  rcases link_function_cases loader function source library with
    ⟨hf, e⟩ | ⟨hf, hg, e⟩ | ⟨hf, hg, hl, e⟩ | ⟨lib, hf, hg, hl, hfail, e1, e2, e3, e4⟩
      | ⟨lib, hf, hg, hl, hp, hh, e1, e2, e3, e4⟩
  · rw [e]
    refine ⟨by simp [hf], fun _ => rfl, fun h => absurd h hf, by simp [hf, librariesTried],
      fun _ _ _ => by simp, fun h => absurd h hf, fun h => absurd h hf,
      fun _ h => absurd h hf, ?_⟩
    simp [hf]
  · rw [e]
    refine ⟨by simp [hg], fun h => absurd hf h, fun _ => by simp [lookups],
      by simp [hg, librariesTried], fun _ _ _ => by simp, ?_, ?_, ?_, ?_⟩
    · intro _ h1 _
      exact absurd (h1 source (by simp [lookups])) hg
    · intro _ _
      exact ⟨rfl, rfl, by simp [lookups]⟩
    · intro _ _ h
      exact absurd h hg
    · simp [hg]
  · rw [e]
    refine ⟨by simp, fun h => absurd hf h, fun _ => by simp [lookups],
      by simp [hf, hg, hl, librariesTried], fun _ _ _ => by simp, ?_, ?_, ?_, ?_⟩
    · intro _ _ _
      exact ⟨rfl, rfl⟩
    · intro _ h
      exact absurd hg h
    · intro lib _ _ h
      rw [hl] at h
      cases h
    · simp [hf, hg, hl]
  · refine ⟨?_, fun h => absurd hf h, ?_, ?_, ?_, ?_, ?_, ?_, ?_⟩
    · simp [e1, e2]
    · intro _
      rw [e3]
      rfl
    · rw [e4]
      simp [hf, hg, hl]
    · intro h
      rw [hl] at h
      cases h
    · intro _ _ _
      exact ⟨e1, e2⟩
    · intro _ h
      exact absurd hg h
    · intro lib1 _ _ h h1 h2 _
      rw [hl] at h
      injection h with h
      subst h
      rcases hfail with h3 | h3
      · exact absurd h3 h1
      · exact absurd h3 h2
    · rw [e1]
      simp only [Bool.false_eq_true, false_iff, not_or, not_not, not_exists, not_and]
      refine ⟨hf, hg, ?_⟩
      intro lib1 h h1 h2
      rw [hl] at h
      injection h with h
      subst h
      rcases hfail with h3 | h3
      · exact absurd h3 h1
      · exact absurd h3 h2
  · refine ⟨?_, fun h => absurd hf h, ?_, ?_, ?_, ?_, ?_, ?_, ?_⟩
    · simp [e1, e2]
    · intro _
      rw [e3]
      rfl
    · rw [e4]
      simp [hf, hg, hl]
    · intro h
      rw [hl] at h
      cases h
    · intro _ _ h2
      have hs := h2 (loader.dlopen (loader.find_lib lib)) source (by rw [e3]; simp)
      exact ⟨by rw [e1]; simp [hs], by rw [e2]; exact hs⟩
    · intro _ h
      exact absurd hg h
    · intro lib1 _ _ h _ _ h3
      rw [hl] at h
      injection h with h
      subst h
      exact ⟨by rw [e1]; simp [h3], e2, e3⟩
    · rw [e1]
      simp only [decide_eq_true_eq]
      constructor
      · intro h
        exact Or.inr (Or.inr ⟨lib, hl, hp, hh, h⟩)
      · rintro (h | h | ⟨lib1, h, _, _, h3⟩)
        · exact absurd hf h
        · exact absurd hg h
        · rw [hl] at h
          injection h with h
          subst h
          exact h3

/-- A symbol absent from the global namespace and found in the library `libGL`: the
result is true with the address of the symbol, after one lookup in each place; with a
pointer already set, nothing is called. -/
theorem link_function_reports_witness :
    (link_function libraryLoader 0 "glXSwapBuffers" (some "libGL")
        = (true, 42,
            [LinkCall.dlhook_init, LinkCall.dlenter, LinkCall.dlsym_next "glXSwapBuffers",
             LinkCall.find_lib "libGL", LinkCall.dlopen "/usr/lib/libGL.so",
             LinkCall.dlsym 7 "glXSwapBuffers", LinkCall.dlleave]))
    ∧ (link_function libraryLoader 0 "glXSwapBuffers" none
        = (false, 0,
            [LinkCall.dlhook_init, LinkCall.dlenter, LinkCall.dlsym_next "glXSwapBuffers",
             LinkCall.logError "glXSwapBuffers", LinkCall.dlleave]))
    ∧ link_function emptyLoader 5 "glXSwapBuffers" (some "libGL") = (true, 5, [])
    ∧ ((link_function libraryLoader 0 "glXSwapBuffers" (some "libGL")).1 = true
        ∧ (link_function libraryLoader 0 "glXSwapBuffers" (some "libGL")).2.1
          = libraryLoader.dlsym (libraryLoader.dlopen (libraryLoader.find_lib "libGL"))
              "glXSwapBuffers"
        ∧ lookups (link_function libraryLoader 0 "glXSwapBuffers" (some "libGL")).2.2
          = [LinkCall.dlsym_next "glXSwapBuffers",
             LinkCall.dlsym (libraryLoader.dlopen (libraryLoader.find_lib "libGL"))
               "glXSwapBuffers"]) :=
  ⟨by decide, by decide,
    (link_function_reports emptyLoader 5 "glXSwapBuffers" (some "libGL")).2.1 (by decide),
    (link_function_reports libraryLoader 0 "glXSwapBuffers" (some "libGL")).2.2.2.2.2.2.2.1
      "libGL" rfl rfl rfl (by decide) (by decide) (by decide)⟩

/-! ## The game window -/

theorem runCalls_append (s : WindowState) (xs ys : List WindowCall) :
    runCalls s (xs ++ ys)
      = ((runCalls (runCalls s xs).1 ys).1, (runCalls s xs).2 ++ (runCalls (runCalls s xs).1 ys).2) := by
  induction xs generalizing s with
  | nil => rfl
  | cons c xs ih =>
    show runCalls s (c :: (xs ++ ys)) = _
    simp only [runCalls, List.cons_append]
    rw [ih]

theorem sentSinceCreation_append (sent : Nat) (xs ys : List (WindowCall × List WindowEvent)) :
    sentSinceCreation sent (xs ++ ys) = sentSinceCreation (sentSinceCreation sent xs) ys := by
  induction xs generalizing sent with
  | nil => rfl
  | cons x xs ih =>
    obtain ⟨c, events⟩ := x
    show sentSinceCreation sent ((c, events) :: (xs ++ ys)) = _
    simp only [sentSinceCreation]
    rw [ih]

/-- One call: its messages are well formed, a creation call sends nothing and clears
`gw_sent`, any other call sends one message exactly when it sets `gw_sent`, and a call
that reaches the frame boundary leaves `gw_sent` set. -/
theorem apply_step (s : WindowState) (c : WindowCall) :
    wellFormedMessages (c.apply s).2 = true
      ∧ (isCreation c = true → (c.apply s).2 = [] ∧ (c.apply s).1.gw_sent = false)
      ∧ (isCreation c = false →
          ((s.gw_sent = true → (c.apply s).1.gw_sent = true ∧ idMessages (c.apply s).2 = 0)
            ∧ (s.gw_sent = false →
                ((c.apply s).1.gw_sent = true ∧ idMessages (c.apply s).2 = 1)
                  ∨ ((c.apply s).1.gw_sent = false ∧ idMessages (c.apply s).2 = 0))))
      ∧ (WindowEvent.frameBoundary ∈ (c.apply s).2 → (c.apply s).1.gw_sent = true) := by
  obtain ⟨gw, sent⟩ := s
  cases c with
  | SDL_CreateWindow created =>
    simp [WindowCall.apply, SDL_CreateWindow, isCreation, wellFormedMessages]
  | SDL_CreateWindowAndRenderer created =>
    simp [WindowCall.apply, SDL_CreateWindowAndRenderer, isCreation, wellFormedMessages]
  | SDL_DestroyWindow window =>
    cases sent <;> by_cases hw : gw = window <;>
      simp [WindowCall.apply, SDL_DestroyWindow, isCreation, wellFormedMessages, idMessages, hw]
  | SDL_GL_SwapWindow window info =>
    cases sent <;> cases info <;> by_cases hw : gw = 0 <;>
      simp [WindowCall.apply, SDL_GL_SwapWindow, sendXid, isCreation, wellFormedMessages,
        idMessages, hw]
  | SDL_RenderPresent info =>
    cases sent <;> cases info <;> by_cases hw : gw = 0 <;>
      simp [WindowCall.apply, SDL_RenderPresent, sendXid, isCreation, wellFormedMessages,
        idMessages, hw]
  | SDL_GL_SwapBuffers =>
    cases sent <;>
      simp [WindowCall.apply, SDL_GL_SwapBuffers, isCreation, wellFormedMessages, idMessages]
  | SDL_Flip =>
    cases sent <;>
      simp [WindowCall.apply, SDL_Flip, isCreation, wellFormedMessages, idMessages]
  | glXSwapBuffers drawable =>
    cases sent <;>
      simp [WindowCall.apply, glXSwapBuffers, isCreation, wellFormedMessages, idMessages]

/-- The calls that one call makes: nothing, an error log, the frame boundary alone, or the
window-id message with the handle of the call followed by the frame boundary, the last
only when `gw_sent` was clear. -/
theorem apply_events (s : WindowState) (c : WindowCall) :
    (c.apply s).2 = [] ∨ (c.apply s).2 = [WindowEvent.logError]
      ∨ (c.apply s).2 = [WindowEvent.frameBoundary]
      ∨ ∃ handle, handleOf c = some handle ∧ s.gw_sent = false
          ∧ (c.apply s).2
            = [WindowEvent.sendMessage MessageTag.MSGB_WINDOW_ID,
               WindowEvent.sendData handle sizeofWindow, WindowEvent.frameBoundary] := by
  obtain ⟨gw, sent⟩ := s
  cases c with
  | SDL_CreateWindow created => simp [WindowCall.apply, SDL_CreateWindow]
  | SDL_CreateWindowAndRenderer created =>
    simp [WindowCall.apply, SDL_CreateWindowAndRenderer]
  | SDL_DestroyWindow window => simp [WindowCall.apply, SDL_DestroyWindow]
  | SDL_GL_SwapWindow window info =>
    cases sent <;> cases info <;> by_cases hw : gw = 0 <;>
      simp [WindowCall.apply, SDL_GL_SwapWindow, sendXid, handleOf, hw]
  | SDL_RenderPresent info =>
    cases sent <;> cases info <;> by_cases hw : gw = 0 <;>
      simp [WindowCall.apply, SDL_RenderPresent, sendXid, handleOf, hw]
  | SDL_GL_SwapBuffers =>
    cases sent <;> simp [WindowCall.apply, SDL_GL_SwapBuffers, handleOf]
  | SDL_Flip =>
    cases sent <;> simp [WindowCall.apply, SDL_Flip, handleOf]
  | glXSwapBuffers drawable =>
    cases sent <;> simp [WindowCall.apply, glXSwapBuffers, handleOf]

/-- Along a run, the number of messages sent since the last creation call stays 0 or 1,
and is 1 exactly when `gw_sent` is set. -/
theorem runCalls_inv (calls : List WindowCall) :
    ∀ (s : WindowState) (sent : Nat), sent ≤ 1 → (sent = 1 ↔ s.gw_sent = true) →
      sentSinceCreation sent (runCalls s calls).2 ≤ 1
        ∧ (sentSinceCreation sent (runCalls s calls).2 = 1
            ↔ (runCalls s calls).1.gw_sent = true) := by
  induction calls with
  | nil => intro s sent h1 h2; exact ⟨h1, h2⟩
  | cons c calls ih =>
    intro s sent h1 h2
    simp only [runCalls, sentSinceCreation]
    obtain ⟨_, hc, hn, _⟩ := apply_step s c
    apply ih
    · cases hcr : isCreation c with
      | true =>
        rw [(hc hcr).1]
        simp [idMessages]
      | false =>
        simp only [Bool.false_eq_true, if_false]
        cases hs : s.gw_sent with
        | true =>
          have := (hn hcr).1 hs
          omega
        | false =>
          have hs0 : sent = 0 := by
            rcases Nat.lt_or_ge sent 1 with h | h
            · omega
            · have : sent = 1 := by omega
              rw [h2.mp this] at hs
              cases hs
          rcases (hn hcr).2 hs with h | h <;> omega
    · cases hcr : isCreation c with
      | true =>
        rw [(hc hcr).1, (hc hcr).2]
        simp [idMessages]
      | false =>
        simp only [Bool.false_eq_true, if_false]
        cases hs : s.gw_sent with
        | true =>
          have h := (hn hcr).1 hs
          have : sent = 1 := h2.mpr hs
          rw [h.1, h.2]
          simp [this]
        | false =>
          have hs0 : sent = 0 := by
            rcases Nat.lt_or_ge sent 1 with h | h
            · omega
            · have : sent = 1 := by omega
              rw [h2.mp this] at hs
              cases hs
          rcases (hn hcr).2 hs with h | h <;> rw [h.1, h.2, hs0] <;> simp

theorem runCalls_entries (calls : List WindowCall) :
    ∀ (s : WindowState), ∀ entry ∈ (runCalls s calls).2,
      wellFormedMessages entry.2 = true ∧ idMessages entry.2 ≤ 1
        ∧ (isCreation entry.1 = true → entry.2 = [])
        ∧ (entry.2 = [] ∨ entry.2 = [WindowEvent.logError]
            ∨ entry.2 = [WindowEvent.frameBoundary]
            ∨ ∃ handle, handleOf entry.1 = some handle
                ∧ entry.2
                  = [WindowEvent.sendMessage MessageTag.MSGB_WINDOW_ID,
                     WindowEvent.sendData handle sizeofWindow,
                     WindowEvent.frameBoundary]) := by
  induction calls with
  | nil => intro s entry h; simp [runCalls] at h
  | cons c calls ih =>
    intro s entry h
    simp only [runCalls, List.mem_cons] at h
    rcases h with h | h
    · subst h
      obtain ⟨hw, hc, hn, _⟩ := apply_step s c
      have hev : (c.apply s).2 = [] ∨ (c.apply s).2 = [WindowEvent.logError]
          ∨ (c.apply s).2 = [WindowEvent.frameBoundary]
          ∨ ∃ handle, handleOf c = some handle
              ∧ (c.apply s).2
                = [WindowEvent.sendMessage MessageTag.MSGB_WINDOW_ID,
                   WindowEvent.sendData handle sizeofWindow,
                   WindowEvent.frameBoundary] := by
        rcases apply_events s c with h | h | h | ⟨handle, h1, _, h2⟩
        · exact Or.inl h
        · exact Or.inr (Or.inl h)
        · exact Or.inr (Or.inr (Or.inl h))
        · exact Or.inr (Or.inr (Or.inr ⟨handle, h1, h2⟩))
      refine ⟨hw, ?_, fun hcr => (hc hcr).1, hev⟩
      cases hcr : isCreation c with
      | true =>
        show idMessages (c.apply s).2 ≤ 1
        rw [(hc hcr).1]
        simp [idMessages]
      | false =>
        show idMessages (c.apply s).2 ≤ 1
        cases hs : s.gw_sent with
        | true =>
          have := (hn hcr).1 hs
          omega
        | false =>
          rcases (hn hcr).2 hs with h | h <;> omega
    · exact ih _ entry h

/-- Claim C22, amended. The code tracks one game window. For every sequence of calls to
the overridden window-creation, window-destruction and present functions, started from
the initial globals: the number of window-id messages sent since the last creation call
is at most one, and is one exactly when `gw_sent` is set; a present call reaches the
frame boundary only with one message sent since the last creation call; and every call
either sends nothing (it makes no call, logs an error, or goes to the frame boundary
alone) or sends exactly the tag `MSGB_WINDOW_ID`, followed at once by `sizeof(Window)`
bytes holding the handle of the call, before it goes to the frame boundary. The handle
is the X11 id of `gameWindow` for `SDL_GL_SwapWindow` and `SDL_RenderPresent`, the
drawable for `glXSwapBuffers` and the dummy `0` for `SDL_GL_SwapBuffers` and `SDL_Flip`;
a creation or destruction call sends nothing. -/
theorem window_id_once (calls : List WindowCall) :
    sentSinceCreation 0 (runCalls WindowState.initial calls).2 ≤ 1
      ∧ (sentSinceCreation 0 (runCalls WindowState.initial calls).2 = 1
          ↔ (runCalls WindowState.initial calls).1.gw_sent = true)
      ∧ (∀ c : WindowCall,
          WindowEvent.frameBoundary ∈ (c.apply (runCalls WindowState.initial calls).1).2 →
          sentSinceCreation 0 (runCalls WindowState.initial (calls ++ [c])).2 = 1)
      ∧ (∀ entry ∈ (runCalls WindowState.initial calls).2,
          wellFormedMessages entry.2 = true ∧ idMessages entry.2 ≤ 1
            ∧ (isCreation entry.1 = true → entry.2 = [])
            ∧ (entry.2 = [] ∨ entry.2 = [WindowEvent.logError]
                ∨ entry.2 = [WindowEvent.frameBoundary]
                ∨ ∃ handle, handleOf entry.1 = some handle
                    ∧ entry.2
                      = [WindowEvent.sendMessage MessageTag.MSGB_WINDOW_ID,
                         WindowEvent.sendData handle sizeofWindow,
                         WindowEvent.frameBoundary]))
      ∧ (∀ (window drawable : Nat) (info : WMInfo),
          handleOf (WindowCall.SDL_GL_SwapWindow window (WMInfo.x11 drawable)) = some drawable
            ∧ handleOf (WindowCall.SDL_RenderPresent (WMInfo.x11 drawable)) = some drawable
            ∧ handleOf (WindowCall.glXSwapBuffers drawable) = some drawable
            ∧ handleOf WindowCall.SDL_GL_SwapBuffers = some 0
            ∧ handleOf WindowCall.SDL_Flip = some 0
            ∧ handleOf (WindowCall.SDL_CreateWindow window) = none
            ∧ handleOf (WindowCall.SDL_CreateWindowAndRenderer window) = none
            ∧ handleOf (WindowCall.SDL_DestroyWindow window) = none
            ∧ ((∀ other, info ≠ WMInfo.x11 other) →
                handleOf (WindowCall.SDL_GL_SwapWindow window info) = none
                  ∧ handleOf (WindowCall.SDL_RenderPresent info) = none)) := by
  have h0 : ((0 : Nat) = 1 ↔ WindowState.initial.gw_sent = true) := by
    simp [WindowState.initial]
  obtain ⟨h1, h2⟩ := runCalls_inv calls WindowState.initial 0 (by omega) h0
  refine ⟨h1, h2, ?_, runCalls_entries calls WindowState.initial, ?_⟩
  · intro c hc
    obtain ⟨_, h4⟩ := runCalls_inv (calls ++ [c]) WindowState.initial 0 (by omega) h0
    rw [h4, runCalls_append]
    simp only [runCalls]
    exact (apply_step _ c).2.2.2 hc
  · intro window drawable info
    refine ⟨rfl, rfl, rfl, rfl, rfl, rfl, rfl, rfl, ?_⟩
    intro hno
    cases info with
    | failed => exact ⟨rfl, rfl⟩
    | notX11 => exact ⟨rfl, rfl⟩
    | x11 other => exact absurd rfl (hno other)

/-- One window at a time: a window is created and presented three times, destroyed, and
a second window is created and presented. Each window id is sent once, 11 then 22, and
one message has been sent since the last creation call. -/
theorem window_id_once_witness :
    ((runCalls WindowState.initial
        [WindowCall.SDL_CreateWindow 1, WindowCall.SDL_GL_SwapWindow 1 (WMInfo.x11 11),
         WindowCall.SDL_GL_SwapWindow 1 (WMInfo.x11 11), WindowCall.glXSwapBuffers 11,
         WindowCall.SDL_DestroyWindow 1, WindowCall.SDL_CreateWindowAndRenderer 2,
         WindowCall.SDL_RenderPresent (WMInfo.x11 22)]).2.flatMap
          (fun entry => payloads entry.2) = [11, 22])
      ∧ sentSinceCreation 0 (runCalls WindowState.initial
        [WindowCall.SDL_CreateWindow 1, WindowCall.SDL_GL_SwapWindow 1 (WMInfo.x11 11),
         WindowCall.SDL_GL_SwapWindow 1 (WMInfo.x11 11), WindowCall.glXSwapBuffers 11,
         WindowCall.SDL_DestroyWindow 1, WindowCall.SDL_CreateWindowAndRenderer 2,
         WindowCall.SDL_RenderPresent (WMInfo.x11 22)]).2 ≤ 1 :=
  ⟨by decide, (window_id_once
        [WindowCall.SDL_CreateWindow 1, WindowCall.SDL_GL_SwapWindow 1 (WMInfo.x11 11),
         WindowCall.SDL_GL_SwapWindow 1 (WMInfo.x11 11), WindowCall.glXSwapBuffers 11,
         WindowCall.SDL_DestroyWindow 1, WindowCall.SDL_CreateWindowAndRenderer 2,
         WindowCall.SDL_RenderPresent (WMInfo.x11 22)]).1⟩

/-- Two windows open at a time. Window 1 (X id 11) is created and presented, window 2 is
created, and window 1 is presented again with `glXSwapBuffers`: the id 11 is sent a
second time while window 1 is still open. And when window 2 (X id 22) is created right
after window 1, presenting window 1 with `SDL_GL_SwapWindow` sends the id of window 2,
the one in `gameWindow`: window 1 is presented without its id ever being sent. -/
theorem window_id_once_counterexample :
    ((runCalls WindowState.initial
        [WindowCall.SDL_CreateWindow 1, WindowCall.glXSwapBuffers 11,
         WindowCall.SDL_CreateWindow 2, WindowCall.glXSwapBuffers 11]).2.flatMap
          (fun entry => payloads entry.2) = [11, 11])
      ∧ ((runCalls WindowState.initial
        [WindowCall.SDL_CreateWindow 1, WindowCall.SDL_CreateWindow 2,
         WindowCall.SDL_GL_SwapWindow 1 (WMInfo.x11 22)]).2
          = [(WindowCall.SDL_CreateWindow 1, []), (WindowCall.SDL_CreateWindow 2, []),
             (WindowCall.SDL_GL_SwapWindow 1 (WMInfo.x11 22),
               [WindowEvent.sendMessage MessageTag.MSGB_WINDOW_ID,
                WindowEvent.sendData 22 sizeofWindow, WindowEvent.frameBoundary])]) := by
  decide

/-! ## The value of the override -/

theorem overrides_append (a b : List Event) :
    overrides (a ++ b) = overrides a ++ overrides b := by
  induction a with
  | nil => rfl
  | cons e a ih => cases e <;> simp [overrides, ih]

theorem setupTrace_overrides (self : AudioSource) (curBuf : AudioBuffer) (outFrequency : Int) :
    overrides (setupTrace self curBuf outFrequency) = [] := by
  unfold setupTrace
  split_ifs <;> rfl

/-- What the refill loop computes is the offset of the statement, split the same way. -/
theorem extraTicks_eq (r f : Int) :
    (⟨((1000000000 * (-r)).tdiv f).tdiv 1000000000,
      ((1000000000 * (-r)).tdiv f).tmod 1000000000⟩ : timespec) = overrideValue r f := by
  have h : (1000000000 * (-r)).tdiv f = overrideOffset r f := by
    unfold overrideOffset
    rw [← Int.neg_tdiv]
    congr 1
    ring
  unfold overrideValue
  rw [h]

/-- The offset for `r > 0` samples at a frequency `f > 0`: it is the duration of the
`r` samples in nanoseconds, rounded down, with a minus sign, and both components of its
split are non-positive. -/
theorem overrideValue_spec (r f : Int) (hr : 0 < r) (hf : 0 < f) :
    (overrideValue r f).nanos = overrideOffset r f
      ∧ overrideOffset r f ≤ 0
      ∧ (overrideValue r f).tv_sec ≤ 0
      ∧ (overrideValue r f).tv_nsec ≤ 0
      ∧ -1000000000 < (overrideValue r f).tv_nsec
      ∧ -(overrideOffset r f) = (r * 1000000000) / f := by
  have hnn : 0 ≤ (r * 1000000000).tdiv f :=
    Int.tdiv_nonneg (by positivity) hf.le
  have hT : overrideOffset r f ≤ 0 := by
    unfold overrideOffset
    omega
  have hsplit := Int.tdiv_add_tmod (overrideOffset r f) 1000000000
  have hsec : (overrideOffset r f).tdiv 1000000000 ≤ 0 := by
    have := Int.tdiv_nonneg (a := -(overrideOffset r f)) (b := 1000000000) (by omega)
      (by norm_num)
    rw [Int.neg_tdiv] at this
    omega
  have hneg : (-(overrideOffset r f)).tmod 1000000000
      = -((overrideOffset r f).tmod 1000000000) := by
    rw [Int.tmod_def, Int.tmod_def, Int.neg_tdiv]
    ring
  have hnsec : (overrideOffset r f).tmod 1000000000 ≤ 0 := by
    have := Int.tmod_nonneg (a := -(overrideOffset r f)) 1000000000 (by omega)
    rw [hneg] at this
    omega
  have hnsec2 : -1000000000 < (overrideOffset r f).tmod 1000000000 := by
    have := Int.tmod_lt_of_pos (-(overrideOffset r f)) (b := 1000000000) (by norm_num)
    rw [hneg] at this
    omega
  refine ⟨?_, hT, hsec, hnsec, hnsec2, ?_⟩
  · simp only [overrideValue, timespec.nanos]
    omega
  · unfold overrideOffset
    rw [neg_neg]
    exact Int.tdiv_eq_ediv (by positivity) hf.le

theorem refillPasses_pos {σ : Type} (callback : σ → AudioBuffer → σ × AudioBuffer) :
    ∀ (fuel : Nat) (env : σ) (buf : AudioBuffer) (rem : Int),
      ∀ p ∈ refillPasses callback fuel env buf rem, 0 < p.1 := by
  intro fuel
  induction fuel with
  | zero => intro env buf rem p hp; simp [refillPasses] at hp
  | succ fuel ih =>
    intro env buf rem p hp
    by_cases hr : 0 < rem
    · simp only [refillPasses, hr, if_true, List.mem_cons] at hp
      rcases hp with hp | hp
      · rw [hp]
        exact hr
      · exact ih _ _ _ p hp
    · simp [refillPasses, hr] at hp

/-- The overrides of the refill loop, pass by pass. -/
theorem refillLoop_overrides {σ : Type} (callback : σ → AudioBuffer → σ × AudioBuffer) :
    ∀ (fuel : Nat) (env : σ) (buf : AudioBuffer) (rem pos : Int) (trace : List Event)
      (env1 : σ) (buf1 : AudioBuffer) (pos1 : Int) (tr : List Event),
      refillLoop callback fuel env buf rem pos trace = .ok (env1, buf1, pos1, tr) →
      overrides tr = overrides trace
          ++ (refillPasses callback fuel env buf rem).flatMap
              (fun p => [overrideValue p.1 p.2, ⟨0, 0⟩])
        ∧ callbackCount tr
          = callbackCount trace + (refillPasses callback fuel env buf rem).length := by
  intro fuel
  induction fuel with
  | zero =>
    intro env buf rem pos trace env1 buf1 pos1 tr h
    by_cases hr : 0 < rem
    · simp [refillLoop, hr] at h
    · simp only [refillLoop, hr, if_false, Except.ok.injEq, Prod.mk.injEq] at h
      obtain ⟨_, _, _, e⟩ := h
      subst e
      simp [refillPasses]
  | succ fuel ih =>
    intro env buf rem pos trace env1 buf1 pos1 tr h
    by_cases hr : 0 < rem
    · by_cases hf : buf.frequency = 0
      · simp [refillLoop, hr, hf] at h
      · simp only [refillLoop, hr, if_true, hf, if_false] at h
        obtain ⟨h1, h2⟩ := ih _ _ _ _ _ _ _ _ _ h
        rw [h1, h2]
        simp only [refillPasses, hr, if_true, List.flatMap_cons, overrides_append,
          callbackCount_append, List.length_cons, extraTicks_eq]
        constructor
        · simp [overrides]
        · simp [callbackCount, List.count_cons]
          omega
    · simp only [refillLoop, hr, if_false, Except.ok.injEq, Prod.mk.injEq] at h
      obtain ⟨_, _, _, e⟩ := h
      subst e
      simp [refillPasses, hr]

/-- The overrides of the traversal of a callback-fed source. -/
theorem advance_overrides {σ : Type} (fuel : Nat)
    (callback : σ → AudioBuffer → σ × AudioBuffer)
    (s : AudioSource) (env : σ) (curBuf : AudioBuffer) (n outNb : Int) (trace : List Event)
    (s1 : AudioSource) (env1 : σ) (tr : List Event)
    (hsrc : s.source = SourceType.SOURCE_CALLBACK)
    (h : advance fuel callback s env curBuf n outNb trace = .ok (s1, env1, tr)) :
    overrides tr = overrides trace
        ++ (refillPasses callback fuel env curBuf
            (n - curBuf.getSamples n s.position)).flatMap
              (fun p => [overrideValue p.1 p.2, ⟨0, 0⟩])
      ∧ callbackCount tr = callbackCount trace
          + (refillPasses callback fuel env curBuf
              (n - curBuf.getSamples n s.position)).length := by
  unfold advance at h
  by_cases hfull : curBuf.getSamples n s.position = n
  · simp only [hfull, if_true, Except.ok.injEq, Prod.mk.injEq] at h
    obtain ⟨_, _, e⟩ := h
    subst e
    have hnone : refillPasses callback fuel env curBuf (n - n) = [] := by
      cases fuel <;> simp [refillPasses]
    rw [hfull, hnone]
    simp [overrides_append, overrides, callbackCount_append, callbackCount]
  · simp only [hfull, if_false, hsrc, if_true] at h
    split at h
    · cases h
    · rename_i envr bufr posr trr hloop
      simp only [Except.ok.injEq, Prod.mk.injEq] at h
      obtain ⟨_, _, e⟩ := h
      subst e
      obtain ⟨h1, h2⟩ := refillLoop_overrides callback _ _ _ _ _ _ _ _ _ _ hloop
      have h0 : overrides (if 0 < curBuf.getSamples n s.position then
            trace ++ [Event.swr_convert 0 (curBuf.getSamples n s.position)] else trace)
            = overrides trace
          ∧ callbackCount (if 0 < curBuf.getSamples n s.position then
            trace ++ [Event.swr_convert 0 (curBuf.getSamples n s.position)] else trace)
            = callbackCount trace := by
        split_ifs
        · simp [overrides_append, overrides, callbackCount_append, callbackCount]
        · exact ⟨rfl, rfl⟩
      rw [overrides_append, callbackCount_append, h1, h2, h0.1, h0.2]
      simp [overrides, callbackCount]

/-- Claim C23. In a `mixWith` call that returns on a playing callback-fed source, the
values handed to `fakeAdvanceTimer` are, pass by pass of the refill loop, the offset
`T = -(r * 10^9 div f)` for the `r` samples still to be read and the frequency `f` of
the buffer at that pass, split as `tv_sec = T div 10^9`, `tv_nsec = T rem 10^9`, each
followed by the reset `{0, 0}`; there is one pass per callback invocation and `r > 0` at
every pass. For `r > 0` and `f > 0` the split denotes `T` nanoseconds, `T ≤ 0`, both
components are non-positive, and `-T` is the duration of `r` samples rounded down. -/
theorem mixWith_override_value {σ : Type} (fuel : Nat)
    (callback : σ → AudioBuffer → σ × AudioBuffer) (swr : Resampler) (self : AudioSource)
    (env : σ) (ticks : timespec) (outSamples : List Int)
    (outBytes outBitDepth outNbChannels outFrequency : Int) (outVolume : ℚ)
    (curBuf : AudioBuffer) (r : MixResult σ)
    (hst : self.state = SourceState.SOURCE_PLAYING)
    (hsrc : self.source = SourceType.SOURCE_CALLBACK)
    (hbuf : bufferAt self.buffer_queue self.queue_index = some curBuf)
    (hready : ResamplerReady swr self)
    (h : self.mixWith fuel callback swr env ticks outSamples outBytes outBitDepth
        outNbChannels outFrequency outVolume = .ok r) :
    overrides r.trace
        = (refillPasses callback fuel env curBuf
            ((self.ticksToSamples ticks curBuf.frequency).1
              - curBuf.getSamples (self.ticksToSamples ticks curBuf.frequency).1
                  self.position)).flatMap
            (fun p => [overrideValue p.1 p.2, ⟨0, 0⟩])
      ∧ callbackCount r.trace
        = (refillPasses callback fuel env curBuf
            ((self.ticksToSamples ticks curBuf.frequency).1
              - curBuf.getSamples (self.ticksToSamples ticks curBuf.frequency).1
                  self.position)).length
      ∧ (∀ p ∈ refillPasses callback fuel env curBuf
            ((self.ticksToSamples ticks curBuf.frequency).1
              - curBuf.getSamples (self.ticksToSamples ticks curBuf.frequency).1
                  self.position),
          0 < p.1 ∧ (0 < p.2 →
            (overrideValue p.1 p.2).nanos = overrideOffset p.1 p.2
              ∧ overrideOffset p.1 p.2 ≤ 0
              ∧ (overrideValue p.1 p.2).tv_sec ≤ 0
              ∧ (overrideValue p.1 p.2).tv_nsec ≤ 0
              ∧ -1000000000 < (overrideValue p.1 p.2).tv_nsec
              ∧ -(overrideOffset p.1 p.2) = (p.1 * 1000000000) / p.2)) := by
  have hpass : ∀ p ∈ refillPasses callback fuel env curBuf
      ((self.ticksToSamples ticks curBuf.frequency).1
        - curBuf.getSamples (self.ticksToSamples ticks curBuf.frequency).1 self.position),
      0 < p.1 ∧ (0 < p.2 →
        (overrideValue p.1 p.2).nanos = overrideOffset p.1 p.2
          ∧ overrideOffset p.1 p.2 ≤ 0
          ∧ (overrideValue p.1 p.2).tv_sec ≤ 0
          ∧ (overrideValue p.1 p.2).tv_nsec ≤ 0
          ∧ -1000000000 < (overrideValue p.1 p.2).tv_nsec
          ∧ -(overrideOffset p.1 p.2) = (p.1 * 1000000000) / p.2) := by
    intro p hp
    have h1 := refillPasses_pos callback _ _ _ _ p hp
    exact ⟨h1, fun h2 => overrideValue_spec p.1 p.2 h1 h2⟩
  have hadv := mixWith_playing_inv fuel callback swr self env ticks outSamples outBytes
    outBitDepth outNbChannels outFrequency outVolume curBuf r hst hbuf hready h
  obtain ⟨fpos, _, _, _, _, fsrc⟩ := beforeAdvance_fields
      (mixedAfter swr self.mixedSamples outBytes outBitDepth outNbChannels) self ticks curBuf
  obtain ⟨h1, h2⟩ := advance_overrides fuel callback _ env curBuf _ _ _ _ _ _
    (by rw [fsrc]; exact hsrc) hadv
  rw [fpos] at h1 h2
  rw [setupTrace_overrides] at h1
  rw [(setupTrace_quiet self curBuf outFrequency).1] at h2
  refine ⟨by simpa using h1, by simpa using h2, hpass⟩

/-- A callback-fed source that has 100 of the 150 samples requested, at 1000 Hz, and a
callback that supplies 20 samples at a time: the overrides are -50 ms, -30 ms and
-10 ms, each followed by the reset. -/
theorem mixWith_override_value_witness :
    overrides
        ([Event.swr_init 1000 44100, Event.swr_convert 0 100]
          ++ [(⟨0, -50000000⟩, 20), (⟨0, -30000000⟩, 20), (⟨0, -10000000⟩, (10 : Int))].flatMap
              refillEvents
          ++ [Event.swr_convert 0 0])
      = [⟨0, -50000000⟩, ⟨0, 0⟩, ⟨0, -30000000⟩, ⟨0, 0⟩, ⟨0, -10000000⟩, ⟨0, 0⟩]
    ∧ overrides
        ([Event.swr_init 1000 44100, Event.swr_convert 0 100]
          ++ [(⟨0, -50000000⟩, 20), (⟨0, -30000000⟩, 20), (⟨0, -10000000⟩, (10 : Int))].flatMap
              refillEvents
          ++ [Event.swr_convert 0 0])
      = (refillPasses refill20 150 () (bufferOfSize 1000)
          (({ twoBufferSource false with
                source := SourceType.SOURCE_CALLBACK }.ticksToSamples ⟨0, 150000000⟩
              (bufferOfSize 1000).frequency).1
            - (bufferOfSize 1000).getSamples
                ({ twoBufferSource false with
                    source := SourceType.SOURCE_CALLBACK }.ticksToSamples ⟨0, 150000000⟩
                  (bufferOfSize 1000).frequency).1
                ({ twoBufferSource false with
                    source := SourceType.SOURCE_CALLBACK }).position)).flatMap
          (fun p => [overrideValue p.1 p.2, ⟨0, 0⟩]) :=
  ⟨by decide,
   (mixWith_override_value 150 refill20 idleResampler
    { twoBufferSource false with source := SourceType.SOURCE_CALLBACK } () ⟨0, 150000000⟩ []
    0 16 2 44100 1 (bufferOfSize 1000)
    ⟨0, { twoBufferSource false with
            source := SourceType.SOURCE_CALLBACK
            swr_initialized := true
            position := 10
            buffer_queue := [{ bufferOfSize 1000 with sampleSize := 20 }, bufferOfSize 500] },
      [], (),
      [Event.swr_init 1000 44100, Event.swr_convert 0 100]
        ++ [(⟨0, -50000000⟩, 20), (⟨0, -30000000⟩, 20), (⟨0, -10000000⟩, (10 : Int))].flatMap
            refillEvents
        ++ [Event.swr_convert 0 0]⟩
    rfl rfl rfl (Or.inr rfl) rfl).1⟩

/-! ## The cursor stays in bounds -/

theorem mixFrame8_assigned (m : List Int) (l r c s : Int) (out : List Int) :
    mixFrame8 m l r c s out ≠ .error Fault.unassignedRead := by
  unfold mixFrame8
  split
  · simp only
    split_ifs
    · split <;> simp
    · simp
  · simp

theorem mixFrame16_assigned (m : List Int) (l r c s : Int) (out : List Int) :
    mixFrame16 m l r c s out ≠ .error Fault.unassignedRead := by
  unfold mixFrame16
  split
  · simp only
    split_ifs
    · split <;> simp
    · simp
  · simp

theorem mixLoop_assigned (body : Int → List Int → Except Fault (List Int))
    (hbody : ∀ s out, body s out ≠ .error Fault.unassignedRead) (c limit : Int) :
    ∀ (fuel : Nat) (s : Int) (out : List Int),
      mixLoop body c limit fuel s out ≠ .error Fault.unassignedRead := by
  intro fuel
  induction fuel with
  | zero =>
    intro s out
    simp only [mixLoop]
    split_ifs <;> simp
  | succ fuel ih =>
    intro s out
    simp only [mixLoop]
    split_ifs
    · cases hb : body s out with
      | ok o => exact ih _ _
      | error e =>
        simp only [ne_eq, Except.error.injEq]
        intro he
        subst he
        exact hbody s out hb
    · simp

theorem mixOutput_assigned (m : List Int) (conv l r depth c : Int) (out : List Int) :
    mixOutput m conv l r depth c out ≠ .error Fault.unassignedRead := by
  unfold mixOutput
  simp only
  split
  · rename_i e he
    simp only [ne_eq, Except.error.injEq]
    intro h
    subst h
    by_cases h8 : depth = 8
    · rw [if_pos h8] at he
      exact mixLoop_assigned _ (mixFrame8_assigned m l r c) _ _ _ _ _ he
    · rw [if_neg h8] at he
      cases he
  · by_cases h16 : depth = 16
    · rw [if_pos h16]
      exact mixLoop_assigned _ (mixFrame16_assigned m l r c) _ _ _ _ _
    · rw [if_neg h16]
      simp

theorem refillLoop_assigned {σ : Type} (callback : σ → AudioBuffer → σ × AudioBuffer) :
    ∀ (fuel : Nat) (env : σ) (buf : AudioBuffer) (rem pos : Int) (trace : List Event),
      refillLoop callback fuel env buf rem pos trace ≠ .error Fault.unassignedRead := by
  intro fuel
  induction fuel with
  | zero =>
    intro env buf rem pos trace
    simp only [refillLoop]
    split_ifs <;> simp
  | succ fuel ih =>
    intro env buf rem pos trace
    by_cases hr : 0 < rem
    · by_cases hf : buf.frequency = 0
      · simp [refillLoop, hr, hf]
      · simp only [refillLoop, hr, if_true, hf, if_false]
        exact ih _ _ _ _ _
    · simp [refillLoop, hr]

theorem loopQueue_assigned (q : List AudioBuffer) :
    ∀ (fuel i : Nat) (rem : Int) (final : Option (Int × Int)) (trace : List Event),
      loopQueue q fuel i rem final trace ≠ .error Fault.unassignedRead := by
  intro fuel
  induction fuel with
  | zero =>
    intro i rem final trace
    simp only [loopQueue]
    split_ifs <;> simp
  | succ fuel ih =>
    intro i rem final trace
    simp only [loopQueue]
    split_ifs
    · cases hb : q[i]? with
      | none => simp
      | some b => exact ih _ _ _ _
    · simp

theorem walkQueue_assigned (q : List AudioBuffer) :
    ∀ (fuel i : Nat) (rem : Int) (final : Option (Int × Int)) (trace : List Event),
      walkQueue q fuel i rem final trace ≠ .error Fault.unassignedRead := by
  intro fuel
  induction fuel with
  | zero =>
    intro i rem final trace
    simp only [walkQueue]
    split_ifs <;> simp
  | succ fuel ih =>
    intro i rem final trace
    simp only [walkQueue]
    split_ifs
    · cases hb : q[i]? with
      | none => simp
      | some b => exact ih _ _ _ _
    · simp

/-- The traversal never reads `finalIndex` or `finalPos` unassigned: when the loop over
the queue ends with nothing left to read, its last pass has assigned both. -/
theorem advance_assigned {σ : Type} (fuel : Nat)
    (callback : σ → AudioBuffer → σ × AudioBuffer)
    (s : AudioSource) (env : σ) (curBuf : AudioBuffer) (n outNb : Int) (trace : List Event) :
    advance fuel callback s env curBuf n outNb trace ≠ .error Fault.unassignedRead := by
  unfold advance
  by_cases hfull : curBuf.getSamples n s.position = n
  · simp [hfull]
  · have hlt : curBuf.getSamples n s.position < n := by
      have := min_le_left n (curBuf.sampleSize - s.position)
      simp only [AudioBuffer.getSamples] at hfull ⊢
      omega
    simp only [hfull, if_false]
    by_cases hsrc : s.source = SourceType.SOURCE_CALLBACK
    · simp only [hsrc, if_true]
      split
      · rename_i e he
        simp only [ne_eq, Except.error.injEq]
        intro h
        subst h
        exact refillLoop_assigned callback _ _ _ _ _ _ he
      · simp
    · simp only [hsrc, if_false]
      split
      · rename_i e he
        simp only [ne_eq, Except.error.injEq]
        intro h
        subst h
        by_cases hl : s.looping = true
        · simp only [hl, if_true] at he
          exact loopQueue_assigned _ _ _ _ _ _ he
        · simp only [hl, if_false] at he
          exact walkQueue_assigned _ _ _ _ _ _ he
      · rename_i rem1 fin trr hwalk
        by_cases hrem : 0 < rem1
        · simp [hrem]
        · simp only [hrem, if_false]
          have hgood : ∃ (fi : Nat) (fp : Int) (b : AudioBuffer),
              fin = some ((fi : Int), fp) ∧ s.buffer_queue[fi]? = some b ∧ 0 < fp
                ∧ fp ≤ b.sampleSize := by
            by_cases hl : s.looping = true
            · simp only [hl, if_true] at hwalk
              exact loopQueue_inv _ _ _ _ _ _ _ _ _ hwalk (fun hle => by omega) (by omega)
            · simp only [hl, if_false] at hwalk
              exact walkQueue_inv _ _ _ _ _ _ _ _ _ hwalk (fun hle => by omega) (by omega)
          obtain ⟨fi, fp, b, efin, _⟩ := hgood
          subst efin
          simp

theorem mixWith_assigned {σ : Type} (fuel : Nat)
    (callback : σ → AudioBuffer → σ × AudioBuffer) (swr : Resampler) (self : AudioSource)
    (env : σ) (ticks : timespec) (outSamples : List Int)
    (outBytes outBitDepth outNbChannels outFrequency : Int) (outVolume : ℚ) :
    self.mixWith fuel callback swr env ticks outSamples outBytes outBitDepth outNbChannels
      outFrequency outVolume ≠ .error Fault.unassignedRead := by
  unfold AudioSource.mixWith
  by_cases hst : self.state = SourceState.SOURCE_PLAYING
  · rw [if_neg (not_not.mpr hst)]
    by_cases hemp : self.buffer_queue.isEmpty = true
    · rw [if_pos hemp]
      simp
    · rw [if_neg hemp]
      cases hbuf : bufferAt self.buffer_queue self.queue_index with
      | none => simp
      | some curBuf =>
        simp only
        by_cases hsetup : ¬ self.swr_initialized = true ∧ ¬ swr.init_ok = true
        · rw [if_pos hsetup]
          simp
        · rw [if_neg hsetup]
          by_cases hdiv : (outNbChannels * outBitDepth).tdiv 8 = 0
          · simp [hdiv]
          · simp only [hdiv, if_false]
            split
            · rename_i e he
              simp only [ne_eq, Except.error.injEq]
              intro h
              subst h
              exact advance_assigned _ _ _ _ _ _ _ _ he
            · split
              · rename_i e he
                simp only [ne_eq, Except.error.injEq]
                intro h
                subst h
                exact mixOutput_assigned _ _ _ _ _ _ _ he
              · simp
  · rw [if_pos hst]
    simp

/-- After a traversal that requested `n ≥ 0` samples from a position `≥ 0`, over a queue
of buffers of non-negative size, the cursor designates a buffer and
`0 ≤ position ≤ sampleSize`, whether the source is still playing or has stopped. -/
theorem advance_cursor_stopped {σ : Type} (fuel : Nat)
    (callback : σ → AudioBuffer → σ × AudioBuffer)
    (s : AudioSource) (env : σ) (curBuf : AudioBuffer) (n outNb : Int) (trace : List Event)
    (s1 : AudioSource) (env1 : σ) (tr : List Event)
    (h : advance fuel callback s env curBuf n outNb trace = .ok (s1, env1, tr))
    (hbuf : bufferAt s.buffer_queue s.queue_index = some curBuf)
    (hq : ∀ b ∈ s.buffer_queue, 0 ≤ b.sampleSize)
    (hpos : 0 ≤ s.position) (hn : 0 ≤ n) :
    ∃ b, bufferAt s1.buffer_queue s1.queue_index = some b
      ∧ 0 ≤ s1.position ∧ s1.position ≤ b.sampleSize := by
  obtain ⟨hqi0, hqi, hqiL⟩ := bufferAt_some _ _ _ hbuf
  have hfirst : ∃ b, s.buffer_queue[0]? = some b ∧ 0 ≤ b.sampleSize := by
    have h0 : 0 < s.buffer_queue.length := by omega
    exact ⟨s.buffer_queue[0], List.getElem?_eq_getElem h0,
      hq _ (List.getElem_mem h0)⟩
  obtain ⟨b0, hb0, hb0s⟩ := hfirst
  unfold advance at h
  by_cases hfull : curBuf.getSamples n s.position = n
  · simp only [hfull, if_true, Except.ok.injEq, Prod.mk.injEq] at h
    obtain ⟨e, _, _⟩ := h
    subst e
    have : n ≤ curBuf.sampleSize - s.position := by
      have := min_le_right n (curBuf.sampleSize - s.position)
      simp only [AudioBuffer.getSamples] at hfull
      omega
    exact ⟨curBuf, hbuf, by simp only; omega, by simp only; omega⟩
  · have hlt : curBuf.getSamples n s.position < n := by
      have := min_le_left n (curBuf.sampleSize - s.position)
      simp only [AudioBuffer.getSamples] at hfull ⊢
      omega
    simp only [hfull, if_false] at h
    by_cases hsrc : s.source = SourceType.SOURCE_CALLBACK
    · simp only [hsrc, if_true] at h
      split at h
      · cases h
      · rename_i envr bufr posr trr hloop
        simp only [Except.ok.injEq, Prod.mk.injEq] at h
        obtain ⟨e, _, _⟩ := h
        subst e
        obtain ⟨p1, p2⟩ := refillLoop_inv callback _ _ _ _ _ _ _ _ _ _ hloop
          (fun hle => by omega)
        refine ⟨bufr, ?_, p1.le, p2⟩
        simp only [bufferAt, hqi0, if_true]
        rw [List.getElem?_set_self hqiL]
    · simp only [hsrc, if_false] at h
      split at h
      · cases h
      · rename_i rem1 fin trr hwalk
        by_cases hrem : 0 < rem1
        · simp only [hrem, if_true, Except.ok.injEq, Prod.mk.injEq] at h
          obtain ⟨e, _, _⟩ := h
          subst e
          refine ⟨b0, ?_, le_refl 0, hb0s⟩
          simp only [AudioSource.init, bufferAt, le_refl, if_true]
          exact hb0
        · simp only [hrem, if_false] at h
          have hgood : ∃ (fi : Nat) (fp : Int) (b : AudioBuffer),
              fin = some ((fi : Int), fp) ∧ s.buffer_queue[fi]? = some b ∧ 0 < fp
                ∧ fp ≤ b.sampleSize := by
            by_cases hl : s.looping = true
            · simp only [hl, if_true] at hwalk
              exact loopQueue_inv _ _ _ _ _ _ _ _ _ hwalk (fun hle => by omega) (by omega)
            · simp only [hl, if_false] at hwalk
              exact walkQueue_inv _ _ _ _ _ _ _ _ _ hwalk (fun hle => by omega) (by omega)
          obtain ⟨fi, fp, b, efin, hb, h1, h2⟩ := hgood
          subst efin
          simp only [Except.ok.injEq, Prod.mk.injEq] at h
          obtain ⟨e, _, _⟩ := h
          subst e
          exact ⟨b, by simp only [bufferAt_natCast]; exact hb, h1.le, h2⟩


/-- Claim C26. For a source with `0 ≤ queue_index < nbQueue()` and
`0 ≤ position ≤ sampleSize` of the current buffer, a queue of buffers of non-negative
size and a non-negative requested sample count, the same two bounds hold again whenever
`mixWith` returns, whether the source is still playing or has stopped; and `mixWith`
never stores an unassigned `finalIndex` or `finalPos`: the cursor update of the
queue-fed path is reached only after the traversal loop has assigned both. -/
theorem mixWith_cursor_in_bounds {σ : Type} (fuel : Nat)
    (callback : σ → AudioBuffer → σ × AudioBuffer) (swr : Resampler) (self : AudioSource)
    (env : σ) (ticks : timespec) (outSamples : List Int)
    (outBytes outBitDepth outNbChannels outFrequency : Int) (outVolume : ℚ)
    (curBuf : AudioBuffer)
    (hbuf : bufferAt self.buffer_queue self.queue_index = some curBuf)
    (hpos : 0 ≤ self.position) (hpos1 : self.position ≤ curBuf.sampleSize)
    (hq : ∀ b ∈ self.buffer_queue, 0 ≤ b.sampleSize)
    (hn : 0 ≤ (self.ticksToSamples ticks curBuf.frequency).1) :
    (∀ r : MixResult σ,
        self.mixWith fuel callback swr env ticks outSamples outBytes outBitDepth
          outNbChannels outFrequency outVolume = .ok r →
        0 ≤ r.self.queue_index ∧ r.self.queue_index < r.self.nbQueue
          ∧ ∃ b, bufferAt r.self.buffer_queue r.self.queue_index = some b
              ∧ 0 ≤ r.self.position ∧ r.self.position ≤ b.sampleSize)
      ∧ self.mixWith fuel callback swr env ticks outSamples outBytes outBitDepth
          outNbChannels outFrequency outVolume ≠ .error Fault.unassignedRead := by
  refine ⟨?_, mixWith_assigned fuel callback swr self env ticks outSamples outBytes
    outBitDepth outNbChannels outFrequency outVolume⟩
  intro r hr
  have hgood : ∃ b, bufferAt r.self.buffer_queue r.self.queue_index = some b
      ∧ 0 ≤ r.self.position ∧ r.self.position ≤ b.sampleSize := by
    rcases mixWith_inv fuel callback swr self env ticks outSamples outBytes outBitDepth
      outNbChannels outFrequency outVolume r hr with h | ⟨_, cb, env1, tr0, tr1, hb, hadv⟩
    · rw [h]
      exact ⟨curBuf, hbuf, hpos, hpos1⟩
    · rw [hbuf] at hb
      injection hb with hb
      subst hb
      obtain ⟨fpos, fqi, fq, _, _, _⟩ := beforeAdvance_fields
          (mixedAfter swr self.mixedSamples outBytes outBitDepth outNbChannels) self ticks curBuf
      exact advance_cursor_stopped fuel callback _ env curBuf _ _ tr0 r.self env1 tr1 hadv
        (by rw [fq, fqi]; exact hbuf) (by rw [fq]; exact hq) (by rw [fpos]; exact hpos) hn
  obtain ⟨b, hb, h1, h2⟩ := hgood
  obtain ⟨h0, _, hL⟩ := bufferAt_some _ _ _ hb
  refine ⟨h0, ?_, b, hb, h1, h2⟩
  unfold AudioSource.nbQueue
  omega

/-- A non-looping source at sample 900 of 1000, followed by a buffer of 500, asked for
700 samples: the queue is exhausted, the source stops with the cursor at the start of
the first buffer, within bounds. -/
theorem mixWith_cursor_in_bounds_witness :
    (0 : Int) ≤ 0 ∧ (0 : Int) < (2 : Nat)
      ∧ ∃ b, bufferAt [bufferOfSize 1000, bufferOfSize 500] 0 = some b
          ∧ (0 : Int) ≤ 0 ∧ (0 : Int) ≤ b.sampleSize :=
  (mixWith_cursor_in_bounds 0 idleCallback idleResampler (twoBufferSource false) ()
    ⟨0, 700000000⟩ [] 0 16 2 44100 1 (bufferOfSize 1000)
    rfl (by decide) (by decide) (by decide) (by decide)).1
    ⟨0, { twoBufferSource false with
            state := SourceState.SOURCE_STOPPED
            position := 0 },
      [], (),
      [Event.swr_init 1000 44100, Event.swr_convert 0 100, Event.swr_convert 0 500,
       Event.swr_convert 0 0]⟩
    rfl

/-! ## Seeking -/

/-- The loop of `setPosition` from buffer `i` with `pos` left: it always ends, inside the
queue, leaving `queue_index` and the queue as they are. Either no buffer from `i` on
holds `pos` and the source is unchanged, or `position` is set in the first buffer `j`
that holds it, to the offset of `pos` in that buffer. -/
theorem setPositionLoop_spec (self : AudioSource) :
    ∀ (fuel i : Nat) (pos : Int), i + fuel = self.buffer_queue.length →
      (self.setPositionLoop fuel i pos = .ok self
        ∧ ∀ k, i ≤ k → k < self.buffer_queue.length →
            sizeBefore self.buffer_queue (k + 1) - sizeBefore self.buffer_queue i ≤ pos)
      ∨ ∃ j, i ≤ j ∧ j < self.buffer_queue.length
          ∧ self.setPositionLoop fuel i pos
            = .ok { self with
                    position := pos - (sizeBefore self.buffer_queue j
                      - sizeBefore self.buffer_queue i)
                    samples_frac := 0 }
          ∧ (∀ k, i ≤ k → k < j →
              sizeBefore self.buffer_queue (k + 1) - sizeBefore self.buffer_queue i ≤ pos)
          ∧ pos < sizeBefore self.buffer_queue (j + 1) - sizeBefore self.buffer_queue i := by
  intro fuel
  induction fuel with
  | zero =>
    intro i pos hi
    left
    refine ⟨?_, fun k hk hkL => by omega⟩
    simp only [AudioSource.setPositionLoop]
    rw [if_neg (by omega)]
  | succ fuel ih =>
    intro i pos hi
    have hiL : i < self.buffer_queue.length := by omega
    obtain ⟨b, hb⟩ : ∃ b, self.buffer_queue[i]? = some b :=
      ⟨self.buffer_queue[i], List.getElem?_eq_getElem hiL⟩
    have hsucc := sizeBefore_succ self.buffer_queue i b hb
    by_cases hlt : pos < b.sampleSize
    · right
      refine ⟨i, le_refl i, hiL, ?_, fun k hk1 hk2 => by omega, by omega⟩
      simp only [AudioSource.setPositionLoop, hiL, if_true, hb, hlt, sub_self, sub_zero]
    · rcases ih (i + 1) (pos - b.sampleSize) (by omega) with ⟨e, hall⟩ | ⟨j, hj1, hj2, e, hall, hj3⟩
      · left
        refine ⟨?_, ?_⟩
        · simp only [AudioSource.setPositionLoop, hiL, if_true, hb, hlt, if_false]
          exact e
        · intro k hk hkL
          rcases Nat.eq_or_lt_of_le hk with h | h
          · subst h
            omega
          · have := hall k (by omega) hkL
            omega
      · right
        refine ⟨j, by omega, hj2, ?_, ?_, by omega⟩
        · simp only [AudioSource.setPositionLoop, hiL, if_true, hb, hlt, if_false]
          rw [e]
          congr 2
          omega
        · intro k hk hkj
          rcases Nat.eq_or_lt_of_le hk with h | h
          · subst h
            omega
          · have := hall k (by omega) hkj
            omega

/-- Claim C24, what the code does instead. For a source and a position `p` with
`0 ≤ p < queueSize()`, `setPosition(p)` returns after setting `position` to the offset
of `p` in the buffer `j` that holds sample `p` of the queue, and `samples_frac` to 0; it
leaves `queue_index` as it was, so `getPosition()` then returns the size of the queue
before `queue_index` plus that offset, which is `p` only when the buffers before
`queue_index` total as much as the buffers before `j`. -/
theorem setPosition_getPosition (self : AudioSource) (p : Int)
    (hp0 : 0 ≤ p) (hp : p < self.queueSize) :
    ∃ (j : Nat) (s1 : AudioSource), j < self.buffer_queue.length
      ∧ sizeBefore self.buffer_queue j ≤ p ∧ p < sizeBefore self.buffer_queue (j + 1)
      ∧ self.setPosition p = .ok s1
      ∧ s1 = { self with position := p - sizeBefore self.buffer_queue j, samples_frac := 0 }
      ∧ s1.queue_index = self.queue_index
      ∧ s1.getPosition
        = sizeBefore self.buffer_queue self.queue_index.toNat
          + (p - sizeBefore self.buffer_queue j)
      ∧ (s1.getPosition = p ↔
          sizeBefore self.buffer_queue self.queue_index.toNat
            = sizeBefore self.buffer_queue j) := by
  have hQ := queueSize_eq self
  have h0 := sizeBefore_zero self.buffer_queue
  have hloop : self.setPosition p
      = self.setPositionLoop self.buffer_queue.length 0 p := by
    unfold AudioSource.setPosition
    by_cases hl : self.looping = true
    · rw [if_pos hl, if_neg (by omega), Int.tmod_eq_of_lt hp0 hp]
    · rw [if_neg hl]
  rcases setPositionLoop_spec self self.buffer_queue.length 0 p (by omega) with
    ⟨_, hall⟩ | ⟨j, _, hjL, e, hall, hj⟩
  · exfalso
    have hpos : 0 < self.buffer_queue.length := by
      rcases Nat.eq_zero_or_pos self.buffer_queue.length with h | h
      · rw [h, h0] at hQ
        omega
      · exact h
    have := hall (self.buffer_queue.length - 1) (by omega) (by omega)
    rw [Nat.sub_add_cancel hpos] at this
    omega
  · have hlow : sizeBefore self.buffer_queue j ≤ p := by
      rcases Nat.eq_zero_or_pos j with h | h
      · rw [h, h0]
        exact hp0
      · have := hall (j - 1) (by omega) (by omega)
        rw [Nat.sub_add_cancel h] at this
        omega
    have hget : ({ self with position := p - sizeBefore self.buffer_queue j,
                              samples_frac := 0 } : AudioSource).getPosition
        = sizeBefore self.buffer_queue self.queue_index.toNat
          + (p - sizeBefore self.buffer_queue j) := by
      rw [getPosition_eq]
    refine ⟨j, _, hjL, hlow, by omega, ?_, rfl, rfl, hget, ?_⟩
    · rw [hloop, e, h0, sub_zero]
    · rw [hget]
      constructor <;> intro h <;> omega

/-- A queue of buffers of 1000 and 500 samples with the cursor in the first buffer:
after `setPosition(1200)` the position is 200 in a source whose `queue_index` is still
0, and `getPosition()` returns 200, not 1200. -/
theorem setPosition_getPosition_witness :
    ∃ (j : Nat) (s1 : AudioSource), j < (twoBufferSource false).buffer_queue.length
      ∧ sizeBefore (twoBufferSource false).buffer_queue j ≤ 1200
      ∧ 1200 < sizeBefore (twoBufferSource false).buffer_queue (j + 1)
      ∧ (twoBufferSource false).setPosition 1200 = .ok s1
      ∧ s1 = { twoBufferSource false with
                position := 1200 - sizeBefore (twoBufferSource false).buffer_queue j
                samples_frac := 0 }
      ∧ s1.queue_index = (twoBufferSource false).queue_index
      ∧ s1.getPosition
        = sizeBefore (twoBufferSource false).buffer_queue
            (twoBufferSource false).queue_index.toNat
          + (1200 - sizeBefore (twoBufferSource false).buffer_queue j)
      ∧ (s1.getPosition = 1200 ↔
          sizeBefore (twoBufferSource false).buffer_queue
              (twoBufferSource false).queue_index.toNat
            = sizeBefore (twoBufferSource false).buffer_queue j) :=
  setPosition_getPosition (twoBufferSource false) 1200 (by decide) (by decide)

/-- Claim C25. On a non-looping source whose buffers have non-negative sizes, for every
`p ≥ queueSize()`, also on an empty queue, `setPosition(p)` returns without indexing
outside the queue and leaves the source as it was: `position`, `queue_index` and
`samples_frac` are unchanged. -/
theorem setPosition_out_of_range (self : AudioSource) (p : Int)
    (hloop : self.looping = false)
    (hq : ∀ b ∈ self.buffer_queue, 0 ≤ b.sampleSize)
    (hp : self.queueSize ≤ p) :
    self.setPosition p = .ok self
      ∧ ∀ s1, self.setPosition p = .ok s1 →
          s1.position = self.position ∧ s1.queue_index = self.queue_index
            ∧ s1.samples_frac = self.samples_frac := by
  have hQ := queueSize_eq self
  have h0 := sizeBefore_zero self.buffer_queue
  have hrun : self.setPosition p = .ok self := by
    unfold AudioSource.setPosition
    rw [hloop]
    simp only [Bool.false_eq_true, if_false]
    rcases setPositionLoop_spec self self.buffer_queue.length 0 p (by omega) with
      ⟨e, _⟩ | ⟨j, _, hjL, _, _, hj⟩
    · exact e
    · exfalso
      have := sizeBefore_le_total self.buffer_queue hq (j + 1)
      omega
  refine ⟨hrun, ?_⟩
  intro s1 h1
  rw [hrun] at h1
  injection h1 with h1
  subst h1
  exact ⟨rfl, rfl, rfl⟩

/-- The non-looping source over buffers of 1000 and 500 samples, with the cursor at
sample 900: `setPosition(1500)` leaves it as it is; so does `setPosition(0)` on a source
with an empty queue. -/
theorem setPosition_out_of_range_witness :
    ((twoBufferSource false).setPosition 1500 = .ok (twoBufferSource false)
      ∧ ∀ s1, (twoBufferSource false).setPosition 1500 = .ok s1 →
          s1.position = (twoBufferSource false).position
            ∧ s1.queue_index = (twoBufferSource false).queue_index
            ∧ s1.samples_frac = (twoBufferSource false).samples_frac)
    ∧ AudioSource.new.setPosition 0 = .ok AudioSource.new :=
  ⟨setPosition_out_of_range (twoBufferSource false) 1500 rfl (by decide) (by decide),
   (setPosition_out_of_range AudioSource.new 0 rfl (by decide) (by decide)).1⟩

end LibTAS
